import Mathlib

/-!
Verification development for the heap-snapshot analysis engine of
`front_end/entrypoints/heap_snapshot_worker/HeapSnapshot.ts`.

The flat-array data model and the analysis passes (edge-index build, retainer
build, DOM-state propagation, distance BFS, post-order indexing, dominator
tree, shallow-size reassignment, retained sizes, dominated-node index, diff)
are embedded as executable Lean functions over a `Snap` structure that mirrors
the `HeapSnapshot` / `JSHeapSnapshot` class fields after the meta-schema
offsets have been resolved.

Modelling conventions, mirroring the JavaScript semantics of the source:
* Typed-array reads are `Array.getD _ _ 0`; an out-of-bounds read in the
  source yields `undefined`, which every subsequent store into a typed array
  coerces to `0`, so the defaulted read gives the same observable values at
  the places where the source actually reads out of bounds
  (`postOrderIndex2NodeOrdinal[noEntry]` in `buildDominatorTree`).
* Typed-array writes are `Array.setD`, which ignores out-of-bounds stores
  exactly as JavaScript typed arrays do.
* Loops whose trip count is data-dependent (DFS, BFS, the dominator fix-point
  and its intersection walks, work-queue drains) take explicit fuel and
  return inside `Except String`, with `"out of fuel"` signalling exhaustion;
  `throw` in the source is `Except.error` with the same message text.
* `retainedSizes` is a `Float64Array` in the source; retained sizes are sums
  of `u32` self sizes and are modelled exactly as `Nat`.
-/

namespace HeapSnap

/-- Resolved snapshot state: the fields of the `HeapSnapshot` class after
`initialize()` has read the meta-schema (offsets, type indexes) plus the
derived arrays that the analysis passes fill in. -/
structure Snap where
  nodeTypeOffset : Nat
  nodeNameOffset : Nat
  nodeIdOffset : Nat
  nodeSelfSizeOffset : Nat
  nodeEdgeCountOffset : Nat
  nodeDetachednessAndClassIndexOffset : Int
  nodeFieldCount : Nat
  nodeArrayType : Nat
  nodeHiddenType : Nat
  nodeObjectType : Nat
  nodeNativeType : Nat
  nodeSyntheticType : Nat
  nodeConsStringType : Nat
  edgeFieldsCount : Nat
  edgeTypeOffset : Nat
  edgeNameOffset : Nat
  edgeToNodeOffset : Nat
  edgeElementType : Nat
  edgeHiddenType : Nat
  edgeInternalType : Nat
  edgeShortcutType : Nat
  edgeWeakType : Nat
  edgeInvisibleType : Nat
  nodes : Array Nat
  containmentEdges : Array Nat
  strings : Array String
  detachednessAndClassIndexArray : Array Nat
  rootNodeIndexInternal : Nat
  firstEdgeIndexes : Array Nat
  retainingNodes : Array Nat
  retainingEdges : Array Nat
  firstRetainerIndex : Array Nat
  nodeDistances : Array Int
  dominatorsTree : Array Nat
  retainedSizes : Array Nat
  firstDominatedNodeIndex : Array Nat
  dominatedNodes : Array Nat
  flags : Array Nat
  deriving Repr, DecidableEq

namespace Snap

/-- `this.nodeCount = this.nodes.length / this.nodeFieldCount`. -/
def nodeCount (s : Snap) : Nat := s.nodes.size / s.nodeFieldCount

/-- `this.#edgeCount = this.containmentEdges.length / this.edgeFieldsCount`. -/
def edgeCount (s : Snap) : Nat := s.containmentEdges.size / s.edgeFieldsCount

/-- Read of a slot of the `nodes` typed array. -/
def node (s : Snap) (i : Nat) : Nat := s.nodes.getD i 0

/-- Read of a slot of the `containmentEdges` typed array. -/
def edge (s : Snap) (i : Nat) : Nat := s.containmentEdges.getD i 0

/-- The root node's ordinal, `rootNodeIndexInternal / nodeFieldCount`. -/
def rootNodeOrdinal (s : Snap) : Nat := s.rootNodeIndexInternal / s.nodeFieldCount

end Snap

/-- `buildEdgeIndexes`: `firstEdgeIndexes[ordinal]` is the running sum of
`edge_count * edgeFieldsCount` over the preceding ordinals, and
`firstEdgeIndexes[nodeCount]` is `containmentEdges.length`. -/
def buildEdgeIndexes (s : Snap) : Snap :=
  let nodeCount := s.nodeCount
  let step : Array Nat × Nat → Nat → Array Nat × Nat := fun (fei, edgeIndex) nodeOrdinal =>
    (fei.setD nodeOrdinal edgeIndex,
     edgeIndex + s.node (nodeOrdinal * s.nodeFieldCount + s.nodeEdgeCountOffset) * s.edgeFieldsCount)
  let start : Array Nat := (Array.mkArray (nodeCount + 1) 0).setD nodeCount s.containmentEdges.size
  let fei := ((List.range nodeCount).foldl step (start, 0)).1
  { s with firstEdgeIndexes := fei }

/-- `buildRetainers`, first pass: count the retainers of each target ordinal,
throwing `Invalid toNodeIndex` on the first edge whose target index is not a
multiple of the node field count. -/
def retainerCounts (s : Snap) : Except String (Array Nat) :=
  (List.range s.edgeCount).foldlM
    (fun (fri : Array Nat) k => do
      let toNodeIndex := s.edge (k * s.edgeFieldsCount + s.edgeToNodeOffset)
      if toNodeIndex % s.nodeFieldCount ≠ 0 then
        throw ("Invalid toNodeIndex " ++ toString toNodeIndex)
      pure (fri.setD (toNodeIndex / s.nodeFieldCount)
        (fri.getD (toNodeIndex / s.nodeFieldCount) 0 + 1)))
    (Array.mkArray (s.nodeCount + 1) 0)

/-- One step of the second pass of `buildRetainers`: replace the count of
ordinal `i` by the first unused slot, park the count there, and advance. -/
def retainerOffsetsStep : (Array Nat × Array Nat × Nat) → Nat → (Array Nat × Array Nat × Nat) :=
  fun (fri, retainingNodes, firstUnusedRetainerSlot) i =>
    let retainersCount := fri.getD i 0
    (fri.setD i firstUnusedRetainerSlot,
     retainingNodes.setD firstUnusedRetainerSlot retainersCount,
     firstUnusedRetainerSlot + retainersCount)

/-- `buildRetainers`, second pass: convert counts to offsets, parking each
bucket's remaining count in `retainingNodes[bucketStart]`. -/
def retainerOffsets (s : Snap) (counts : Array Nat) : Array Nat × Array Nat :=
  let res := (List.range s.nodeCount).foldl retainerOffsetsStep
    (counts, Array.mkArray s.edgeCount 0, 0)
  (res.1.setD s.nodeCount s.edgeCount, res.2.1)

/-- One edge of the third pass of `buildRetainers`: claim the retainer slot
for the target bucket by decrementing the parked count, then record the
source node index and the edge index there. -/
def retainerFillEdge (s : Snap) (fri : Array Nat) (srcNodeIndex firstEdgeIndex : Nat)
    (acc : Array Nat × Array Nat) (j : Nat) : Except String (Array Nat × Array Nat) := do
  let edgeIndex := firstEdgeIndex + j * s.edgeFieldsCount
  let toNodeIndex := s.edge (edgeIndex + s.edgeToNodeOffset)
  if toNodeIndex % s.nodeFieldCount ≠ 0 then
    throw ("Invalid toNodeIndex " ++ toString toNodeIndex)
  let firstRetainerSlotIndex := fri.getD (toNodeIndex / s.nodeFieldCount) 0
  let parked := acc.1.getD firstRetainerSlotIndex 0 - 1
  let nextUnusedRetainerSlotIndex := firstRetainerSlotIndex + parked
  pure ((acc.1.setD firstRetainerSlotIndex parked).setD nextUnusedRetainerSlotIndex srcNodeIndex,
        acc.2.setD nextUnusedRetainerSlotIndex edgeIndex)

/-- One source node of the third pass of `buildRetainers`: walk its outgoing
edge records as delimited by `firstEdgeIndexes`. -/
def retainerFillNode (s : Snap) (fri : Array Nat) (acc : Array Nat × Array Nat)
    (srcNodeOrdinal : Nat) : Except String (Array Nat × Array Nat) :=
  let firstEdgeIndex := s.firstEdgeIndexes.getD srcNodeOrdinal 0
  let nextNodeFirstEdgeIndex := s.firstEdgeIndexes.getD (srcNodeOrdinal + 1) 0
  let srcNodeIndex := srcNodeOrdinal * s.nodeFieldCount
  (List.range ((nextNodeFirstEdgeIndex - firstEdgeIndex) / s.edgeFieldsCount)).foldlM
    (retainerFillEdge s fri srcNodeIndex firstEdgeIndex) acc

/-- `buildRetainers`, third pass: fill `retainingNodes` / `retainingEdges`,
claiming slots by decrementing the parked per-bucket counter. -/
def retainerFill (s : Snap) (fri retainingNodes : Array Nat) :
    Except String (Array Nat × Array Nat) :=
  (List.range s.nodeCount).foldlM (retainerFillNode s fri)
    (retainingNodes, Array.mkArray s.edgeCount 0)

/-- `buildRetainers`: the composition of the three passes. -/
def buildRetainers (s : Snap) : Except String Snap := do
  let counts ← retainerCounts s
  let (fri, parked) := retainerOffsets s counts
  let (retainingNodes, retainingEdges) ← retainerFill s fri parked
  pure { s with firstRetainerIndex := fri, retainingNodes := retainingNodes,
                retainingEdges := retainingEdges }

/-! ### The WeakMap ephemeron edge-name pattern

`tryParseWeakMapEdgeName` matches the edge name against the regular expression
`^\d+(?<duplicatedPart> \/ part of key \(.*? @\d+\) -> value \(.*? @\d+\)
pair in WeakMap \(table @(?<tableId>\d+)\))$` and returns the two captured
groups.  The regex is embedded as a specialised backtracking matcher: the two
lazy `.*?` groups take the shortest span that lets the rest of the pattern
match (tried shortest-first, outer group first, exactly as the backtracking
engine does), `\d+` runs are maximal (each is followed by a non-digit literal,
so greedy matching without backtracking is exact), and `.` excludes the
JavaScript line terminators. -/

/-- A character `.` can match: anything but a JavaScript line terminator. -/
def dotMatches (c : Char) : Bool :=
  c ≠ '\n' && c ≠ '\r' && c ≠ ' ' && c ≠ ' '

/-- Drop an expected literal from the head of the character stream. -/
def dropLit : List Char → List Char → Option (List Char)
  | [], cs => some cs
  | _ :: _, [] => none
  | l :: ls, c :: cs => if c = l then dropLit ls cs else none

/-- ` pair in WeakMap \(table @(?<tableId>\d+)\)$`: the fixed tail of the
pattern, returning the captured `tableId`. -/
def parseTableTail (cs : List Char) : Option String := do
  let cs ← dropLit " pair in WeakMap (table @".toList cs
  let ds := cs.takeWhile Char.isDigit
  let rest := cs.dropWhile Char.isDigit
  if ds.isEmpty then none
  else match rest with
    | [')'] => some (String.mk ds)
    | _ => none

/-- ` @\d+\)`: a space, an `@`, a non-empty digit run, a closing paren. -/
def parseAtNum (cs : List Char) : Option (List Char) := do
  let cs ← dropLit " @".toList cs
  let ds := cs.takeWhile Char.isDigit
  let rest := cs.dropWhile Char.isDigit
  if ds.isEmpty then none
  else match rest with
    | ')' :: rest' => some rest'
    | _ => none

/-- Lazy `.*?`: try the continuation `k` at the current position first and
consume one dot-matching character on failure. -/
def lazyScan (k : List Char → Option String) : List Char → Option String
  | [] => k []
  | c :: cs =>
    match k (c :: cs) with
    | some r => some r
    | none => if dotMatches c then lazyScan k cs else none

/-- The part of the pattern after the leading `\d+`, i.e. the
`duplicatedPart` group body; returns the captured `tableId`. -/
def parseDuplicatedPart (cs : List Char) : Option String := do
  let cs ← dropLit " / part of key (".toList cs
  lazyScan (fun r => do
      let r ← parseAtNum r
      let r ← dropLit " -> value (".toList r
      lazyScan (fun r2 => do
          let r2 ← parseAtNum r2
          parseTableTail r2) r) cs

/-- `tryParseWeakMapEdgeName(edgeNameIndex)`, without the negative-match
bit-vector cache (the cache only avoids re-parsing and never changes the
result).  Returns `(duplicatedPart, tableId)` on a match. -/
def tryParseWeakMapEdgeName (s : Snap) (edgeNameIndex : Nat) : Option (String × String) :=
  let edgeName := s.strings.getD edgeNameIndex ""
  let cs := edgeName.toList
  let ds := cs.takeWhile Char.isDigit
  let rest := cs.dropWhile Char.isDigit
  if ds.isEmpty then none
  else match parseDuplicatedPart rest with
    | some tableId => some (String.mk rest, tableId)
    | none => none

/-- `parseInt(_, 10)` on a captured all-digit group. -/
def parseDigits (t : String) : Nat :=
  t.toList.foldl (fun n c => n * 10 + (c.toNat - '0'.toNat)) 0

/-- `isEssentialEdge(nodeIndex, edgeIndex)`: weak edges are not essential,
shortcut edges are essential only at the root, and the internal edge from a
WeakMap table to an ephemeron value (recognised by the edge-name pattern)
is not essential when the source node's id is the captured table id. -/
def isEssentialEdge (s : Snap) (nodeIndex edgeIndex : Nat) : Bool :=
  let edgeType := s.edge (edgeIndex + s.edgeTypeOffset)
  let ephemeron :=
    if edgeType = s.edgeInternalType then
      tryParseWeakMapEdgeName s (s.edge (edgeIndex + s.edgeNameOffset))
    else none
  match ephemeron with
  | some (_, tableId) => s.node (nodeIndex + s.nodeIdOffset) ≠ parseDigits tableId
  | none =>
    edgeType ≠ s.edgeWeakType &&
      (edgeType ≠ s.edgeShortcutType || nodeIndex = s.rootNodeIndexInternal)

/-- `hasOnlyWeakRetainers(nodeOrdinal)`: every retaining edge of the node is
weak or shortcut (vacuously true for a node with no retainers). -/
def hasOnlyWeakRetainers (s : Snap) (nodeOrdinal : Nat) : Bool :=
  let beginRetainerIndex := s.firstRetainerIndex.getD nodeOrdinal 0
  let endRetainerIndex := s.firstRetainerIndex.getD (nodeOrdinal + 1) 0
  (List.range (endRetainerIndex - beginRetainerIndex)).all fun j =>
    let retainerEdgeIndex := s.retainingEdges.getD (beginRetainerIndex + j) 0
    let retainerEdgeType := s.edge (retainerEdgeIndex + s.edgeTypeOffset)
    retainerEdgeType = s.edgeWeakType || retainerEdgeType = s.edgeShortcutType

/-- `calculateRetainedSizes(postOrderIndex2NodeOrdinal)`: seed every ordinal
with its self size, then for each non-root post-order position add the
node's running retained size to its dominator's. -/
def calculateRetainedSizes (s : Snap) (postOrderIndex2NodeOrdinal : Array Nat) : Snap :=
  let nodeCount := s.nodeCount
  let seeded := (List.range nodeCount).foldl
    (fun rs nodeOrdinal =>
      rs.setD nodeOrdinal (s.node (nodeOrdinal * s.nodeFieldCount + s.nodeSelfSizeOffset)))
    (Array.mkArray nodeCount 0)
  let propagated := (List.range (nodeCount - 1)).foldl
    (fun rs postOrderIndex =>
      let nodeOrdinal := postOrderIndex2NodeOrdinal.getD postOrderIndex 0
      let dominatorOrdinal := s.dominatorsTree.getD nodeOrdinal 0
      rs.setD dominatorOrdinal (rs.getD dominatorOrdinal 0 + rs.getD nodeOrdinal 0))
    seeded
  { s with retainedSizes := propagated }

/-- `buildDominatedNodes`: bucket-sort the non-root ordinals by dominator.
Throws unless the root node is the first or the last node. -/
def buildDominatedNodes (s : Snap) : Except String Snap := do
  let nodeFieldCount := s.nodeFieldCount
  let nodeCount := s.nodeCount
  let rootNodeOrdinal := s.rootNodeOrdinal
  let (fromNodeOrdinal, toNodeOrdinal) ←
    if rootNodeOrdinal = 0 then pure (1, nodeCount)
    else if rootNodeOrdinal = nodeCount - 1 then pure (0, nodeCount - 1)
    else throw "Root node is expected to be either first or last"
  let indexArray := (List.range' fromNodeOrdinal (toNodeOrdinal - fromNodeOrdinal)).foldl
    (fun ia nodeOrdinal =>
      let d := s.dominatorsTree.getD nodeOrdinal 0
      ia.setD d (ia.getD d 0 + 1))
    s.firstDominatedNodeIndex
  let prefixed := (List.range nodeCount).foldl
    (fun (acc : Array Nat × Array Nat × Nat) i =>
      let (ia, dn, firstDominatedNodeIndex) := acc
      let dominatedCount := ia.getD i 0
      (ia.setD i firstDominatedNodeIndex, dn.setD firstDominatedNodeIndex dominatedCount,
       firstDominatedNodeIndex + dominatedCount))
    (indexArray, s.dominatedNodes, 0)
  let ia := prefixed.1.setD nodeCount s.dominatedNodes.size
  let filled := (List.range' fromNodeOrdinal (toNodeOrdinal - fromNodeOrdinal)).foldl
    (fun (dn : Array Nat) nodeOrdinal =>
      let dominatorOrdinal := s.dominatorsTree.getD nodeOrdinal 0
      let dominatedRefIndex := ia.getD dominatorOrdinal 0
      let parked := dn.getD dominatedRefIndex 0 - 1
      ((dn.setD dominatedRefIndex parked).setD (dominatedRefIndex + parked)
        (nodeOrdinal * nodeFieldCount)))
    prefixed.2.1
  pure { s with firstDominatedNodeIndex := ia, dominatedNodes := filled }

/-! ### Node accessors (`HeapSnapshotNode` / `JSHeapSnapshotNode`) -/

/-- `node.rawType()`. -/
def rawType (s : Snap) (nodeIndex : Nat) : Nat := s.node (nodeIndex + s.nodeTypeOffset)

/-- `JSHeapSnapshotNode.rawName()` (the plain string-table lookup). -/
def nodeRawName (s : Snap) (nodeIndex : Nat) : String :=
  s.strings.getD (s.node (nodeIndex + s.nodeNameOffset)) ""

/-- `JSHeapSnapshotNode.consStringName()`: concatenate the leaves of a cons
string by following the internal `first` / `second` edges, stopping once the
name reaches 1024 characters.  The work-list loop is fuelled. -/
def consStringName (s : Snap) (fuel : Nat) (nodesStack : List Nat) (name : String) :
    Except String String :=
  match fuel with
  | 0 => throw "out of fuel"
  | fuel + 1 =>
    match nodesStack with
    | [] => pure name
    | nodeIndex :: rest =>
      if name.length ≥ 1024 then pure name
      else if rawType s nodeIndex ≠ s.nodeConsStringType then
        consStringName s fuel rest (name ++ nodeRawName s nodeIndex)
      else
        let nodeOrdinal := nodeIndex / s.nodeFieldCount
        let beginEdgeIndex := s.firstEdgeIndexes.getD nodeOrdinal 0
        let endEdgeIndex := s.firstEdgeIndexes.getD (nodeOrdinal + 1) 0
        let step : Nat × Nat → Nat → Nat × Nat := fun (first, second) j =>
          if first ≠ 0 && second ≠ 0 then (first, second)
          else
            let edgeIndex := beginEdgeIndex + j * s.edgeFieldsCount
            if s.edge (edgeIndex + s.edgeTypeOffset) = s.edgeInternalType then
              let edgeName := s.strings.getD (s.edge (edgeIndex + s.edgeNameOffset)) ""
              if edgeName = "first" then (s.edge (edgeIndex + s.edgeToNodeOffset), second)
              else if edgeName = "second" then (first, s.edge (edgeIndex + s.edgeToNodeOffset))
              else (first, second)
            else (first, second)
        let (firstNodeIndex, secondNodeIndex) :=
          (List.range ((endEdgeIndex - beginEdgeIndex) / s.edgeFieldsCount)).foldl step (0, 0)
        consStringName s fuel (firstNodeIndex :: secondNodeIndex :: rest) name

/-- `JSHeapSnapshotNode.name()`: cons strings concatenate lazily, everything
else is the raw name. -/
def jsNodeName (s : Snap) (fuel : Nat) (nodeIndex : Nat) : Except String String :=
  if rawType s nodeIndex = s.nodeConsStringType then
    consStringName s fuel [nodeIndex] ""
  else pure (nodeRawName s nodeIndex)

/-- `node.isSynthetic()`. -/
def isSyntheticNode (s : Snap) (nodeIndex : Nat) : Bool :=
  rawType s nodeIndex = s.nodeSyntheticType

/-- `JSHeapSnapshotNode.isUserRoot()`. -/
def isUserRootNode (s : Snap) (nodeIndex : Nat) : Bool :=
  !isSyntheticNode s nodeIndex

/-- `JSHeapSnapshotNode.isDocumentDOMTreesRoot()`. -/
def isDocumentDOMTreesRoot (s : Snap) (fuel : Nat) (nodeIndex : Nat) : Except String Bool :=
  if isSyntheticNode s nodeIndex then do
    let name ← jsNodeName s fuel nodeIndex
    pure (name = "(Document DOM trees)")
  else pure false

/-- `JSHeapSnapshot.isUserRoot(node)` (the snapshot-level predicate used to
seed the distance BFS). -/
def snapshotIsUserRoot (s : Snap) (fuel : Nat) (nodeIndex : Nat) : Except String Bool := do
  if isUserRootNode s nodeIndex then pure true
  else isDocumentDOMTreesRoot s fuel nodeIndex

/-! ### Detachedness field accessors -/

/-- `DOMLinkState`: `Unknown = 0`, `Attached = 1`, `Detached = 2`;
`BITMASK_FOR_DOM_LINK_STATE = 3`. -/
def domUnknown : Nat := 0

/-- `DOMLinkState.Attached`. -/
def domAttached : Nat := 1

/-- `DOMLinkState.Detached`. -/
def domDetached : Nat := 2

/-- `#detachednessAndClassIndex()`: packed field inside the node record when
the snapshot has a `detachedness` field, else the parallel array. -/
def detachednessAndClassIndex (s : Snap) (nodeIndex : Nat) : Nat :=
  if s.nodeDetachednessAndClassIndexOffset ≠ -1 then
    s.node (nodeIndex + s.nodeDetachednessAndClassIndexOffset.toNat)
  else s.detachednessAndClassIndexArray.getD (nodeIndex / s.nodeFieldCount) 0

/-- `#setDetachednessAndClassIndex(value)`. -/
def setDetachednessAndClassIndex (s : Snap) (nodeIndex value : Nat) : Snap :=
  if s.nodeDetachednessAndClassIndexOffset ≠ -1 then
    { s with nodes := s.nodes.setD (nodeIndex + s.nodeDetachednessAndClassIndexOffset.toNat) value }
  else
    { s with detachednessAndClassIndexArray :=
        s.detachednessAndClassIndexArray.setD (nodeIndex / s.nodeFieldCount) value }

/-- `node.detachedness()`: the low two bits of the packed field. -/
def detachedness (s : Snap) (nodeIndex : Nat) : Nat :=
  detachednessAndClassIndex s nodeIndex &&& 3

/-- `node.setDetachedness(d)`: clear and set the low two bits (`value &= ~3;
value |= d` on a u32). -/
def setDetachedness (s : Snap) (nodeIndex d : Nat) : Snap :=
  let value := detachednessAndClassIndex s nodeIndex
  setDetachednessAndClassIndex s nodeIndex ((value &&& 0xFFFFFFFC) ||| d)

/-- `addString(string)`: append to the string table, returning the new index. -/
def addString (s : Snap) (string : String) : Snap × Nat :=
  ({ s with strings := s.strings.push string }, s.strings.size)

/-! ### `propagateDOMState` -/

/-- The mutable state threaded through `propagateDOMState`: the snapshot
(whose `nodes` names and detachedness bits and `strings` table it mutates),
the `visited` byte array, the two work queues and the
`old string index → new string index` cache of `addDetachedPrefixToNodeName`. -/
structure PropState where
  snap : Snap
  visited : Array Bool
  attached : List Nat
  detached : List Nat
  cache : List (Nat × Nat)
  deriving Repr

/-- `addDetachedPrefixToNodeName(snapshot, nodeIndex)`. -/
def addDetachedPrefixToNodeName (st : PropState) (nodeIndex : Nat) : PropState :=
  let s := st.snap
  let oldStringIndex := s.node (nodeIndex + s.nodeNameOffset)
  match st.cache.lookup oldStringIndex with
  | some newStringIndex =>
    { st with snap := { s with nodes := s.nodes.setD (nodeIndex + s.nodeNameOffset) newStringIndex } }
  | none =>
    let (s', newStringIndex) := addString s ("Detached " ++ s.strings.getD oldStringIndex "")
    { st with
      snap := { s' with nodes := s'.nodes.setD (nodeIndex + s'.nodeNameOffset) newStringIndex },
      cache := (oldStringIndex, newStringIndex) :: st.cache }

/-- `processNode(snapshot, nodeOrdinal, newState)`: mark visited, bail out on
non-native nodes, set the new state and enqueue. -/
def processNode (st : PropState) (nodeOrdinal newState : Nat) : PropState :=
  if st.visited.getD nodeOrdinal false then st
  else
    let s := st.snap
    let nodeIndex := nodeOrdinal * s.nodeFieldCount
    if rawType s nodeIndex ≠ s.nodeNativeType then
      { st with visited := st.visited.setD nodeOrdinal true }
    else
      let st := { st with snap := setDetachedness s nodeIndex newState }
      let st :=
        if newState = domAttached then { st with attached := nodeOrdinal :: st.attached }
        else if newState = domDetached then
          let st := addDetachedPrefixToNodeName st nodeIndex
          { st with detached := nodeOrdinal :: st.detached }
        else st
      { st with visited := st.visited.setD nodeOrdinal true }

/-- One filtered child visit of `propagateState` (`iterateFilteredChildren`'s
callback at edge slot `j` past `beginEdgeIndex`). -/
def propagateStateStep (beginEdgeIndex newState : Nat) (st : PropState) (j : Nat) : PropState :=
  let s := st.snap
  let edgeIndex := beginEdgeIndex + j * s.edgeFieldsCount
  let type := s.edge (edgeIndex + s.edgeTypeOffset)
  if type = s.edgeHiddenType || type = s.edgeInvisibleType || type = s.edgeWeakType then st
  else
    let childNodeOrdinal := s.edge (edgeIndex + s.edgeToNodeOffset) / s.nodeFieldCount
    processNode st childNodeOrdinal newState

/-- `propagateState(snapshot, parentNodeOrdinal, newState)`: process every
child linked by an edge that is not hidden, invisible or weak
(`iterateFilteredChildren`). -/
def propagateState (st : PropState) (parentNodeOrdinal newState : Nat) : PropState :=
  let s := st.snap
  let beginEdgeIndex := s.firstEdgeIndexes.getD parentNodeOrdinal 0
  let endEdgeIndex := s.firstEdgeIndexes.getD (parentNodeOrdinal + 1) 0
  (List.range ((endEdgeIndex - beginEdgeIndex) / s.edgeFieldsCount)).foldl
    (propagateStateStep beginEdgeIndex newState) st

/-- Drain of the `attached` work queue (step 2 of `propagateDOMState`). -/
def drainAttached (fuel : Nat) (st : PropState) : Except String PropState :=
  match fuel with
  | 0 => throw "out of fuel"
  | fuel + 1 =>
    match st.attached with
    | [] => pure st
    | nodeOrdinal :: rest =>
      drainAttached fuel (propagateState { st with attached := rest } nodeOrdinal domAttached)

/-- Drain of the `detached` work queue (step 3 of `propagateDOMState`); nodes
found attached meanwhile are skipped. -/
def drainDetached (fuel : Nat) (st : PropState) : Except String PropState :=
  match fuel with
  | 0 => throw "out of fuel"
  | fuel + 1 =>
    match st.detached with
    | [] => pure st
    | nodeOrdinal :: rest =>
      let st := { st with detached := rest }
      let nodeState := detachedness st.snap (nodeOrdinal * st.snap.nodeFieldCount)
      if nodeState = domAttached then drainDetached fuel st
      else drainDetached fuel (propagateState st nodeOrdinal domDetached)

/-- Step 1 of `propagateDOMState` for one ordinal: bail out on an unknown
serialized state, else process the node with its own state. -/
def seedNode (st : PropState) (nodeOrdinal : Nat) : PropState :=
  let state := detachedness st.snap (nodeOrdinal * st.snap.nodeFieldCount)
  if state = domUnknown then st else processNode st nodeOrdinal state

/-- `propagateDOMState()`: seed the queues from nodes with a known serialized
state, propagate attachment first, then detachment. -/
def propagateDOMState (s : Snap) (fuel : Nat) : Except String Snap :=
  if s.nodeDetachednessAndClassIndexOffset = -1 then pure s
  else do
    let st0 : PropState :=
      { snap := s, visited := Array.mkArray s.nodeCount false, attached := [], detached := [],
        cache := [] }
    let seeded := (List.range s.nodeCount).foldl seedNode st0
    let afterAttached ← drainAttached fuel seeded
    let afterDetached ← drainDetached fuel afterAttached
    pure afterDetached.snap

/-! ### `JSHeapSnapshot.calculateFlags` -/

/-- `nodeFlags`: `canBeQueried = 1`, `detachedDOMTreeNode = 2`,
`pageObject = 4`. -/
def canBeQueriedFlag : Nat := 1

/-- `nodeFlags.detachedDOMTreeNode`. -/
def detachedDOMTreeNodeFlag : Nat := 2

/-- `nodeFlags.pageObject`. -/
def pageObjectFlag : Nat := 4

/-- `markDetachedDOMTreeNodes()`: flag native nodes whose name starts with
`"Detached "`. -/
def markDetachedDOMTreeNodes (s : Snap) (fuel : Nat) : Except String Snap :=
  (List.range s.nodeCount).foldlM
    (fun s ordinal => do
      let nodeIndex := ordinal * s.nodeFieldCount
      if rawType s nodeIndex ≠ s.nodeNativeType then pure s
      else do
        let name ← jsNodeName s fuel nodeIndex
        if "Detached ".isPrefixOf name then
          let flags := s.flags.setD ordinal (s.flags.getD ordinal 0 ||| detachedDOMTreeNodeFlag)
          pure { s with flags := flags }
        else pure s)
    s

/-- Work-list drain of `markQueriableHeapObjects`: pop, flag, push the
children linked by edges that are not hidden, invisible, internal or weak. -/
def queriableDrain (s : Snap) (fuel : Nat) (list : List Nat) (flags : Array Nat) :
    Except String (Array Nat) :=
  match fuel with
  | 0 => throw "out of fuel"
  | fuel + 1 =>
    match list with
    | [] => pure flags
    | nodeOrdinal :: rest =>
      if flags.getD nodeOrdinal 0 &&& canBeQueriedFlag ≠ 0 then queriableDrain s fuel rest flags
      else
        let flags := flags.setD nodeOrdinal (flags.getD nodeOrdinal 0 ||| canBeQueriedFlag)
        let beginEdgeIndex := s.firstEdgeIndexes.getD nodeOrdinal 0
        let endEdgeIndex := s.firstEdgeIndexes.getD (nodeOrdinal + 1) 0
        let pushed := (List.range ((endEdgeIndex - beginEdgeIndex) / s.edgeFieldsCount)).foldl
          (fun (acc : List Nat) j =>
            let edgeIndex := beginEdgeIndex + j * s.edgeFieldsCount
            let childNodeOrdinal := s.edge (edgeIndex + s.edgeToNodeOffset) / s.nodeFieldCount
            if flags.getD childNodeOrdinal 0 &&& canBeQueriedFlag ≠ 0 then acc
            else
              let type := s.edge (edgeIndex + s.edgeTypeOffset)
              if type = s.edgeHiddenType || type = s.edgeInvisibleType ||
                  type = s.edgeInternalType || type = s.edgeWeakType then acc
              else childNodeOrdinal :: acc)
          rest
        queriableDrain s fuel pushed flags

/-- `markQueriableHeapObjects()`: flood the `canBeQueried` flag from the
user-root children of the root across regular property edges. -/
def markQueriableHeapObjects (s : Snap) (fuel : Nat) : Except String Snap := do
  let rootOrdinal := s.rootNodeOrdinal
  let beginEdgeIndex := s.firstEdgeIndexes.getD rootOrdinal 0
  let endEdgeIndex := s.firstEdgeIndexes.getD (rootOrdinal + 1) 0
  let seeds := (List.range ((endEdgeIndex - beginEdgeIndex) / s.edgeFieldsCount)).foldl
    (fun (acc : List Nat) j =>
      let edgeIndex := beginEdgeIndex + j * s.edgeFieldsCount
      let childNodeIndex := s.edge (edgeIndex + s.edgeToNodeOffset)
      if isUserRootNode s childNodeIndex then childNodeIndex / s.nodeFieldCount :: acc
      else acc)
    []
  let flags ← queriableDrain s fuel seeds s.flags
  pure { s with flags := flags }

/-- Work-list drain of `markPageOwnedNodes`: flood the `pageObject` flag
across non-weak edges (stack discipline). -/
def pageOwnedDrain (s : Snap) (fuel : Nat) (list : List Nat) (flags : Array Nat) :
    Except String (Array Nat) :=
  match fuel with
  | 0 => throw "out of fuel"
  | fuel + 1 =>
    match list with
    | [] => pure flags
    | nodeOrdinal :: rest =>
      let beginEdgeIndex := s.firstEdgeIndexes.getD nodeOrdinal 0
      let endEdgeIndex := s.firstEdgeIndexes.getD (nodeOrdinal + 1) 0
      let (pushed, flags) := (List.range ((endEdgeIndex - beginEdgeIndex) / s.edgeFieldsCount)).foldl
        (fun (acc : List Nat × Array Nat) j =>
          let (list, flags) := acc
          let edgeIndex := beginEdgeIndex + j * s.edgeFieldsCount
          let childNodeOrdinal := s.edge (edgeIndex + s.edgeToNodeOffset) / s.nodeFieldCount
          if flags.getD childNodeOrdinal 0 &&& pageObjectFlag ≠ 0 then acc
          else if s.edge (edgeIndex + s.edgeTypeOffset) = s.edgeWeakType then acc
          else (childNodeOrdinal :: list,
                flags.setD childNodeOrdinal (flags.getD childNodeOrdinal 0 ||| pageObjectFlag)))
        (rest, flags)
      pageOwnedDrain s fuel pushed flags

/-- `markPageOwnedNodes()`: the entry points are the root's shortcut-edge
targets and its element-edge targets that are the Document-DOM-trees root. -/
def markPageOwnedNodes (s : Snap) (fuel : Nat) : Except String Snap := do
  let rootNodeOrdinal := s.rootNodeOrdinal
  let beginEdgeIndex := s.firstEdgeIndexes.getD rootNodeOrdinal 0
  let endEdgeIndex := s.firstEdgeIndexes.getD (rootNodeOrdinal + 1) 0
  let seeded ← (List.range ((endEdgeIndex - beginEdgeIndex) / s.edgeFieldsCount)).foldlM
    (fun (acc : List Nat × Array Nat) j => do
      let (list, flags) := acc
      let edgeIndex := beginEdgeIndex + j * s.edgeFieldsCount
      let edgeType := s.edge (edgeIndex + s.edgeTypeOffset)
      let nodeIndex := s.edge (edgeIndex + s.edgeToNodeOffset)
      let take ←
        if edgeType = s.edgeElementType then isDocumentDOMTreesRoot s fuel nodeIndex
        else pure (decide (edgeType = s.edgeShortcutType))
      if take then
        let nodeOrdinal := nodeIndex / s.nodeFieldCount
        pure (nodeOrdinal :: list,
              flags.setD nodeOrdinal (flags.getD nodeOrdinal 0 ||| pageObjectFlag))
      else pure acc)
    ([], s.flags)
  let flags ← pageOwnedDrain s fuel seeded.1 seeded.2
  pure { s with flags := flags }

/-- `JSHeapSnapshot.calculateFlags()`: allocate the flag array and run the
three marking passes. -/
def calculateFlags (s : Snap) (fuel : Nat) : Except String Snap := do
  let s := { s with flags := Array.mkArray s.nodeCount 0 }
  let s ← markDetachedDOMTreeNodes s fuel
  let s ← markQueriableHeapObjects s fuel
  markPageOwnedNodes s fuel

/-! ### Distance BFS -/

/-- `this.#noDistance = -5`. -/
def noDistance : Int := -5

/-- Modelled from the spec: `HeapSnapshotModel.baseSystemDistance` (defined in
`front_end/models/heap_snapshot_model`, outside the analysed sources) is
`100_000_000`. -/
def baseSystemDistance : Int := 100000000

/-- One edge visit of the distance BFS for the dequeued `nodeIndex`. -/
def bfsStep (s : Snap) {σ : Type} (filter : Option (σ → Nat → Nat → Bool × σ))
    (firstEdgeIndex nodeIndex : Nat) (distance : Int) :
    Array Int × List Nat × Nat × σ → Nat → Array Int × List Nat × Nat × σ :=
  fun (distances, enqueued, len, fs) j =>
    let edgeIndex := firstEdgeIndex + j * s.edgeFieldsCount
    let edgeType := s.edge (edgeIndex + s.edgeTypeOffset)
    if edgeType = s.edgeWeakType then (distances, enqueued, len, fs)
    else
      let childNodeIndex := s.edge (edgeIndex + s.edgeToNodeOffset)
      let childNodeOrdinal := childNodeIndex / s.nodeFieldCount
      if distances.getD childNodeOrdinal 0 ≠ noDistance then (distances, enqueued, len, fs)
      else
        match filter with
        | some f =>
          let (keep, fs') := f fs nodeIndex edgeIndex
          if keep then
            (distances.setD childNodeOrdinal distance, enqueued ++ [childNodeIndex],
             len + 1, fs')
          else (distances, enqueued, len, fs')
        | none =>
          (distances.setD childNodeOrdinal distance, enqueued ++ [childNodeIndex],
           len + 1, fs)

/-- The distance BFS (`private bfs`).  The filter is stateful (`σ`) because
the ephemeron filter of `JSHeapSnapshot.calculateDistances` mutates a set it
captured; a pure filter uses `σ = Unit`.  `nodesToVisitLength` tracks the
total number of enqueued node indexes for the final sanity check. -/
def bfsLoop (s : Snap) {σ : Type} (filter : Option (σ → Nat → Nat → Bool × σ)) :
    Nat → List Nat → Nat → Array Int → σ → Except String (Array Int × σ)
  | 0, _, _, _, _ => throw "out of fuel"
  | fuel + 1, queue, nodesToVisitLength, distances, fs =>
    match queue with
    | [] =>
      if nodesToVisitLength > s.nodeCount then
        throw ("BFS failed. Nodes to visit (" ++ toString nodesToVisitLength ++
          ") is more than nodes count (" ++ toString s.nodeCount ++ ")")
      else pure (distances, fs)
    | nodeIndex :: rest =>
      let nodeOrdinal := nodeIndex / s.nodeFieldCount
      let distance := distances.getD nodeOrdinal 0 + 1
      let firstEdgeIndex := s.firstEdgeIndexes.getD nodeOrdinal 0
      let edgesEnd := s.firstEdgeIndexes.getD (nodeOrdinal + 1) 0
      let (distances, enqueued, len, fs) :=
        (List.range ((edgesEnd - firstEdgeIndex) / s.edgeFieldsCount)).foldl
          (bfsStep s filter firstEdgeIndex nodeIndex distance)
          (distances, [], nodesToVisitLength, fs)
      bfsLoop s filter fuel (rest ++ enqueued) len distances fs

/-- One root edge of the user-root seeding loop of `calculateDistances`. -/
def distSeedStep (s : Snap) (fuel beginEdgeIndex : Nat) (acc : Array Int × List Nat)
    (j : Nat) : Except String (Array Int × List Nat) := do
  let (distances, queue) := acc
  let edgeIndex := beginEdgeIndex + j * s.edgeFieldsCount
  let childNodeIndex := s.edge (edgeIndex + s.edgeToNodeOffset)
  let isUR ← snapshotIsUserRoot s fuel childNodeIndex
  if isUR then
    pure (distances.setD (childNodeIndex / s.nodeFieldCount) 1, queue ++ [childNodeIndex])
  else pure acc

/-- `calculateDistances(isForRetainersView = false, filter)`: fill the
distance array with `noDistance`, seed the user roots at distance 1, drain,
then restart from the root at `baseSystemDistance` (or 0 when no user root
was seen).  The retainers-view variant only swaps the target array and wraps
the filter; it is not part of the modelled pipeline. -/
def calculateDistances (s : Snap) {σ : Type} (filter : Option (σ → Nat → Nat → Bool × σ))
    (fs0 : σ) (fuel : Nat) : Except String Snap := do
  let nodeCount := s.nodeCount
  let distances : Array Int := Array.mkArray nodeCount noDistance
  let rootOrdinal := s.rootNodeOrdinal
  let beginEdgeIndex := s.firstEdgeIndexes.getD rootOrdinal 0
  let endEdgeIndex := s.firstEdgeIndexes.getD (rootOrdinal + 1) 0
  let seeded ← (List.range ((endEdgeIndex - beginEdgeIndex) / s.edgeFieldsCount)).foldlM
    (distSeedStep s fuel beginEdgeIndex) (distances, [])
  let (distances, queue) := seeded
  let (distances, fs) ← bfsLoop s filter fuel queue queue.length distances fs0
  let distances := distances.setD rootOrdinal
    (if queue.length > 0 then baseSystemDistance else 0)
  let (distances, _) ← bfsLoop s filter fuel [s.rootNodeIndexInternal] 1 distances fs
  pure { s with nodeDistances := distances }

/-- `String(name)` / `parseInt(name, 10)` composition used by
`JSHeapSnapshotEdge.name()`: the maximal leading digit run, if any. -/
def jsParseIntPrefix (str : String) : Option Nat :=
  let ds := str.toList.takeWhile Char.isDigit
  if ds.isEmpty then none else some (parseDigits (String.mk ds))

/-- `JSHeapSnapshotEdge.name()` as a string: element and hidden edges render
their numeric index, shortcut edges render the parsed number when the name
parses as one, all others render the name string. -/
def edgeNameString (s : Snap) (edgeIndex : Nat) : String :=
  let type := s.edge (edgeIndex + s.edgeTypeOffset)
  let nameOrIndex := s.edge (edgeIndex + s.edgeNameOffset)
  if type = s.edgeElementType || type = s.edgeHiddenType then toString nameOrIndex
  else
    let name := s.strings.getD nameOrIndex ""
    if type = s.edgeShortcutType then
      match jsParseIntPrefix name with
      | some numName => toString numName
      | none => name
    else name

/-- The edge filter installed by `JSHeapSnapshot.calculateDistances`: skip
the `sloppy_function_map` edge of `system / NativeContext`, skip unstable
descriptor links of `(map descriptors)` arrays, and skip the first edge of
each matched WeakMap ephemeron pair (the state is the captured
`pendingEphemeronEdges` set). -/
def jsDistanceFilter (s : Snap) (pending : List String) (nodeIndex edgeIndex : Nat) :
    Bool × List String :=
  if rawType s nodeIndex = s.nodeHiddenType &&
      edgeNameString s edgeIndex = "sloppy_function_map" &&
      nodeRawName s nodeIndex = "system / NativeContext" then
    (false, pending)
  else if rawType s nodeIndex = s.nodeArrayType &&
      nodeRawName s nodeIndex = "(map descriptors)" then
    match jsParseIntPrefix (edgeNameString s edgeIndex) with
    | some index => (index < 2 || index % 3 ≠ 1, pending)
    | none => (true, pending)
  else if s.edge (edgeIndex + s.edgeTypeOffset) = s.edgeInternalType then
    match tryParseWeakMapEdgeName s (s.edge (edgeIndex + s.edgeNameOffset)) with
    | some (duplicatedPart, _) =>
      if pending.contains duplicatedPart then (true, pending.erase duplicatedPart)
      else (false, duplicatedPart :: pending)
    | none => (true, pending)
  else (true, pending)

/-! ### `buildPostOrderIndex` -/

/-- The state of the iterative DFS of `buildPostOrderIndex`: the two stacks
(`depth` entries are live, so `stackTop = depth - 1` and `depth = 0` encodes
the JavaScript `stackTop = -1`), the visited bitmap, the two index maps and
the running post-order counter. -/
structure DfsState where
  stackNodes : Array Nat
  stackCurrentEdge : Array Nat
  depth : Nat
  visited : Array Bool
  postOrderIndex2NodeOrdinal : Array Nat
  nodeOrdinal2PostOrderIndex : Array Nat
  postOrderIndex : Nat
  deriving Repr, DecidableEq

/-- The inner `while (stackTop >= 0)` DFS loop: advance the top frame's edge
cursor, push unvisited essential children that pass the page-ownership gate,
and emit a node's post-order index when its edges are exhausted. -/
def dfsLoop (s : Snap) : Nat → DfsState → Except String DfsState
  | 0, _ => throw "out of fuel"
  | fuel + 1, st =>
    if st.depth = 0 then pure st
    else
      let stackTop := st.depth - 1
      let nodeOrdinal := st.stackNodes.getD stackTop 0
      let edgeIndex := st.stackCurrentEdge.getD stackTop 0
      let edgesEnd := s.firstEdgeIndexes.getD (nodeOrdinal + 1) 0
      if edgeIndex < edgesEnd then
        let st := { st with stackCurrentEdge :=
          st.stackCurrentEdge.setD stackTop (edgeIndex + s.edgeFieldsCount) }
        if !isEssentialEdge s (nodeOrdinal * s.nodeFieldCount) edgeIndex then dfsLoop s fuel st
        else
          let childNodeIndex := s.edge (edgeIndex + s.edgeToNodeOffset)
          let childNodeOrdinal := childNodeIndex / s.nodeFieldCount
          if st.visited.getD childNodeOrdinal false then dfsLoop s fuel st
          else
            let nodeFlag := s.flags.getD nodeOrdinal 0 &&& pageObjectFlag ≠ 0
            let childNodeFlag := s.flags.getD childNodeOrdinal 0 &&& pageObjectFlag ≠ 0
            if nodeOrdinal ≠ s.rootNodeOrdinal && childNodeFlag && !nodeFlag then
              dfsLoop s fuel st
            else
              dfsLoop s fuel
                { st with
                  stackNodes := st.stackNodes.setD st.depth childNodeOrdinal,
                  stackCurrentEdge := st.stackCurrentEdge.setD st.depth
                    (s.firstEdgeIndexes.getD childNodeOrdinal 0),
                  visited := st.visited.setD childNodeOrdinal true,
                  depth := st.depth + 1 }
      else
        dfsLoop s fuel
          { st with
            nodeOrdinal2PostOrderIndex :=
              st.nodeOrdinal2PostOrderIndex.setD nodeOrdinal st.postOrderIndex,
            postOrderIndex2NodeOrdinal :=
              st.postOrderIndex2NodeOrdinal.setD st.postOrderIndex nodeOrdinal,
            postOrderIndex := st.postOrderIndex + 1,
            depth := stackTop }

/-- `buildPostOrderIndex()`: the main DFS from the root, the second round
that re-seeds the stack with every unvisited node retained only by weak or
shortcut edges, and the final fallback that appends any remaining orphans
followed by the root.  (The diagnostic problem reports of the source carry no
semantic state and are not modelled.) -/
def buildPostOrderIndex (s : Snap) (fuel : Nat) : Except String (Array Nat × Array Nat) := do
  let nodeCount := s.nodeCount
  let rootNodeOrdinal := s.rootNodeOrdinal
  let st0 : DfsState :=
    { stackNodes := (Array.mkArray nodeCount 0).setD 0 rootNodeOrdinal,
      stackCurrentEdge := (Array.mkArray nodeCount 0).setD 0
        (s.firstEdgeIndexes.getD rootNodeOrdinal 0),
      depth := 1,
      visited := (Array.mkArray nodeCount false).setD rootNodeOrdinal true,
      postOrderIndex2NodeOrdinal := Array.mkArray nodeCount 0,
      nodeOrdinal2PostOrderIndex := Array.mkArray nodeCount 0,
      postOrderIndex := 0 }
  let st1 ← dfsLoop s fuel st0
  let st2 ←
    if st1.postOrderIndex = nodeCount then pure st1
    else do
      -- Second round: drop the root's index, park the root at the bottom of
      -- the stack past its edges, and push all weak-only-retained orphans.
      let reset : DfsState :=
        { st1 with
          postOrderIndex := st1.postOrderIndex - 1,
          depth := 1,
          stackNodes := st1.stackNodes.setD 0 rootNodeOrdinal,
          stackCurrentEdge := st1.stackCurrentEdge.setD 0
            (s.firstEdgeIndexes.getD (rootNodeOrdinal + 1) 0) }
      let seeded := (List.range nodeCount).foldl
        (fun (st : DfsState) i =>
          if st.visited.getD i false || !hasOnlyWeakRetainers s i then st
          else
            { st with
              stackNodes := st.stackNodes.setD st.depth i,
              stackCurrentEdge := st.stackCurrentEdge.setD st.depth
                (s.firstEdgeIndexes.getD i 0),
              visited := st.visited.setD i true,
              depth := st.depth + 1 })
        reset
      dfsLoop s fuel seeded
  if st2.postOrderIndex = nodeCount then
    pure (st2.postOrderIndex2NodeOrdinal, st2.nodeOrdinal2PostOrderIndex)
  else
    -- Fallback: give every still-unvisited node a post-order index anyway,
    -- and re-append the root last.
    let st3 := (List.range nodeCount).foldl
      (fun (st : DfsState) i =>
        if st.visited.getD i false then st
        else
          { st with
            nodeOrdinal2PostOrderIndex := st.nodeOrdinal2PostOrderIndex.setD i st.postOrderIndex,
            postOrderIndex2NodeOrdinal :=
              st.postOrderIndex2NodeOrdinal.setD st.postOrderIndex i,
            postOrderIndex := st.postOrderIndex + 1 })
      { st2 with postOrderIndex := st2.postOrderIndex - 1 }
    let p2n := st3.postOrderIndex2NodeOrdinal.setD st3.postOrderIndex rootNodeOrdinal
    let n2p := st3.nodeOrdinal2PostOrderIndex.setD rootNodeOrdinal st3.postOrderIndex
    pure (p2n, n2p)

/-! ### `buildDominatorTree` -/

/-- Modelled from the spec: the `affected` structure of §4.6 is a bit-vector
scanned "from high to low"; `bvPrevious bv i` is the largest set bit strictly
below `i` (`Platform.TypedArrayUtilities.createBitVector` lives outside the
analysed sources). -/
def bvPrevious (bv : Array Bool) : Nat → Option Nat
  | 0 => none
  | i + 1 => if bv.getD i false then some i else bvPrevious bv i

/-- The two-finger intersection walk of the Cooper–Harvey–Kennedy loop:
repeatedly replace the smaller finger by its current dominator until the
fingers meet. -/
def intersectWalk (dominators : Array Nat) : Nat → Nat → Nat → Except String Nat
  | 0, _, _ => throw "out of fuel"
  | fuel + 1, retainerPostOrderIndex, newDominatorIndex =>
    if retainerPostOrderIndex = newDominatorIndex then pure newDominatorIndex
    else if retainerPostOrderIndex < newDominatorIndex then
      intersectWalk dominators fuel (dominators.getD retainerPostOrderIndex 0) newDominatorIndex
    else intersectWalk dominators fuel retainerPostOrderIndex
      (dominators.getD newDominatorIndex 0)

/-- The retainer scan for one affected entry: intersect the post-order
indexes of the essential, gate-passing retainers whose dominator is already
known (breaking early at the root), and report whether the node is an orphan
(no essential retainer at all). -/
def domRetainerScan (s : Snap) (n2p dominators : Array Nat)
    (noEntry rootPostOrderedIndex : Nat) (nodeFlag : Bool) (fuel : Nat) :
    List Nat → Nat → Bool → Except String (Nat × Bool)
  | [], newDominatorIndex, orphanNode => pure (newDominatorIndex, orphanNode)
  | retainerIndex :: rest, newDominatorIndex, orphanNode => do
    let retainerEdgeIndex := s.retainingEdges.getD retainerIndex 0
    let retainerNodeIndex := s.retainingNodes.getD retainerIndex 0
    if !isEssentialEdge s retainerNodeIndex retainerEdgeIndex then
      domRetainerScan s n2p dominators noEntry rootPostOrderedIndex nodeFlag fuel rest
        newDominatorIndex orphanNode
    else
      let retainerNodeOrdinal := retainerNodeIndex / s.nodeFieldCount
      let retainerNodeFlag := s.flags.getD retainerNodeOrdinal 0 &&& pageObjectFlag ≠ 0
      if retainerNodeIndex ≠ s.rootNodeIndexInternal && nodeFlag && !retainerNodeFlag then
        domRetainerScan s n2p dominators noEntry rootPostOrderedIndex nodeFlag fuel rest
          newDominatorIndex false
      else
        let retainerPostOrderIndex := n2p.getD retainerNodeOrdinal 0
        if dominators.getD retainerPostOrderIndex 0 ≠ noEntry then do
          let newDominatorIndex' ←
            if newDominatorIndex = noEntry then pure retainerPostOrderIndex
            else intersectWalk dominators fuel retainerPostOrderIndex newDominatorIndex
          if newDominatorIndex' = rootPostOrderedIndex then pure (newDominatorIndex', false)
          else
            domRetainerScan s n2p dominators noEntry rootPostOrderedIndex nodeFlag fuel rest
              newDominatorIndex' false
        else
          domRetainerScan s n2p dominators noEntry rootPostOrderedIndex nodeFlag fuel rest
            newDominatorIndex false

/-- The retainer scan for one affected entry (see `domRetainerScan`),
starting from `noEntry` and `orphanNode = true`. -/
def computeNewDominator (s : Snap) (n2p dominators : Array Nat)
    (noEntry rootPostOrderedIndex : Nat) (nodeOrdinal : Nat) (fuel : Nat) :
    Except String (Nat × Bool) :=
  let nodeFlag := s.flags.getD nodeOrdinal 0 &&& pageObjectFlag ≠ 0
  let beginRetainerIndex := s.firstRetainerIndex.getD nodeOrdinal 0
  let endRetainerIndex := s.firstRetainerIndex.getD (nodeOrdinal + 1) 0
  domRetainerScan s n2p dominators noEntry rootPostOrderedIndex nodeFlag fuel
    (List.range' beginRetainerIndex (endRetainerIndex - beginRetainerIndex)) noEntry true

/-- Set the affected bit of every (containment-edge) child of a node whose
dominator changed. -/
def markAffectedChildren (s : Snap) (n2p : Array Nat) (nodeOrdinal : Nat)
    (affected : Array Bool) : Array Bool :=
  let beginEdgeIndex := s.firstEdgeIndexes.getD nodeOrdinal 0
  let endEdgeIndex := s.firstEdgeIndexes.getD (nodeOrdinal + 1) 0
  (List.range ((endEdgeIndex - beginEdgeIndex) / s.edgeFieldsCount)).foldl
    (fun affected j =>
      let edgeIndex := beginEdgeIndex + j * s.edgeFieldsCount
      let childNodeOrdinal := s.edge (edgeIndex + s.edgeToNodeOffset) / s.nodeFieldCount
      affected.setD (n2p.getD childNodeOrdinal 0) true)
    affected

/-- One downward scan over the affected bits (the `for` loop inside
`while (changed)`). -/
def domScanLoop (s : Snap) (p2n n2p : Array Nat) (noEntry rootPostOrderedIndex : Nat) :
    Nat → Nat → Array Nat → Array Bool → Bool → Except String (Array Nat × Array Bool × Bool)
  | 0, _, _, _, _ => throw "out of fuel"
  | fuel + 1, position, dominators, affected, changed =>
    match bvPrevious affected position with
    | none => pure (dominators, affected, changed)
    | some postOrderIndex => do
      let affected := affected.setD postOrderIndex false
      if dominators.getD postOrderIndex 0 = rootPostOrderedIndex then
        domScanLoop s p2n n2p noEntry rootPostOrderedIndex fuel postOrderIndex dominators
          affected changed
      else
        let nodeOrdinal := p2n.getD postOrderIndex 0
        let (newDominatorIndex, orphanNode) ←
          computeNewDominator s n2p dominators noEntry rootPostOrderedIndex nodeOrdinal fuel
        let newDominatorIndex := if orphanNode then rootPostOrderedIndex else newDominatorIndex
        if newDominatorIndex ≠ noEntry && dominators.getD postOrderIndex 0 ≠ newDominatorIndex then
          let dominators := dominators.setD postOrderIndex newDominatorIndex
          let affected := markAffectedChildren s n2p (p2n.getD postOrderIndex 0) affected
          domScanLoop s p2n n2p noEntry rootPostOrderedIndex fuel postOrderIndex dominators
            affected true
        else
          domScanLoop s p2n n2p noEntry rootPostOrderedIndex fuel postOrderIndex dominators
            affected changed

/-- The outer `while (changed)` fix-point loop. -/
def domOuterLoop (s : Snap) (p2n n2p : Array Nat) (noEntry rootPostOrderedIndex : Nat) :
    Nat → Array Nat → Array Bool → Except String (Array Nat)
  | 0, _, _ => throw "out of fuel"
  | fuel + 1, dominators, affected => do
    let (dominators, affected, changed) ←
      domScanLoop s p2n n2p noEntry rootPostOrderedIndex fuel rootPostOrderedIndex dominators
        affected false
    if changed then domOuterLoop s p2n n2p noEntry rootPostOrderedIndex fuel dominators affected
    else pure dominators

/-- `buildDominatorTree(postOrderIndex2NodeOrdinal, nodeOrdinal2PostOrderIndex)`:
the iterative Cooper–Harvey–Kennedy fix-point over the reverse graph, then
conversion from post-order indexing to ordinal indexing.  An entry left at
`noEntry` reads `postOrderIndex2NodeOrdinal` out of bounds in the source,
which stores `0` (`undefined` coerced by the `Uint32Array`); `getD _ _ 0`
reproduces that. -/
def buildDominatorTree (s : Snap) (p2n n2p : Array Nat) (fuel : Nat) :
    Except String (Array Nat) := do
  let nodesCount := p2n.size
  let rootPostOrderedIndex := nodesCount - 1
  let noEntry := nodesCount
  let dominators := (Array.mkArray nodesCount noEntry).setD rootPostOrderedIndex
    rootPostOrderedIndex
  -- Mark the root's direct essential children as affected.
  let rootNodeOrdinal := s.rootNodeOrdinal
  let beginEdgeIndex := s.firstEdgeIndexes.getD rootNodeOrdinal 0
  let endEdgeIndex := s.firstEdgeIndexes.getD (rootNodeOrdinal + 1) 0
  let affected := (List.range ((endEdgeIndex - beginEdgeIndex) / s.edgeFieldsCount)).foldl
    (fun (affected : Array Bool) j =>
      let edgeIndex := beginEdgeIndex + j * s.edgeFieldsCount
      if !isEssentialEdge s s.rootNodeIndexInternal edgeIndex then affected
      else
        let childNodeOrdinal := s.edge (edgeIndex + s.edgeToNodeOffset) / s.nodeFieldCount
        affected.setD (n2p.getD childNodeOrdinal 0) true)
    (Array.mkArray nodesCount false)
  let dominators ← domOuterLoop s p2n n2p noEntry rootPostOrderedIndex fuel dominators affected
  pure ((List.range nodesCount).foldl
    (fun (dominatorsTree : Array Nat) postOrderIndex =>
      let nodeOrdinal := p2n.getD postOrderIndex 0
      dominatorsTree.setD nodeOrdinal (p2n.getD (dominators.getD postOrderIndex 0) 0))
    (Array.mkArray nodesCount 0))

/-! ### `JSHeapSnapshot.calculateShallowSizes` -/

/-- `#hasUserRoots()`: whether any direct child of the root is a user root,
with the short-circuit of the source's early `return true`. -/
def hasUserRootsGo (s : Snap) (fuel : Nat) : List Nat → Except String Bool
  | [] => pure false
  | j :: rest => do
    let beginEdgeIndex := s.firstEdgeIndexes.getD s.rootNodeOrdinal 0
    let edgeIndex := beginEdgeIndex + j * s.edgeFieldsCount
    let isUR ← snapshotIsUserRoot s fuel (s.edge (edgeIndex + s.edgeToNodeOffset))
    if isUR then pure true else hasUserRootsGo s fuel rest

/-- `#hasUserRoots()`. -/
def hasUserRoots (s : Snap) (fuel : Nat) : Except String Bool :=
  let beginEdgeIndex := s.firstEdgeIndexes.getD s.rootNodeOrdinal 0
  let endEdgeIndex := s.firstEdgeIndexes.getD (s.rootNodeOrdinal + 1) 0
  hasUserRootsGo s fuel (List.range ((endEdgeIndex - beginEdgeIndex) / s.edgeFieldsCount))

/-- `owners` sentinel `kUnvisited = 0xffffffff`. -/
def kUnvisited : Nat := 0xffffffff

/-- `owners` sentinel `kHasMultipleOwners = 0xfffffffe`. -/
def kHasMultipleOwners : Nat := 0xfffffffe

/-- The worklist drain of `calculateShallowSizes`: for each owned node,
update the ownership of every non-weak edge target. -/
def shallowSizesDrain (s : Snap) : Nat → List Nat → Array Nat → Except String (Array Nat)
  | 0, _, _ => throw "out of fuel"
  | fuel + 1, worklist, owners =>
    match worklist with
    | [] => pure owners
    | id :: rest =>
      let owner := owners.getD id 0
      let beginEdgeIndex := s.firstEdgeIndexes.getD id 0
      let endEdgeIndex := s.firstEdgeIndexes.getD (id + 1) 0
      let (owners, worklist) :=
        (List.range ((endEdgeIndex - beginEdgeIndex) / s.edgeFieldsCount)).foldl
          (fun (acc : Array Nat × List Nat) j =>
            let (owners, worklist) := acc
            let edgeIndex := beginEdgeIndex + j * s.edgeFieldsCount
            if s.edge (edgeIndex + s.edgeTypeOffset) = s.edgeWeakType then acc
            else
              let targetId := s.edge (edgeIndex + s.edgeToNodeOffset) / s.nodeFieldCount
              let cur := owners.getD targetId 0
              if cur = kUnvisited then (owners.setD targetId owner, targetId :: worklist)
              else if cur = targetId || cur = owner || cur = kHasMultipleOwners then acc
              else (owners.setD targetId kHasMultipleOwners, targetId :: worklist))
          (owners, rest)
      shallowSizesDrain s fuel worklist owners

/-- `JSHeapSnapshot.calculateShallowSizes()`: no-op without user roots, fatal
for `nodeCount ≥ 0xFFFFFFFE`, otherwise transfer the self size of each
hidden/array node with a unique non-synthetic non-root owner to that owner. -/
def calculateShallowSizes (s : Snap) (fuel : Nat) : Except String Snap := do
  let hur ← hasUserRoots s fuel
  if !hur then pure s
  else if s.nodeCount ≥ kHasMultipleOwners then
    throw "Too many nodes for calculateShallowSizes"
  else
    let init := (List.range s.nodeCount).foldl
      (fun (acc : Array Nat × List Nat) i =>
        let (owners, worklist) := acc
        let nodeIndex := i * s.nodeFieldCount
        if rawType s nodeIndex = s.nodeHiddenType || rawType s nodeIndex = s.nodeArrayType then
          (owners.setD i kUnvisited, worklist)
        else (owners.setD i i, i :: worklist))
      (Array.mkArray s.nodeCount 0, [])
    let owners ← shallowSizesDrain s fuel init.2 init.1
    let nodes := (List.range s.nodeCount).foldl
      (fun (nodes : Array Nat) i =>
        let ownerId := owners.getD i 0
        if ownerId = kUnvisited || ownerId = kHasMultipleOwners || ownerId = i then nodes
        else
          let ownedNodeIndex := i * s.nodeFieldCount
          let ownerNodeIndex := ownerId * s.nodeFieldCount
          if nodes.getD (ownerNodeIndex + s.nodeTypeOffset) 0 = s.nodeSyntheticType ||
              ownerNodeIndex = s.rootNodeIndexInternal then nodes
          else
            let sizeToTransfer := nodes.getD (ownedNodeIndex + s.nodeSelfSizeOffset) 0
            let nodes := nodes.setD (ownedNodeIndex + s.nodeSelfSizeOffset) 0
            nodes.setD (ownerNodeIndex + s.nodeSelfSizeOffset)
              (nodes.getD (ownerNodeIndex + s.nodeSelfSizeOffset) 0 + sizeToTransfer))
      s.nodes
    pure { s with nodes := nodes }

/-! ### `calculateDiffForClass` -/

/-- `HeapSnapshotModel.Diff` (the fields filled by `calculateDiffForClass`). -/
structure Diff where
  addedIndexes : List Nat
  deletedIndexes : List Nat
  addedCount : Nat
  removedCount : Nat
  addedSize : Nat
  removedSize : Nat
  countDelta : Int
  sizeDelta : Int
  deriving Repr, DecidableEq

/-- The empty `new Diff()`. -/
def emptyDiff : Diff :=
  { addedIndexes := [], deletedIndexes := [], addedCount := 0, removedCount := 0,
    addedSize := 0, removedSize := 0, countDelta := 0, sizeDelta := 0 }

/-- The two-pointer merge of `calculateDiffForClass`, rendered over the
remaining suffixes: base entries as `(id, index, selfSize)` triples and the
new aggregate's remaining node indexes. -/
def diffMerge (s : Snap) : List (Nat × Nat × Nat) → List Nat → Diff → Diff
  | [], indexes, diff =>
    indexes.foldl
      (fun diff idx =>
        { diff with addedIndexes := diff.addedIndexes ++ [idx],
                    addedCount := diff.addedCount + 1,
                    addedSize := diff.addedSize + s.node (idx + s.nodeSelfSizeOffset) })
      diff
  | bs@(_ :: _), [], diff =>
    bs.foldl
      (fun diff b =>
        { diff with deletedIndexes := diff.deletedIndexes ++ [b.2.1],
                    removedCount := diff.removedCount + 1,
                    removedSize := diff.removedSize + b.2.2 })
      diff
  | (nodeAId, baseIndex, baseSelfSize) :: bs, idx :: indexes, diff =>
    let nodeBId := s.node (idx + s.nodeIdOffset)
    if nodeAId < nodeBId then
      diffMerge s bs (idx :: indexes)
        { diff with deletedIndexes := diff.deletedIndexes ++ [baseIndex],
                    removedCount := diff.removedCount + 1,
                    removedSize := diff.removedSize + baseSelfSize }
    else if nodeAId > nodeBId then
      diffMerge s ((nodeAId, baseIndex, baseSelfSize) :: bs) indexes
        { diff with addedIndexes := diff.addedIndexes ++ [idx],
                    addedCount := diff.addedCount + 1,
                    addedSize := diff.addedSize + s.node (idx + s.nodeSelfSizeOffset) }
    else diffMerge s bs indexes diff
  termination_by bs indexes _ => bs.length + indexes.length

/-- `calculateDiffForClass(baseAggregate, aggregate)`: merge the id-sorted
base entries against the id-sorted node indexes of the new aggregate, set the
deltas, and return `null` when nothing was added or removed. -/
def calculateDiffForClass (s : Snap) (baseIds baseIndexes baseSelfSizes : List Nat)
    (indexes : List Nat) : Option Diff :=
  let diff := diffMerge s (baseIds.zip (baseIndexes.zip baseSelfSizes)) indexes emptyDiff
  let diff := { diff with
    countDelta := (diff.addedCount : Int) - diff.removedCount,
    sizeDelta := (diff.addedSize : Int) - diff.removedSize }
  if diff.addedCount = 0 && diff.removedCount = 0 then none
  else some diff

/-! ### `initialize()` -/

/-- The analysis pipeline of `initialize()` (the passes that build the derived
arrays the verified claims read).  The trailing passes of the source —
`calculateObjectNames`, `calculateStatistics`, `buildSamples`,
`buildLocationMap` and the allocation-profile accounting — mutate none of
`nodes[*].self_size`, `retainedSizes`, `dominatorsTree`, `nodeDistances`,
`firstDominatedNodeIndex`, `dominatedNodes` or the retainer arrays and are
not modelled. -/
def initPipelineFull (s0 : Snap) (fuel : Nat) :
    Except String (Snap × Array Nat × Array Nat) := do
  let n := s0.nodeCount
  let s := { s0 with
    retainedSizes := Array.mkArray n 0,
    firstEdgeIndexes := Array.mkArray (n + 1) 0,
    retainingNodes := Array.mkArray s0.edgeCount 0,
    retainingEdges := Array.mkArray s0.edgeCount 0,
    firstRetainerIndex := Array.mkArray (n + 1) 0,
    nodeDistances := Array.mkArray n 0,
    firstDominatedNodeIndex := Array.mkArray (n + 1) 0,
    dominatedNodes := Array.mkArray (n - 1) 0 }
  let s := buildEdgeIndexes s
  let s ← buildRetainers s
  let s ← propagateDOMState s fuel
  let s ← calculateFlags s fuel
  let s ← calculateDistances s (some (jsDistanceFilter s)) [] fuel
  let (p2n, n2p) ← buildPostOrderIndex s fuel
  let dominatorsTree ← buildDominatorTree s p2n n2p fuel
  let s := { s with dominatorsTree := dominatorsTree }
  let s ← calculateShallowSizes s fuel
  let s := calculateRetainedSizes s p2n
  let s ← buildDominatedNodes s
  pure (s, p2n, n2p)

/-- The analysis pipeline of `initialize()`, final state only. -/
def initPipeline (s0 : Snap) (fuel : Nat) : Except String Snap :=
  (initPipelineFull s0 fuel).map (·.1)

/-! ### Derived notions used by the claim statements -/

/-- `JSHeapSnapshotNode.id()`. -/
def nodeId (s : Snap) (nodeIndex : Nat) : Nat := s.node (nodeIndex + s.nodeIdOffset)

/-- `HeapSnapshotNode.selfSize()`. -/
def nodeSelfSize (s : Snap) (nodeIndex : Nat) : Nat :=
  s.node (nodeIndex + s.nodeSelfSizeOffset)

/-- The sum of all nodes' self sizes (as they stand in the given state). -/
def selfSizesSum (s : Snap) : Nat :=
  ((List.range s.nodeCount).map fun v => s.node (v * s.nodeFieldCount + s.nodeSelfSizeOffset)).sum

/-! ### Concrete example snapshots

Node fields `[type, name, id, self_size, edge_count, trace_node_id,
detachedness]` (`NF = 7`); edge fields `[type, name_or_index, to_node]`
(`EF = 3`).  Node types: hidden 0, array 1, string 2, object 3, code 4,
closure 5, regexp 6, native 8, synthetic 9, concatenated string 10.  Edge
types: context 0, element 1, property 2, internal 3, hidden 4, shortcut 5,
weak 6, invisible 7. -/
def mkSnap (nodes edges : List Nat) (strs : List String) (rootIndex : Nat) : Snap :=
  { nodeTypeOffset := 0, nodeNameOffset := 1, nodeIdOffset := 2, nodeSelfSizeOffset := 3,
    nodeEdgeCountOffset := 4, nodeDetachednessAndClassIndexOffset := 6, nodeFieldCount := 7,
    nodeArrayType := 1, nodeHiddenType := 0, nodeObjectType := 3, nodeNativeType := 8,
    nodeSyntheticType := 9, nodeConsStringType := 10,
    edgeFieldsCount := 3, edgeTypeOffset := 0, edgeNameOffset := 1, edgeToNodeOffset := 2,
    edgeElementType := 1, edgeHiddenType := 4, edgeInternalType := 3, edgeShortcutType := 5,
    edgeWeakType := 6, edgeInvisibleType := 7,
    nodes := nodes.toArray, containmentEdges := edges.toArray, strings := strs.toArray,
    detachednessAndClassIndexArray := #[], rootNodeIndexInternal := rootIndex,
    firstEdgeIndexes := #[], retainingNodes := #[], retainingEdges := #[],
    firstRetainerIndex := #[], nodeDistances := #[], dominatorsTree := #[],
    retainedSizes := #[], firstDominatedNodeIndex := #[], dominatedNodes := #[], flags := #[] }

/-- A three-node chain `root → A → B` over property edges, root first
(scenario S1 of the spec). -/
def exampleChain : Snap := mkSnap
  [ 9, 0, 1, 0, 1, 0, 0,
    3, 1, 3, 10, 1, 0, 0,
    3, 2, 5, 20, 0, 0, 0 ]
  [ 2, 1, 7,
    2, 2, 14 ]
  ["", "A", "B"] 0

/-- Root last (ordinal 2) with one reachable node (ordinal 0) and one fully
isolated node (ordinal 1). -/
def exampleRootLast : Snap := mkSnap
  [ 3, 1, 1, 10, 0, 0, 0,
    3, 2, 3, 7, 0, 0, 0,
    9, 0, 5, 1, 1, 0, 0 ]
  [ 2, 1, 0 ]
  ["", "A", "B"] 14

/-- Root last (ordinal 2) with the isolated node at ordinal 0. -/
def exampleOrphanFirst : Snap := mkSnap
  [ 3, 2, 3, 7, 0, 0, 0,
    3, 1, 1, 10, 0, 0, 0,
    9, 0, 5, 1, 1, 0, 0 ]
  [ 2, 1, 7 ]
  ["", "A", "B"] 14

/-- Three nodes with the root in the middle (ordinal 1). -/
def exampleRootMiddle : Snap := mkSnap
  [ 3, 1, 1, 5, 0, 0, 0,
    9, 0, 3, 0, 1, 0, 0,
    3, 2, 5, 5, 0, 0, 0 ]
  [ 2, 1, 0 ]
  ["", "A", "B"] 7

/-- A snapshot with `0xFFFFFFFE` (all-zero) nodes, no edges and hence no
user roots. -/
def exampleHuge : Snap :=
  { mkSnap [] [] [] 0 with nodes := Array.mkArray (4294967294 * 7) 0 }

/-- A snapshot with `0xFFFFFFFE` (all-zero) nodes whose root (ordinal 0) has
one property edge to ordinal 1, a non-synthetic node, i.e. a user root. -/
def exampleHugeUserRoot : Snap :=
  { mkSnap [] [2, 1, 7] [] 0 with
    nodes := Array.mkArray (4294967294 * 7) 0, firstEdgeIndexes := #[0, 3] }

/-- Two nodes (a WeakMap table with id 3 and a key with id 5) and one
internal edge carrying the ephemeron name of scenario S4. -/
def exampleWeakMap : Snap := mkSnap
  [ 3, 0, 3, 0, 1, 0, 0,
    3, 0, 5, 0, 0, 0, 0 ]
  [ 3, 1, 7 ]
  ["", "0 / part of key (K @5) -> value (V @7) pair in WeakMap (table @3)"] 0

/-- The pass-invariant "geometry" of a snapshot: the node buffer size, the
field counts / offsets / type indexes, the edge buffer, and the root index.
Every analysis pass preserves it (passes resize nothing and only write
existing `nodes` slots). -/
def Geom (s0 s : Snap) : Prop :=
  s.nodes.size = s0.nodes.size ∧ s.nodeFieldCount = s0.nodeFieldCount ∧
    s.rootNodeIndexInternal = s0.rootNodeIndexInternal


/-! ### Retainer-layout vocabulary and the `buildRetainers` fill invariant -/

/-- The target ordinal of edge record `k`: `containmentEdges[k*EF + toOff] / NF`. -/
def targetOrd (s : Snap) (k : Nat) : Nat :=
  s.edge (k * s.edgeFieldsCount + s.edgeToNodeOffset) / s.nodeFieldCount

/-- The (ascending) list of edge records whose target ordinal is `v`. -/
def edgesTo (s : Snap) (v : Nat) : List Nat :=
  (List.range s.edgeCount).filter (fun k => targetOrd s k = v)

/-- The number of edges targeting ordinal `v` (the retainer count of `v`). -/
def retCnt (s : Snap) (v : Nat) : Nat := (edgesTo s v).length

/-- The exclusive prefix sum of the retainer counts: the first retainer slot
of ordinal `v`. -/
def retOff (s : Snap) (v : Nat) : Nat := ((List.range v).map (retCnt s)).sum

/-- The edges among the first `m` records that target ordinal `v`. -/
def edgesToBelow (s : Snap) (m v : Nat) : List Nat :=
  (List.range m).filter (fun k => targetOrd s k = v)

/-- Invariant of the third pass of `buildRetainers` after the first `m` edge
records have been processed: each partially filled bucket still parks its
remaining count at its first slot, and the slots already claimed (from the top
of the bucket downwards) hold the edge indexes targeting the bucket's ordinal,
in ascending edge order. -/
def fillInv (s : Snap) (m : Nat) (acc : Array Nat × Array Nat) : Prop :=
  acc.1.size = s.edgeCount ∧ acc.2.size = s.edgeCount ∧
  (∀ v, v < s.nodeCount → (edgesToBelow s m v).length < retCnt s v →
    acc.1.getD (retOff s v) 0 = retCnt s v - (edgesToBelow s m v).length) ∧
  (∀ v, v < s.nodeCount → ∀ j, j < (edgesToBelow s m v).length →
    acc.2.getD (retOff s v + retCnt s v - 1 - j) 0 =
      (edgesTo s v).getD j 0 * s.edgeFieldsCount)

/-- `exampleChain` with `firstEdgeIndexes` computed by `buildEdgeIndexes`. -/
def exampleChainIndexed : Snap :=
  buildEdgeIndexes { exampleChain with firstEdgeIndexes := Array.mkArray 4 0 }



/-! ### Vocabulary for the `propagateDOMState` attachment-soundness analysis -/

/-- A child link usable by `propagateState`: an edge slot of `u` whose type is
not hidden, invisible or weak, leading to ordinal `w`. -/
def allowedEdgeTo (s : Snap) (u w : Nat) : Prop :=
  ∃ j, j < (s.firstEdgeIndexes.getD (u + 1) 0 - s.firstEdgeIndexes.getD u 0) /
      s.edgeFieldsCount ∧
    ¬(s.edge (s.firstEdgeIndexes.getD u 0 + j * s.edgeFieldsCount + s.edgeTypeOffset) =
        s.edgeHiddenType ∨
      s.edge (s.firstEdgeIndexes.getD u 0 + j * s.edgeFieldsCount + s.edgeTypeOffset) =
        s.edgeInvisibleType ∨
      s.edge (s.firstEdgeIndexes.getD u 0 + j * s.edgeFieldsCount + s.edgeTypeOffset) =
        s.edgeWeakType) ∧
    s.edge (s.firstEdgeIndexes.getD u 0 + j * s.edgeFieldsCount + s.edgeToNodeOffset) /
      s.nodeFieldCount = w

/-- Reachability along the links `propagateDOMState` propagates attachment
over: native nodes serialized as `Attached`, closed under allowed edges to
native children. -/
inductive AttachedReach (s : Snap) : Nat → Prop where
  | seed : ∀ v, v < s.nodeCount →
      rawType s (v * s.nodeFieldCount) = s.nodeNativeType →
      detachedness s (v * s.nodeFieldCount) = domAttached →
      AttachedReach s v
  | step : ∀ u w, AttachedReach s u → allowedEdgeTo s u w →
      rawType s (w * s.nodeFieldCount) = s.nodeNativeType →
      AttachedReach s w

/-- The parts of a snapshot `propagateDOMState` never mutates: every numeric
layout field, the edge buffers, the node-buffer size, and the type field of
every node record. -/
structure SameGraph (s0 s : Snap) : Prop where
  nf : s.nodeFieldCount = s0.nodeFieldCount
  ef : s.edgeFieldsCount = s0.edgeFieldsCount
  eto : s.edgeTypeOffset = s0.edgeTypeOffset
  eno : s.edgeToNodeOffset = s0.edgeToNodeOffset
  nto : s.nodeTypeOffset = s0.nodeTypeOffset
  nno : s.nodeNameOffset = s0.nodeNameOffset
  ndc : s.nodeDetachednessAndClassIndexOffset = s0.nodeDetachednessAndClassIndexOffset
  nnt : s.nodeNativeType = s0.nodeNativeType
  eht : s.edgeHiddenType = s0.edgeHiddenType
  eit : s.edgeInvisibleType = s0.edgeInvisibleType
  ewt : s.edgeWeakType = s0.edgeWeakType
  ce : s.containmentEdges = s0.containmentEdges
  fei : s.firstEdgeIndexes = s0.firstEdgeIndexes
  nsz : s.nodes.size = s0.nodes.size
  typ : ∀ v : Nat, s.node (v * s0.nodeFieldCount + s0.nodeTypeOffset) =
    s0.node (v * s0.nodeFieldCount + s0.nodeTypeOffset)

/-- Soundness invariant threaded through `propagateDOMState`: the graph is
unchanged, every queued attached ordinal is attached-reachable, and every node
currently marked `Attached` was serialized `Attached` or is
attached-reachable. -/
structure PropInv (s0 : Snap) (st : PropState) : Prop where
  sg : SameGraph s0 st.snap
  queue : ∀ u, u ∈ st.attached → AttachedReach s0 u
  att : ∀ v : Nat, detachedness st.snap (v * s0.nodeFieldCount) = domAttached →
    detachedness s0 (v * s0.nodeFieldCount) = domAttached ∨ AttachedReach s0 v

/-- Well-formedness of the node-record layout assumed by the `propagateDOMState`
analysis: the detachedness field is serialized inside the node records and the
three field offsets used by the pass are distinct in-record offsets. -/
structure DomWF (s0 : Snap) : Prop where
  hne : s0.nodeDetachednessAndClassIndexOffset ≠ -1
  hNF : 0 < s0.nodeFieldCount
  htO : s0.nodeTypeOffset < s0.nodeFieldCount
  hnO : s0.nodeNameOffset < s0.nodeFieldCount
  hdO : s0.nodeDetachednessAndClassIndexOffset.toNat < s0.nodeFieldCount
  hnt : s0.nodeNameOffset ≠ s0.nodeTypeOffset
  hnd : s0.nodeNameOffset ≠ s0.nodeDetachednessAndClassIndexOffset.toNat
  hdt : s0.nodeDetachednessAndClassIndexOffset.toNat ≠ s0.nodeTypeOffset

/-- Two native DOM seeds (A attached at ordinal 0, D detached at ordinal 1)
both pointing at the native node X (ordinal 2) through property edges. -/
def exampleDomClash : Snap :=
  buildEdgeIndexes { mkSnap
    [ 8, 0, 1, 0, 1, 0, 1,
      8, 1, 3, 0, 1, 0, 2,
      8, 2, 5, 0, 0, 0, 0 ]
    [ 2, 0, 14,
      2, 0, 14 ]
    ["A", "D", "X"] 0
    with firstEdgeIndexes := Array.mkArray 4 0 }


/-- An edge slot usable by the distance BFS from ordinal `u`: in range, not
weak, and accepted by the (pure) edge filter. -/
def distAllowed (s : Snap) (f : Nat → Nat → Bool) (u j : Nat) : Prop :=
  j < (s.firstEdgeIndexes.getD (u + 1) 0 - s.firstEdgeIndexes.getD u 0) /
    s.edgeFieldsCount ∧
  s.edge (s.firstEdgeIndexes.getD u 0 + j * s.edgeFieldsCount + s.edgeTypeOffset) ≠
    s.edgeWeakType ∧
  f (u * s.nodeFieldCount) (s.firstEdgeIndexes.getD u 0 + j * s.edgeFieldsCount) = true

/-- The target ordinal of the `j`-th edge of ordinal `u`. -/
def distTarget (s : Snap) (u j : Nat) : Nat :=
  s.edge (s.firstEdgeIndexes.getD u 0 + j * s.edgeFieldsCount + s.edgeToNodeOffset) /
    s.nodeFieldCount

/-- The set of ordinals the distance BFS marks: the root, the user-root
children of the root (seeded from all of the root's edges, including weak
ones), and everything reachable from those through non-weak filter-accepted
edges. -/
inductive DistReach (s : Snap) (fuel : Nat) (f : Nat → Nat → Bool) : Nat → Prop where
  | root : DistReach s fuel f s.rootNodeOrdinal
  | seed : ∀ j, j < (s.firstEdgeIndexes.getD (s.rootNodeOrdinal + 1) 0 -
        s.firstEdgeIndexes.getD s.rootNodeOrdinal 0) / s.edgeFieldsCount →
      snapshotIsUserRoot s fuel (s.edge (s.firstEdgeIndexes.getD s.rootNodeOrdinal 0 +
        j * s.edgeFieldsCount + s.edgeToNodeOffset)) = Except.ok true →
      DistReach s fuel f (distTarget s s.rootNodeOrdinal j)
  | step : ∀ u j, DistReach s fuel f u → u < s.nodeCount → distAllowed s f u j →
      DistReach s fuel f (distTarget s u j)

/-- Every allowed out-edge of `u` already has its target marked in `d`. -/
def distClosed (s : Snap) (f : Nat → Nat → Bool) (d : Array Int) (u : Nat) : Prop :=
  ∀ j, distAllowed s f u j → distTarget s u j < s.nodeCount →
    d.getD (distTarget s u j) 0 ≠ noDistance

/-! ## Theorems -/

theorem Geom.refl (s : Snap) : Geom s s := ⟨rfl, rfl, rfl⟩

theorem Geom.trans {s0 s1 s2 : Snap} (h1 : Geom s0 s1) (h2 : Geom s1 s2) : Geom s0 s2 :=
  ⟨h2.1.trans h1.1, h2.2.1.trans h1.2.1, h2.2.2.trans h1.2.2⟩

theorem Geom.nodeCount {s0 s : Snap} (h : Geom s0 s) : s.nodeCount = s0.nodeCount := by
  unfold Snap.nodeCount; rw [h.1, h.2.1]

theorem Geom.rootNodeOrdinal {s0 s : Snap} (h : Geom s0 s) :
    s.rootNodeOrdinal = s0.rootNodeOrdinal := by
  unfold Snap.rootNodeOrdinal; rw [h.2.1, h.2.2]

theorem except_bind_ok {α β : Type} {e : Except String α} {f : α → Except String β} {v : β}
    (h : e >>= f = Except.ok v) : ∃ a, e = Except.ok a ∧ f a = Except.ok v := by
  cases e with
  | error msg => exact absurd h (by simp [Bind.bind, Except.bind])
  | ok a => exact ⟨a, rfl, by simpa [Bind.bind, Except.bind] using h⟩

theorem foldl_preserves {α β : Type} {f : α → β → α} {P : α → Prop}
    (h : ∀ a b, P a → P (f a b)) : ∀ (l : List β) (a : α), P a → P (l.foldl f a) := by
  intro l
  induction l with
  | nil => intro a ha; exact ha
  | cons b bs ih => intro a ha; exact ih _ (h a b ha)

theorem foldlM_except_preserves {α β : Type} {f : α → β → Except String α} {P : α → Prop}
    (h : ∀ a b a', f a b = Except.ok a' → P a → P a') :
    ∀ (l : List β) (a a' : α), l.foldlM f a = Except.ok a' → P a → P a' := by
  intro l
  induction l with
  | nil =>
    intro a a' hfold ha
    simp only [List.foldlM, pure, Except.pure, Except.ok.injEq] at hfold
    exact hfold ▸ ha
  | cons b bs ih =>
    intro a a' hfold ha
    simp only [List.foldlM] at hfold
    obtain ⟨a1, h1, h2⟩ := except_bind_ok hfold
    exact ih a1 a' h2 (h a b a1 h1 ha)

/-! Geometry preservation through the passes. -/

theorem geom_buildEdgeIndexes (s : Snap) : Geom s (buildEdgeIndexes s) := ⟨rfl, rfl, rfl⟩

theorem geom_buildRetainers {s s' : Snap} (h : buildRetainers s = Except.ok s') : Geom s s' := by
  unfold buildRetainers at h
  obtain ⟨c, _, h⟩ := except_bind_ok h
  obtain ⟨p, _, h⟩ := except_bind_ok h
  cases h' : retainerFill s (retainerOffsets s c).1 (retainerOffsets s c).2 with
  | error msg => simp_all
  | ok pr => simp_all [pure, Except.pure]; rw [← h]; exact ⟨rfl, rfl, rfl⟩

theorem geom_setDetachednessAndClassIndex (s : Snap) (i v : Nat) :
    Geom s (setDetachednessAndClassIndex s i v) := by
  unfold setDetachednessAndClassIndex
  split <;> exact ⟨by simp, rfl, rfl⟩

theorem geom_setDetachedness (s : Snap) (i d : Nat) : Geom s (setDetachedness s i d) :=
  geom_setDetachednessAndClassIndex ..

theorem geom_addDetachedPrefixToNodeName {st : PropState} (i : Nat) :
    Geom st.snap (addDetachedPrefixToNodeName st i).snap := by
  unfold addDetachedPrefixToNodeName
  cases h : st.cache.lookup (st.snap.node (i + st.snap.nodeNameOffset)) with
  | some nsi => simp [h]; exact ⟨by simp, rfl, rfl⟩
  | none => simp [h, addString]; exact ⟨by simp, rfl, rfl⟩

theorem geom_processNode {st : PropState} (o ns : Nat) :
    Geom st.snap (processNode st o ns).snap := by
  unfold processNode
  by_cases h1 : st.visited.getD o false
  · rw [if_pos h1]; exact Geom.refl _
  · rw [if_neg h1]
    dsimp only
    by_cases h2 : rawType st.snap (o * st.snap.nodeFieldCount) ≠ st.snap.nodeNativeType
    · rw [if_pos h2]; exact Geom.refl _
    · rw [if_neg h2]
      dsimp only
      by_cases h3 : ns = domAttached
      · rw [if_pos h3]; exact geom_setDetachedness ..
      · rw [if_neg h3]
        by_cases h4 : ns = domDetached
        · rw [if_pos h4]
          exact Geom.trans (geom_setDetachedness ..) (geom_addDetachedPrefixToNodeName _)
        · rw [if_neg h4]; exact geom_setDetachedness ..

theorem geom_propagateState {st : PropState} (p ns : Nat) :
    Geom st.snap (propagateState st p ns).snap := by
  unfold propagateState
  apply foldl_preserves (P := fun (t : PropState) => Geom st.snap t.snap)
  · intro t j ht
    unfold propagateStateStep
    dsimp only
    split
    · exact ht
    · exact Geom.trans ht (geom_processNode ..)
  · exact Geom.refl _


theorem geom_drainAttached : ∀ {fuel : Nat} {st st' : PropState},
    drainAttached fuel st = Except.ok st' → Geom st.snap st'.snap := by
  intro fuel
  induction fuel with
  | zero => intro st st' h; exact absurd h (by simp [drainAttached, throw, throwThe, MonadExceptOf.throw])
  | succ fuel ih =>
    intro st st' h
    unfold drainAttached at h
    cases hq : st.attached with
    | nil => rw [hq] at h; simp [pure, Except.pure] at h; exact h ▸ Geom.refl _
    | cons o rest =>
      rw [hq] at h
      dsimp only at h
      exact Geom.trans (@geom_propagateState { st with attached := rest } o domAttached)
        (ih h)

theorem geom_drainDetached : ∀ {fuel : Nat} {st st' : PropState},
    drainDetached fuel st = Except.ok st' → Geom st.snap st'.snap := by
  intro fuel
  induction fuel with
  | zero => intro st st' h; exact absurd h (by simp [drainDetached, throw, throwThe, MonadExceptOf.throw])
  | succ fuel ih =>
    intro st st' h
    unfold drainDetached at h
    cases hq : st.detached with
    | nil => rw [hq] at h; simp [pure, Except.pure] at h; exact h ▸ Geom.refl _
    | cons o rest =>
      rw [hq] at h
      dsimp only at h
      split at h
      · exact @ih { st with detached := rest } st' h
      · exact Geom.trans (@geom_propagateState { st with detached := rest } o domDetached)
          (ih h)

theorem geom_propagateDOMState {s s' : Snap} {fuel : Nat}
    (h : propagateDOMState s fuel = Except.ok s') : Geom s s' := by
  unfold propagateDOMState at h
  split at h
  · simp [pure, Except.pure] at h; exact h ▸ Geom.refl _
  · obtain ⟨st1, h1, h⟩ := except_bind_ok h
    obtain ⟨st2, h2, h⟩ := except_bind_ok h
    simp [pure, Except.pure] at h
    have hseed : Geom s ((List.range s.nodeCount).foldl seedNode
        { snap := s, visited := Array.mkArray s.nodeCount false, attached := [], detached := [],
          cache := [] }).snap := by
      apply foldl_preserves (P := fun (t : PropState) => Geom s t.snap)
      · intro t j ht
        unfold seedNode
        dsimp only
        split
        · exact ht
        · exact Geom.trans ht (geom_processNode ..)
      · exact Geom.refl _
    exact h ▸ Geom.trans (Geom.trans hseed (geom_drainAttached h1)) (geom_drainDetached h2)

theorem geom_markDetachedDOMTreeNodes {s s' : Snap} {fuel : Nat}
    (h : markDetachedDOMTreeNodes s fuel = Except.ok s') : Geom s s' := by
  unfold markDetachedDOMTreeNodes at h
  refine foldlM_except_preserves (P := fun t => Geom s t) ?_ _ _ _ h (Geom.refl _)
  intro a b a' hstep ha
  dsimp only at hstep
  split at hstep
  · simp [pure, Except.pure] at hstep; exact hstep ▸ ha
  · obtain ⟨name, hn, hstep⟩ := except_bind_ok hstep
    split at hstep <;> simp [pure, Except.pure] at hstep <;>
      exact hstep ▸ Geom.trans ha ⟨rfl, rfl, rfl⟩

theorem geom_markQueriableHeapObjects {s s' : Snap} {fuel : Nat}
    (h : markQueriableHeapObjects s fuel = Except.ok s') : Geom s s' := by
  unfold markQueriableHeapObjects at h
  obtain ⟨flags, h1, h2⟩ := except_bind_ok h
  simp [pure, Except.pure] at h2
  exact h2 ▸ ⟨rfl, rfl, rfl⟩

theorem geom_markPageOwnedNodes {s s' : Snap} {fuel : Nat}
    (h : markPageOwnedNodes s fuel = Except.ok s') : Geom s s' := by
  unfold markPageOwnedNodes at h
  obtain ⟨seeded, h1, h⟩ := except_bind_ok h
  obtain ⟨flags, h2, h⟩ := except_bind_ok h
  simp [pure, Except.pure] at h
  exact h ▸ ⟨rfl, rfl, rfl⟩

theorem geom_calculateFlags {s s' : Snap} {fuel : Nat}
    (h : calculateFlags s fuel = Except.ok s') : Geom s s' := by
  unfold calculateFlags at h
  obtain ⟨s1, h1, h⟩ := except_bind_ok h
  obtain ⟨s2, h2, h⟩ := except_bind_ok h
  have g0 : Geom s { s with flags := Array.mkArray s.nodeCount 0 } := ⟨rfl, rfl, rfl⟩
  exact ((g0.trans (geom_markDetachedDOMTreeNodes h1)).trans
    (geom_markQueriableHeapObjects h2)).trans (geom_markPageOwnedNodes h)

theorem geom_calculateDistances {s s' : Snap} {σ : Type}
    {filter : Option (σ → Nat → Nat → Bool × σ)} {fs0 : σ} {fuel : Nat}
    (h : calculateDistances s filter fs0 fuel = Except.ok s') : Geom s s' := by
  unfold calculateDistances at h
  obtain ⟨seeded, h1, h⟩ := except_bind_ok h
  obtain ⟨d1, h2, h⟩ := except_bind_ok h
  obtain ⟨d2, h3, h⟩ := except_bind_ok h
  simp [pure, Except.pure] at h
  exact h ▸ ⟨rfl, rfl, rfl⟩

theorem geom_calculateShallowSizes {s s' : Snap} {fuel : Nat}
    (h : calculateShallowSizes s fuel = Except.ok s') : Geom s s' := by
  unfold calculateShallowSizes at h
  obtain ⟨hur, h1, h⟩ := except_bind_ok h
  split at h
  · simp [pure, Except.pure] at h; exact h ▸ Geom.refl _
  · split at h
    · exact absurd h (by simp [throw, throwThe, MonadExceptOf.throw])
    · obtain ⟨owners, h2, h⟩ := except_bind_ok h
      simp [pure, Except.pure] at h
      subst h
      refine ⟨?_, rfl, rfl⟩
      apply foldl_preserves (P := fun (a : Array Nat) => a.size = s.nodes.size)
      · intro a b ha
        dsimp only
        split
        · exact ha
        · split
          · exact ha
          · simp [ha]
      · rfl

theorem geom_calculateRetainedSizes (s : Snap) (p2n : Array Nat) :
    Geom s (calculateRetainedSizes s p2n) := ⟨rfl, rfl, rfl⟩

/-- C4: For every edge `e` with source node `u`: `isEssentialEdge(u, e)`
returns false when `e` is weak; when `e` is a shortcut it returns true
exactly when `u` is the root node; when `e` is internal and its name matches
the WeakMap pair pattern it returns false exactly when `u`'s node id equals
the `tableId` captured from the edge name; in every other case it returns
true.  (The edge-type enum indexes are pairwise distinct.) -/
theorem isEssentialEdge_spec (s : Snap) (nodeIndex edgeIndex : Nat)
    (hwi : s.edgeWeakType ≠ s.edgeInternalType)
    (hsi : s.edgeShortcutType ≠ s.edgeInternalType)
    (hws : s.edgeWeakType ≠ s.edgeShortcutType) :
    (s.edge (edgeIndex + s.edgeTypeOffset) = s.edgeWeakType →
      isEssentialEdge s nodeIndex edgeIndex = false)
    ∧ (s.edge (edgeIndex + s.edgeTypeOffset) = s.edgeShortcutType →
      (isEssentialEdge s nodeIndex edgeIndex = true ↔ nodeIndex = s.rootNodeIndexInternal))
    ∧ (s.edge (edgeIndex + s.edgeTypeOffset) = s.edgeInternalType →
      ∀ dup tableId,
        tryParseWeakMapEdgeName s (s.edge (edgeIndex + s.edgeNameOffset)) = some (dup, tableId) →
        (isEssentialEdge s nodeIndex edgeIndex = false ↔
          s.node (nodeIndex + s.nodeIdOffset) = parseDigits tableId))
    ∧ ((s.edge (edgeIndex + s.edgeTypeOffset) ≠ s.edgeWeakType ∧
        s.edge (edgeIndex + s.edgeTypeOffset) ≠ s.edgeShortcutType ∧
        (s.edge (edgeIndex + s.edgeTypeOffset) = s.edgeInternalType →
          tryParseWeakMapEdgeName s (s.edge (edgeIndex + s.edgeNameOffset)) = none)) →
      isEssentialEdge s nodeIndex edgeIndex = true) := by
  refine ⟨?_, ?_, ?_, ?_⟩
  · intro hw
    simp [isEssentialEdge, hw, hwi]
  · intro hs
    simp [isEssentialEdge, hs, hsi, Ne.symm hws]
  · intro hi dup tableId hparse
    simp [isEssentialEdge, hi, hparse]
  · rintro ⟨hnw, hns, hni⟩
    by_cases hi : s.edge (edgeIndex + s.edgeTypeOffset) = s.edgeInternalType
    · rw [hi] at hnw hns
      simp [isEssentialEdge, hi, hni hi, hnw, hns]
    · simp [isEssentialEdge, hi, hnw, hns]

/-- Witness for C4 at the S4 scenario snapshot: the internal ephemeron edge
sourced at the WeakMap table (id 3) is not essential, while the same edge
sourced at the key (id 5) is essential. -/
theorem isEssentialEdge_spec_witness :
    isEssentialEdge exampleWeakMap 0 0 = false ∧ isEssentialEdge exampleWeakMap 7 0 = true := by
  constructor
  · have h := (isEssentialEdge_spec exampleWeakMap 0 0 (by decide) (by decide) (by decide)).2.2.1
      (by decide) " / part of key (K @5) -> value (V @7) pair in WeakMap (table @3)" "3"
      (by decide)
    exact h.mpr (by decide)
  · have h := (isEssentialEdge_spec exampleWeakMap 7 0 (by decide) (by decide) (by decide)).2.2.1
      (by decide) " / part of key (K @5) -> value (V @7) pair in WeakMap (table @3)" "3"
      (by decide)
    cases hb : isEssentialEdge exampleWeakMap 7 0
    · exact absurd (h.mp hb) (by decide)
    · rfl

/-- C1 counterexample: on `exampleRootLast` (root ordinal 2 = last, with an
isolated node), `initialize()` completes but the root's retained size is 11
while the self sizes (unchanged by shallow-size reassignment here) sum
to 18 — the isolated node's 7 bytes flow to ordinal 0, which was already
processed, so `retained_sizes[root] = Σ self_size[v]` fails. -/
theorem retainedSizes_root_sum_counterexample :
    (initPipeline exampleRootLast 100).map (fun st =>
      (st.retainedSizes.getD st.rootNodeOrdinal 0, selfSizesSum st)) = Except.ok (11, 18) ∧
    (initPipeline exampleRootLast 100).map (fun st =>
      decide (st.retainedSizes.getD st.rootNodeOrdinal 0 = selfSizesSum st)) =
      Except.ok false := by
  constructor
  · rfl
  · rfl

/-- C10: For every snapshot whose root node ordinal is neither 0 nor
`node_count - 1`, `buildDominatedNodes` throws
`"Root node is expected to be either first or last"`, and `initialize()`
never completes — the dominated-children index is only ever built when the
root node is the first or the last node of the snapshot. -/
theorem buildDominatedNodes_root_position (s : Snap)
    (h0 : s.rootNodeOrdinal ≠ 0) (h1 : s.rootNodeOrdinal ≠ s.nodeCount - 1) :
    buildDominatedNodes s = Except.error "Root node is expected to be either first or last"
    ∧ ∀ fuel st, initPipeline s fuel ≠ Except.ok st := by
  have herr : ∀ t : Snap, t.rootNodeOrdinal = s.rootNodeOrdinal → t.nodeCount = s.nodeCount →
      buildDominatedNodes t = Except.error "Root node is expected to be either first or last" := by
    intro t hr hn
    unfold buildDominatedNodes
    rw [hr, hn, if_neg h0, if_neg h1]
    rfl
  refine ⟨herr s rfl rfl, ?_⟩
  intro fuel st h
  unfold initPipeline at h
  cases hfull : initPipelineFull s fuel with
  | error e => rw [hfull] at h; exact absurd h (by simp [Except.map])
  | ok triple =>
    obtain ⟨st0, p2n0, n2p0⟩ := triple
    unfold initPipelineFull at hfull
    obtain ⟨s2, hb2, hfull⟩ := except_bind_ok hfull
    obtain ⟨s3, hb3, hfull⟩ := except_bind_ok hfull
    obtain ⟨s4, hb4, hfull⟩ := except_bind_ok hfull
    obtain ⟨s5, hb5, hfull⟩ := except_bind_ok hfull
    obtain ⟨pr, hb6, hfull⟩ := except_bind_ok hfull
    obtain ⟨p2n, n2p⟩ := pr
    dsimp only at hfull
    obtain ⟨dt, hb7, hfull⟩ := except_bind_ok hfull
    obtain ⟨s6, hb8, hfull⟩ := except_bind_ok hfull
    obtain ⟨s7, hb9, hfull⟩ := except_bind_ok hfull
    have g2 : Geom s s2 := by
      have hA := geom_buildRetainers hb2
      refine Geom.trans ?_ hA
      refine Geom.trans ?_ (geom_buildEdgeIndexes _)
      exact ⟨rfl, rfl, rfl⟩
    have g3 : Geom s s3 := Geom.trans g2 (geom_propagateDOMState hb3)
    have g4 : Geom s s4 := Geom.trans g3 (geom_calculateFlags hb4)
    have g5 : Geom s s5 := Geom.trans g4 (geom_calculateDistances hb5)
    have g6 : Geom s { s5 with dominatorsTree := dt } := Geom.trans g5 ⟨rfl, rfl, rfl⟩
    have g7 : Geom s s6 := Geom.trans g6 (geom_calculateShallowSizes hb8)
    have g8 : Geom s (calculateRetainedSizes s6 p2n) :=
      Geom.trans g7 (geom_calculateRetainedSizes _ _)
    rw [herr (calculateRetainedSizes s6 p2n) g8.rootNodeOrdinal g8.nodeCount] at hb9
    exact absurd hb9 (by simp)

/-- Witness for C10: on `exampleRootMiddle` (root at ordinal 1 of 3),
`buildDominatedNodes` throws. -/
theorem buildDominatedNodes_root_position_witness :
    buildDominatedNodes exampleRootMiddle =
      Except.error "Root node is expected to be either first or last" :=
  (buildDominatedNodes_root_position exampleRootMiddle (by decide) (by decide)).1

theorem getD_mkArray_of_lt {α : Type} {n i : Nat} (v d : α) (h : i < n) :
    (Array.mkArray n v).getD i d = v := by
  have hs : i < (Array.mkArray n v).size := by rw [Array.size_mkArray]; exact h
  unfold Array.getD
  rw [dif_pos hs]
  exact Array.getElem_mkArray ..

/-- C9 counterexample: on a snapshot with `0xFFFFFFFE` nodes and no user
roots, `calculateShallowSizes` returns silently (the user-root check comes
first), although the claim says it throws
`"Too many nodes for calculateShallowSizes"` whenever
`node_count ≥ 0xFFFFFFFE`. -/
theorem calculateShallowSizes_order_counterexample :
    calculateShallowSizes exampleHuge 10 = Except.ok exampleHuge ∧
    exampleHuge.nodeCount ≥ 0xFFFFFFFE := by
  constructor
  · rfl
  · rw [Snap.nodeCount.eq_1]
    have hsz : exampleHuge.nodes.size = 4294967294 * 7 := Array.size_mkArray ..
    have hnf : exampleHuge.nodeFieldCount = 7 := rfl
    have hdiv : 4294967294 * 7 / 7 = 4294967294 := by norm_num
    rw [hsz, hnf, hdiv]

/-- C9 (amended): `calculateShallowSizes` returns without modifying the
nodes buffer whenever the snapshot has no user roots (even when the node
count is out of range), and throws
`"Too many nodes for calculateShallowSizes"` — before modifying anything —
whenever it has user roots and `node_count ≥ 0xFFFFFFFE`. -/
theorem calculateShallowSizes_spec (s : Snap) (fuel : Nat) :
    (hasUserRoots s fuel = Except.ok false → calculateShallowSizes s fuel = Except.ok s)
    ∧ (hasUserRoots s fuel = Except.ok true → s.nodeCount ≥ 0xFFFFFFFE →
        calculateShallowSizes s fuel =
          Except.error "Too many nodes for calculateShallowSizes") := by
  constructor
  · intro hur
    unfold calculateShallowSizes
    rw [hur]
    rfl
  · intro hur hcount
    unfold calculateShallowSizes
    rw [hur]
    simp only [Bind.bind, Except.bind, Bool.not_true, Bool.false_eq_true, if_false]
    rw [if_pos (show s.nodeCount ≥ kHasMultipleOwners from hcount)]
    rfl

/-- Witness for C9 (amended), both conjuncts: the no-user-roots snapshot
returns unchanged; the user-root variant with `0xFFFFFFFE` nodes throws. -/
theorem calculateShallowSizes_spec_witness :
    calculateShallowSizes exampleHuge 10 = Except.ok exampleHuge ∧
    calculateShallowSizes exampleHugeUserRoot 10 =
      Except.error "Too many nodes for calculateShallowSizes" := by
  have hraw : rawType exampleHugeUserRoot 7 = 0 := by
    have h1 : exampleHugeUserRoot.nodeTypeOffset = 0 := rfl
    have h2 : exampleHugeUserRoot.nodes = Array.mkArray (4294967294 * 7) 0 := rfl
    rw [rawType.eq_1, Snap.node.eq_1, h1, h2, Nat.add_zero]
    exact getD_mkArray_of_lt 0 0 (by norm_num)
  have hs : snapshotIsUserRoot exampleHugeUserRoot 10 7 = Except.ok true := by
    have h9 : exampleHugeUserRoot.nodeSyntheticType = 9 := rfl
    rw [snapshotIsUserRoot.eq_1, isUserRootNode.eq_1, isSyntheticNode.eq_1, hraw, h9]
    have hc : (!decide ((0 : Nat) = 9)) = true := rfl
    rw [if_pos hc]
    rfl
  have hur0 : hasUserRoots exampleHugeUserRoot 10 = hasUserRootsGo exampleHugeUserRoot 10 [0] :=
    rfl
  have hur : hasUserRoots exampleHugeUserRoot 10 = Except.ok true := by
    rw [hur0, hasUserRootsGo.eq_2]
    rw [show exampleHugeUserRoot.firstEdgeIndexes.getD exampleHugeUserRoot.rootNodeOrdinal 0 = 0
      from rfl]
    rw [show exampleHugeUserRoot.edge
      (0 + 0 * exampleHugeUserRoot.edgeFieldsCount + exampleHugeUserRoot.edgeToNodeOffset) = 7
      from rfl]
    rw [hs]
    rfl
  constructor
  · exact (calculateShallowSizes_spec exampleHuge 10).1 rfl
  · refine (calculateShallowSizes_spec exampleHugeUserRoot 10).2 hur ?_
    rw [Snap.nodeCount.eq_1]
    have hsz : exampleHugeUserRoot.nodes.size = 4294967294 * 7 := Array.size_mkArray ..
    have hnf : exampleHugeUserRoot.nodeFieldCount = 7 := rfl
    have hdiv : 4294967294 * 7 / 7 = 4294967294 := by norm_num
    rw [hsz, hnf, hdiv]

/-- C2 counterexample: on `exampleOrphanFirst` (root ordinal 2 = last, with
an isolated node at ordinal 0), `initialize()` completes but the isolated
node's dominator entry stays `noEntry`, so the conversion reads
`postOrderIndex2NodeOrdinal` out of bounds and stores ordinal 0:
`dominators_tree[0] = 0` for the non-root ordinal 0 (which is also not
reachable from the root through essential edges). -/
theorem dominatorsTree_distinct_counterexample :
    (initPipeline exampleOrphanFirst 100).map (fun st =>
      (st.rootNodeOrdinal, st.dominatorsTree.getD 0 0)) = Except.ok (2, 0) := by rfl

end HeapSnap
namespace HeapSnap

/-- The `nodeA === null` branch of the merge: with no base entries left, every
remaining new index is recorded as added. -/
theorem diffMerge_addAll (s : Snap) : ∀ (js : List Nat) (acc : Diff),
    js.foldl
      (fun diff idx =>
        { diff with addedIndexes := diff.addedIndexes ++ [idx],
                    addedCount := diff.addedCount + 1,
                    addedSize := diff.addedSize + s.node (idx + s.nodeSelfSizeOffset) })
      acc
    = { acc with addedIndexes := acc.addedIndexes ++ js,
                 addedCount := acc.addedCount + js.length,
                 addedSize := acc.addedSize + (js.map (fun j => nodeSelfSize s j)).sum } := by
  intro js
  induction js with
  | nil => intro acc; simp
  | cons j js ih =>
    intro acc
    rw [List.foldl_cons, ih]
    simp only [nodeSelfSize, List.map_cons, List.sum_cons, List.length_cons, List.append_assoc,
      List.singleton_append]
    congr 1 <;> omega

/-- The `nodeB === null` branch of the merge: with no new indexes left, every
remaining base entry is recorded as removed. -/
theorem diffMerge_removeAll : ∀ (bs : List (Nat × Nat × Nat)) (acc : Diff),
    bs.foldl
      (fun diff b =>
        { diff with deletedIndexes := diff.deletedIndexes ++ [b.2.1],
                    removedCount := diff.removedCount + 1,
                    removedSize := diff.removedSize + b.2.2 })
      acc
    = { acc with deletedIndexes := acc.deletedIndexes ++ bs.map (fun b => b.2.1),
                 removedCount := acc.removedCount + bs.length,
                 removedSize := acc.removedSize + (bs.map (fun b => b.2.2)).sum } := by
  intro bs
  induction bs with
  | nil => intro acc; simp
  | cons b bs ih =>
    intro acc
    rw [List.foldl_cons, ih]
    simp only [List.map_cons, List.sum_cons, List.length_cons, List.append_assoc,
      List.singleton_append]
    congr 1 <;> omega

theorem diffMerge_char_aux (s : Snap) : ∀ (n : Nat) (bs : List (Nat × Nat × Nat))
    (js : List Nat) (acc : Diff), bs.length + js.length ≤ n →
    bs.Pairwise (fun x y => x.1 < y.1) →
    js.Pairwise (fun a b => nodeId s a < nodeId s b) →
    diffMerge s bs js acc =
      { addedIndexes := acc.addedIndexes ++
          js.filter (fun j => ! decide (nodeId s j ∈ bs.map Prod.fst)),
        deletedIndexes := acc.deletedIndexes ++
          (bs.filter (fun b => ! decide (b.1 ∈ js.map (nodeId s)))).map (fun b => b.2.1),
        addedCount := acc.addedCount +
          (js.filter (fun j => ! decide (nodeId s j ∈ bs.map Prod.fst))).length,
        removedCount := acc.removedCount +
          (bs.filter (fun b => ! decide (b.1 ∈ js.map (nodeId s)))).length,
        addedSize := acc.addedSize +
          ((js.filter (fun j => ! decide (nodeId s j ∈ bs.map Prod.fst))).map
            (fun j => nodeSelfSize s j)).sum,
        removedSize := acc.removedSize +
          ((bs.filter (fun b => ! decide (b.1 ∈ js.map (nodeId s)))).map
            (fun b => b.2.2)).sum,
        countDelta := acc.countDelta,
        sizeDelta := acc.sizeDelta } := by
  intro n
  induction n with
  | zero =>
    intro bs js acc hlen hb hj
    have hbs : bs = [] := by cases bs <;> simp_all
    have hjs : js = [] := by cases js <;> simp_all
    subst hbs; subst hjs
    simp [diffMerge]
  | succ n ih =>
    intro bs js acc hlen hb hj
    rcases bs with _ | ⟨⟨aId, bIdx, bSize⟩, bs⟩
    · rw [show diffMerge s [] js acc = js.foldl
          (fun diff idx =>
            { diff with addedIndexes := diff.addedIndexes ++ [idx],
                        addedCount := diff.addedCount + 1,
                        addedSize := diff.addedSize + s.node (idx + s.nodeSelfSizeOffset) })
          acc from by simp [diffMerge]]
      rw [diffMerge_addAll]
      simp
    · rcases js with _ | ⟨j, js⟩
      · rw [show diffMerge s ((aId, bIdx, bSize) :: bs) [] acc =
            ((aId, bIdx, bSize) :: bs).foldl
              (fun diff b =>
                { diff with deletedIndexes := diff.deletedIndexes ++ [b.2.1],
                            removedCount := diff.removedCount + 1,
                            removedSize := diff.removedSize + b.2.2 })
              acc from by simp [diffMerge]]
        rw [diffMerge_removeAll]
        have hall : (((aId, bIdx, bSize) :: bs).filter
            (fun b => ! decide (b.1 ∈ ([] : List Nat).map (nodeId s)))) =
            (aId, bIdx, bSize) :: bs := by
          apply List.filter_eq_self.mpr
          intro b _
          simp
        rw [hall]
        simp
      · rw [List.pairwise_cons] at hb hj
        obtain ⟨hbH, hbT⟩ := hb
        obtain ⟨hjH, hjT⟩ := hj
        have hlen' : bs.length + (j :: js).length ≤ n := by
          simp only [List.length_cons] at hlen ⊢; omega
        have hlen'' : ((aId, bIdx, bSize) :: bs).length + js.length ≤ n := by
          simp only [List.length_cons] at hlen ⊢; omega
        have hlen''' : bs.length + js.length ≤ n := by
          simp only [List.length_cons] at hlen; omega
        have hnid : s.node (j + s.nodeIdOffset) = nodeId s j := rfl
        rcases Nat.lt_trichotomy aId (nodeId s j) with hlt | heq | hgt
        · -- base id smaller: the base entry is removed
          have hstep : diffMerge s ((aId, bIdx, bSize) :: bs) (j :: js) acc =
              diffMerge s bs (j :: js)
                { acc with deletedIndexes := acc.deletedIndexes ++ [bIdx],
                           removedCount := acc.removedCount + 1,
                           removedSize := acc.removedSize + bSize } := by
            simp only [diffMerge, hnid]
            rw [if_pos hlt]
          rw [hstep, ih bs (j :: js) _ hlen' hbT (List.pairwise_cons.mpr ⟨hjH, hjT⟩)]
          have f1 : (fun b : Nat × Nat × Nat =>
              ! decide (b.1 ∈ (j :: js).map (nodeId s))) (aId, bIdx, bSize) = true := by
            simp only [Bool.not_eq_true', decide_eq_false_iff_not, List.mem_map, List.mem_cons]
            rintro ⟨x, hx | hx, hEq⟩
            · subst hx; omega
            · have := hjH x hx; omega
          have f2 : (j :: js).filter
              (fun x => ! decide (nodeId s x ∈ ((aId, bIdx, bSize) :: bs).map Prod.fst)) =
              (j :: js).filter (fun x => ! decide (nodeId s x ∈ bs.map Prod.fst)) := by
            apply List.filter_congr
            intro x hx
            have hne : nodeId s x ≠ aId := by
              rcases List.mem_cons.mp hx with h | h
              · subst h; omega
              · have := hjH x h; omega
            simp [List.mem_cons, hne]
          have f3 : (((aId, bIdx, bSize) :: bs).filter
              (fun b => ! decide (b.1 ∈ (j :: js).map (nodeId s)))) =
              (aId, bIdx, bSize) ::
                bs.filter (fun b => ! decide (b.1 ∈ (j :: js).map (nodeId s))) := by
            rw [List.filter_cons, if_pos f1]
          rw [f2, f3]
          simp only [List.map_cons, List.sum_cons, List.length_cons, List.append_assoc,
            List.singleton_append]
          congr 1 <;> omega
        · -- equal ids: both are skipped
          have hstep : diffMerge s ((aId, bIdx, bSize) :: bs) (j :: js) acc =
              diffMerge s bs js acc := by
            simp only [diffMerge, hnid]
            rw [if_neg (by omega), if_neg (by omega)]
          rw [hstep, ih bs js acc hlen''' hbT hjT]
          have gmem : nodeId s j ∈ ((aId, bIdx, bSize) :: bs).map Prod.fst := by
            rw [List.map_cons, ← heq]
            exact List.mem_cons_self _ _
          have g2 : (j :: js).filter
              (fun x => ! decide (nodeId s x ∈ ((aId, bIdx, bSize) :: bs).map Prod.fst)) =
              js.filter (fun x => ! decide (nodeId s x ∈ bs.map Prod.fst)) := by
            rw [List.filter_cons, if_neg (by rw [decide_eq_true gmem]; simp)]
            apply List.filter_congr
            intro x hx
            have hne : nodeId s x ≠ aId := by
              have := hjH x hx; omega
            simp [List.mem_cons, hne]
          have gmem2 : aId ∈ (j :: js).map (nodeId s) := by
            rw [List.map_cons, heq]
            exact List.mem_cons_self _ _
          have g4 : (((aId, bIdx, bSize) :: bs).filter
              (fun b => ! decide (b.1 ∈ (j :: js).map (nodeId s)))) =
              bs.filter (fun b => ! decide (b.1 ∈ js.map (nodeId s))) := by
            rw [List.filter_cons, if_neg (by rw [decide_eq_true gmem2]; simp)]
            apply List.filter_congr
            intro b hbm
            have hne : b.1 ≠ nodeId s j := by
              have := hbH b hbm; omega
            simp [List.mem_cons, hne]
          rw [g2, g4]
        · -- new id smaller: the new index is added
          have hstep : diffMerge s ((aId, bIdx, bSize) :: bs) (j :: js) acc =
              diffMerge s ((aId, bIdx, bSize) :: bs) js
                { acc with addedIndexes := acc.addedIndexes ++ [j],
                           addedCount := acc.addedCount + 1,
                           addedSize := acc.addedSize + s.node (j + s.nodeSelfSizeOffset) } := by
            simp only [diffMerge, hnid]
            rw [if_neg (by omega), if_pos hgt]
          rw [hstep, ih ((aId, bIdx, bSize) :: bs) js _ hlen''
            (List.pairwise_cons.mpr ⟨hbH, hbT⟩) hjT]
          have k1 : (fun x => ! decide (nodeId s x ∈ ((aId, bIdx, bSize) :: bs).map Prod.fst)) j
              = true := by
            simp only [List.map_cons, Bool.not_eq_true', decide_eq_false_iff_not, List.mem_cons,
              List.mem_map]
            rintro (h | ⟨x, hx, hEq⟩)
            · omega
            · have := hbH x hx; omega
          have k2 : (j :: js).filter
              (fun x => ! decide (nodeId s x ∈ ((aId, bIdx, bSize) :: bs).map Prod.fst)) =
              j :: js.filter
                (fun x => ! decide (nodeId s x ∈ ((aId, bIdx, bSize) :: bs).map Prod.fst)) := by
            rw [List.filter_cons, if_pos k1]
          have k3 : (((aId, bIdx, bSize) :: bs).filter
              (fun b => ! decide (b.1 ∈ (j :: js).map (nodeId s)))) =
              (((aId, bIdx, bSize) :: bs).filter
                (fun b => ! decide (b.1 ∈ js.map (nodeId s)))) := by
            apply List.filter_congr
            intro b hbm
            have hne : b.1 ≠ nodeId s j := by
              rcases List.mem_cons.mp hbm with h | h
              · subst h; omega
              · have := hbH b h; omega
            simp [List.mem_cons, hne]
          rw [k2, k3]
          simp only [List.map_cons, List.sum_cons, List.length_cons, List.append_assoc,
            List.singleton_append, nodeSelfSize]
          congr 1 <;> omega

/-- The two-pointer merge on id-sorted inputs: ids present only on the base
side are recorded as removed (with the base self sizes) and indexes whose ids
are absent from the base are recorded as added, in order, on top of the
accumulator. -/
theorem diffMerge_char (s : Snap) (bs : List (Nat × Nat × Nat)) (js : List Nat) (acc : Diff)
    (hb : bs.Pairwise (fun x y => x.1 < y.1))
    (hj : js.Pairwise (fun a b => nodeId s a < nodeId s b)) :
    diffMerge s bs js acc =
      { addedIndexes := acc.addedIndexes ++
          js.filter (fun j => ! decide (nodeId s j ∈ bs.map Prod.fst)),
        deletedIndexes := acc.deletedIndexes ++
          (bs.filter (fun b => ! decide (b.1 ∈ js.map (nodeId s)))).map (fun b => b.2.1),
        addedCount := acc.addedCount +
          (js.filter (fun j => ! decide (nodeId s j ∈ bs.map Prod.fst))).length,
        removedCount := acc.removedCount +
          (bs.filter (fun b => ! decide (b.1 ∈ js.map (nodeId s)))).length,
        addedSize := acc.addedSize +
          ((js.filter (fun j => ! decide (nodeId s j ∈ bs.map Prod.fst))).map
            (fun j => nodeSelfSize s j)).sum,
        removedSize := acc.removedSize +
          ((bs.filter (fun b => ! decide (b.1 ∈ js.map (nodeId s)))).map
            (fun b => b.2.2)).sum,
        countDelta := acc.countDelta,
        sizeDelta := acc.sizeDelta } :=
  diffMerge_char_aux s (bs.length + js.length) bs js acc le_rfl hb hj

/-- The first components of a zip inherit sortedness from the first list. -/
theorem pairwise_fst_zip {β : Type} : ∀ (as : List Nat) (bs : List β),
    as.Pairwise (· < ·) → (as.zip bs).Pairwise (fun x y => x.1 < y.1) := by
  intro as
  induction as with
  | nil => intro bs _; simp
  | cons a as ih =>
    intro bs h
    cases bs with
    | nil => simp
    | cons b bs =>
      rw [List.pairwise_cons] at h
      rw [List.zip_cons_cons, List.pairwise_cons]
      refine ⟨?_, ih bs h.2⟩
      rintro ⟨x, y⟩ hp
      exact h.1 x (List.of_mem_zip hp).1

/-- C8: on id-sorted aggregates (base ids strictly increasing, new indexes
sorted by node id), `calculateDiffForClass` performs the two-pointer merge:
an id present only in the base is recorded as removed with its base index and
base self size, an index whose id is absent from the base ids is recorded as
added with that node's self size, equal ids are unchanged, `countDelta` and
`sizeDelta` are the added-minus-removed differences, and the result is `null`
exactly when nothing was added and nothing was removed. -/
theorem calculateDiffForClass_spec (s : Snap)
    (baseIds baseIndexes baseSelfSizes indexes : List Nat)
    (hlen1 : baseIds.length ≤ baseIndexes.length)
    (hlen2 : baseIds.length ≤ baseSelfSizes.length)
    (hb : baseIds.Pairwise (· < ·))
    (hj : indexes.Pairwise (fun a b => nodeId s a < nodeId s b)) :
    calculateDiffForClass s baseIds baseIndexes baseSelfSizes indexes =
      (let bs := baseIds.zip (baseIndexes.zip baseSelfSizes)
       let added := indexes.filter (fun j => ! decide (nodeId s j ∈ baseIds))
       let removed := bs.filter (fun b => ! decide (b.1 ∈ indexes.map (nodeId s)))
       if added.length = 0 && removed.length = 0 then none
       else some
         { addedIndexes := added,
           deletedIndexes := removed.map (fun b => b.2.1),
           addedCount := added.length,
           removedCount := removed.length,
           addedSize := (added.map (fun j => nodeSelfSize s j)).sum,
           removedSize := (removed.map (fun b => b.2.2)).sum,
           countDelta := (added.length : Int) - removed.length,
           sizeDelta := ((added.map (fun j => nodeSelfSize s j)).sum : Int) -
             (removed.map (fun b => b.2.2)).sum }) := by
  have hbs : (baseIds.zip (baseIndexes.zip baseSelfSizes)).Pairwise
      (fun x y => x.1 < y.1) := pairwise_fst_zip _ _ hb
  have hmap : (baseIds.zip (baseIndexes.zip baseSelfSizes)).map Prod.fst = baseIds := by
    apply List.map_fst_zip
    rw [List.length_zip]
    omega
  unfold calculateDiffForClass
  rw [diffMerge_char s _ _ _ hbs hj, hmap]
  simp only [emptyDiff, List.nil_append, Nat.zero_add]

/-- Concrete run of the two-pointer merge on `exampleChain` (node ids 1, 3, 5
at indexes 0, 7, 14): base ids `[1, 4]`, new indexes `[0, 7]`; id 1 is shared,
id 4 is removed, id 3 is added. -/
theorem calculateDiffForClass_spec_witness :
    ([1, 4] : List Nat).length ≤ ([100, 200] : List Nat).length ∧
    ([1, 4] : List Nat).Pairwise (· < ·) ∧
    ([0, 7] : List Nat).Pairwise
      (fun a b => nodeId exampleChain a < nodeId exampleChain b) ∧
    calculateDiffForClass exampleChain [1, 4] [100, 200] [6, 8] [0, 7] =
      some { addedIndexes := [7], deletedIndexes := [200], addedCount := 1, removedCount := 1,
             addedSize := 10, removedSize := 8, countDelta := 0, sizeDelta := 2 } :=
  ⟨by decide, by decide, by decide, by
    rw [calculateDiffForClass_spec exampleChain [1, 4] [100, 200] [6, 8] [0, 7]
      (by decide) (by decide) (by decide) (by decide)]
    decide⟩

end HeapSnap

namespace HeapSnap





theorem bind_ok_eq {α β : Type} (a : α) (f : α → Except String β) :
    (Except.ok a >>= f) = f a := rfl

theorem getD_setD_self (a : Array Nat) (i x : Nat) (h : i < a.size) :
    (a.setD i x).getD i 0 = x := by
  unfold Array.setD Array.getD
  rw [dif_pos h]
  have h2 : i < (a.set ⟨i, h⟩ x).size := by simpa using h
  rw [dif_pos h2]
  simp [Array.get_set_eq]

theorem getD_setD_ne (a : Array Nat) (i j x : Nat) (hne : j ≠ i) :
    (a.setD i x).getD j 0 = a.getD j 0 := by
  unfold Array.setD Array.getD
  by_cases h : i < a.size
  · rw [dif_pos h]
    by_cases hj : j < a.size
    · have h2 : j < (a.set ⟨i, h⟩ x).size := by simpa using hj
      rw [dif_pos h2, dif_pos hj]
      simp [Array.get_set, hne, Ne.symm hne]
    · have h2 : ¬ j < (a.set ⟨i, h⟩ x).size := by simpa using hj
      rw [dif_neg h2, dif_neg hj]
  · rw [dif_neg h]

theorem setD_oob (a : Array Nat) (i x : Nat) (h : a.size ≤ i) : a.setD i x = a := by
  unfold Array.setD
  rw [dif_neg (by omega)]

/-- First pass of `buildRetainers` over an aligned prefix: the counters array
accumulates, per ordinal slot, the number of processed edges targeting it. -/
theorem retainerCounts_go (s : Snap) : ∀ (l : List Nat) (A0 : Array Nat),
    (∀ k ∈ l, s.edge (k * s.edgeFieldsCount + s.edgeToNodeOffset) % s.nodeFieldCount = 0) →
    A0.size = s.nodeCount + 1 →
    ∃ A, (l.foldlM
        (fun (fri : Array Nat) k => do
          let toNodeIndex := s.edge (k * s.edgeFieldsCount + s.edgeToNodeOffset)
          if toNodeIndex % s.nodeFieldCount ≠ 0 then
            throw ("Invalid toNodeIndex " ++ toString toNodeIndex)
          pure (fri.setD (toNodeIndex / s.nodeFieldCount)
            (fri.getD (toNodeIndex / s.nodeFieldCount) 0 + 1)))
        A0 : Except String (Array Nat)) = Except.ok A ∧
      A.size = s.nodeCount + 1 ∧
      ∀ v, v ≤ s.nodeCount →
        A.getD v 0 = A0.getD v 0 + (l.filter (fun k => targetOrd s k = v)).length := by
  intro l
  induction l with
  | nil =>
    intro A0 _ hsz
    refine ⟨A0, ?_, hsz, ?_⟩
    · rfl
    · intro v _
      simp
  | cons k l ih =>
    intro A0 hal hsz
    have hk : s.edge (k * s.edgeFieldsCount + s.edgeToNodeOffset) % s.nodeFieldCount = 0 :=
      hal k (List.mem_cons_self k l)
    rw [List.foldlM_cons]
    have hstep : (do
        let toNodeIndex := s.edge (k * s.edgeFieldsCount + s.edgeToNodeOffset)
        if toNodeIndex % s.nodeFieldCount ≠ 0 then
          throw ("Invalid toNodeIndex " ++ toString toNodeIndex)
        pure (A0.setD (toNodeIndex / s.nodeFieldCount)
          (A0.getD (toNodeIndex / s.nodeFieldCount) 0 + 1)) : Except String (Array Nat)) =
        Except.ok (A0.setD (targetOrd s k)
          (A0.getD (targetOrd s k) 0 + 1)) := by
      rw [if_neg (by simp [hk])]
      rfl
    rw [hstep]
    have hsz1 : (A0.setD (targetOrd s k) (A0.getD (targetOrd s k) 0 + 1)).size =
        s.nodeCount + 1 := by
      rw [Array.size_setD, hsz]
    obtain ⟨A, hA, hAsz, hAv⟩ := ih _ (fun k' hk' => hal k' (List.mem_cons_of_mem _ hk')) hsz1
    refine ⟨A, ?_, hAsz, ?_⟩
    · rw [show (Except.ok (A0.setD (targetOrd s k) (A0.getD (targetOrd s k) 0 + 1)) >>= fun A1 =>
        List.foldlM _ A1 l : Except String (Array Nat)) = List.foldlM _
          (A0.setD (targetOrd s k) (A0.getD (targetOrd s k) 0 + 1)) l from rfl]
      exact hA
    · intro v hv
      rw [hAv v hv, List.filter_cons]
      by_cases hvt : targetOrd s k = v
      · rw [if_pos (by simp [hvt]), List.length_cons]
        subst hvt
        by_cases hbound : targetOrd s k < A0.size
        · rw [getD_setD_self _ _ _ hbound]
          omega
        · rw [setD_oob _ _ _ (by omega)]
          omega
      · rw [if_neg (by simp [hvt])]
        rw [getD_setD_ne _ _ _ _ (fun h => hvt h.symm)]

/-- First pass of `buildRetainers` when every edge target is `NF`-aligned:
it succeeds and counts the retainers of every ordinal. -/
theorem retainerCounts_ok (s : Snap)
    (hal : ∀ k, k < s.edgeCount →
      s.edge (k * s.edgeFieldsCount + s.edgeToNodeOffset) % s.nodeFieldCount = 0) :
    ∃ A, retainerCounts s = Except.ok A ∧ A.size = s.nodeCount + 1 ∧
      ∀ v, v ≤ s.nodeCount → A.getD v 0 = retCnt s v := by
  obtain ⟨A, hA, hAsz, hAv⟩ := retainerCounts_go s (List.range s.edgeCount)
    (Array.mkArray (s.nodeCount + 1) 0)
    (fun k hk => hal k (List.mem_range.mp hk)) (by simp)
  refine ⟨A, ?_, hAsz, ?_⟩
  · unfold retainerCounts
    exact hA
  · intro v hv
    rw [hAv v hv, getD_mkArray_of_lt _ _ (by omega), Nat.zero_add]
    rfl

/-- First pass of `buildRetainers` stopped at the first misaligned edge:
it throws `Invalid toNodeIndex`. -/
theorem retainerCounts_err (s : Snap) (K : Nat) (hK : K < s.edgeCount)
    (hbad : s.edge (K * s.edgeFieldsCount + s.edgeToNodeOffset) % s.nodeFieldCount ≠ 0)
    (hgood : ∀ k, k < K →
      s.edge (k * s.edgeFieldsCount + s.edgeToNodeOffset) % s.nodeFieldCount = 0) :
    retainerCounts s = Except.error
      ("Invalid toNodeIndex " ++ toString (s.edge (K * s.edgeFieldsCount + s.edgeToNodeOffset))) := by
  unfold retainerCounts
  rw [show s.edgeCount = (K + 1) + (s.edgeCount - (K + 1)) from by omega]
  rw [List.range_add, List.range_succ, List.append_assoc, List.foldlM_append]
  obtain ⟨A, hA, _, _⟩ := retainerCounts_go s (List.range K) (Array.mkArray (s.nodeCount + 1) 0)
    (fun k hk => hgood k (List.mem_range.mp hk)) (by simp)
  rw [hA, bind_ok_eq]
  rw [List.singleton_append, List.foldlM_cons]
  rw [if_pos hbad]
  rfl

/-- `retOff` one step: the next bucket starts after this bucket's count. -/
theorem retOff_succ (s : Snap) (v : Nat) : retOff s (v + 1) = retOff s v + retCnt s v := by
  simp [retOff, List.range_succ]

/-- `retOff` is monotone. -/
theorem retOff_mono (s : Snap) {v w : Nat} (h : v ≤ w) : retOff s v ≤ retOff s w := by
  unfold retOff
  rw [show w = v + (w - v) from by omega, List.range_add, List.map_append, List.sum_append]
  omega

/-- A nonempty bucket starts strictly before any later bucket. -/
theorem retOff_lt_of_cnt_pos (s : Snap) {v w : Nat} (hvw : v < w) (hc : 0 < retCnt s v) :
    retOff s v < retOff s w := by
  have h1 : retOff s (v + 1) ≤ retOff s w := retOff_mono s hvw
  rw [retOff_succ] at h1
  omega

/-- Split a `targetOrd < n + 1` filter count into `< n` and `= n` parts. -/
theorem filter_lt_succ_length (s : Snap) (n : Nat) : ∀ l : List Nat,
    (l.filter (fun k => targetOrd s k < n + 1)).length =
    (l.filter (fun k => targetOrd s k < n)).length +
      (l.filter (fun k => targetOrd s k = n)).length := by
  intro l
  induction l with
  | nil => rfl
  | cons k l ih =>
    rw [List.filter_cons, List.filter_cons, List.filter_cons]
    by_cases h1 : targetOrd s k < n
    · rw [if_pos (by simp; omega), if_pos (by simp [h1]), if_neg (by simp; omega)]
      simp only [List.length_cons]
      omega
    · by_cases h2 : targetOrd s k = n
      · rw [if_pos (by simp; omega), if_neg (by simp [h1]), if_pos (by simp [h2])]
        simp only [List.length_cons]
        omega
      · rw [if_neg (by simp; omega), if_neg (by simp [h1]), if_neg (by simp [h2])]
        exact ih

/-- The bucket offsets are the counts of edges with smaller target ordinals. -/
theorem retOff_eq_filter_lt (s : Snap) : ∀ n, retOff s n =
    ((List.range s.edgeCount).filter (fun k => targetOrd s k < n)).length := by
  intro n
  induction n with
  | zero =>
    simp [retOff]
  | succ n ih =>
    rw [retOff_succ, ih, filter_lt_succ_length]
    rfl

/-- Bucket offsets never pass the number of edges. -/
theorem retOff_le_edgeCount (s : Snap) (n : Nat) : retOff s n ≤ s.edgeCount := by
  rw [retOff_eq_filter_lt]
  calc ((List.range s.edgeCount).filter (fun k => targetOrd s k < n)).length
      ≤ (List.range s.edgeCount).length := List.length_filter_le _ _
    _ = s.edgeCount := List.length_range s.edgeCount

/-- When every edge target is an in-range ordinal the buckets fill the whole
retainer array. -/
theorem retOff_nodeCount (s : Snap)
    (htarget : ∀ k, k < s.edgeCount → targetOrd s k < s.nodeCount) :
    retOff s s.nodeCount = s.edgeCount := by
  rw [retOff_eq_filter_lt]
  rw [List.filter_eq_self.mpr]
  · exact List.length_range s.edgeCount
  · intro k hk
    simp [htarget k (List.mem_range.mp hk)]

/-- Second pass of `buildRetainers`, loop invariant: counts become offsets and
each nonempty bucket parks its count at its first slot. -/
theorem retainerOffsets_go (s : Snap) : ∀ (t i0 : Nat) (fri rn : Array Nat) (slot : Nat),
    i0 + t ≤ s.nodeCount →
    fri.size = s.nodeCount + 1 →
    (∀ v, v < i0 → fri.getD v 0 = retOff s v) →
    (∀ v, i0 ≤ v → v < s.nodeCount → fri.getD v 0 = retCnt s v) →
    slot = retOff s i0 →
    rn.size = s.edgeCount →
    (∀ v, v < i0 → 0 < retCnt s v → rn.getD (retOff s v) 0 = retCnt s v) →
    (((List.range' i0 t).foldl
        retainerOffsetsStep (fri, rn, slot)).1.size = s.nodeCount + 1) ∧
    (∀ v, v < i0 + t →
      ((List.range' i0 t).foldl
        retainerOffsetsStep (fri, rn, slot)).1.getD v 0 = retOff s v) ∧
    (((List.range' i0 t).foldl
        retainerOffsetsStep (fri, rn, slot)).2.1.size = s.edgeCount) ∧
    (∀ v, v < i0 + t → 0 < retCnt s v →
      ((List.range' i0 t).foldl
        retainerOffsetsStep (fri, rn, slot)).2.1.getD (retOff s v) 0 = retCnt s v) := by
  intro t
  induction t with
  | zero =>
    intro i0 fri rn slot _ hfsz hfdone hfcur hslot hrsz hrdone
    exact ⟨hfsz, fun v hv => hfdone v (by omega), hrsz, fun v hv hc => hrdone v (by omega) hc⟩
  | succ t ih =>
    intro i0 fri rn slot hle hfsz hfdone hfcur hslot hrsz hrdone
    have hi0 : i0 < s.nodeCount := by omega
    have hcur : fri.getD i0 0 = retCnt s i0 := hfcur i0 (le_refl i0) hi0
    rw [show List.range' i0 (t + 1) = i0 :: List.range' (i0 + 1) t from rfl, List.foldl_cons]
    rw [show i0 + (t + 1) = (i0 + 1) + t from by omega]
    apply ih (i0 + 1) (fri.setD i0 slot) (rn.setD slot (fri.getD i0 0)) (slot + fri.getD i0 0)
    · omega
    · rw [Array.size_setD, hfsz]
    · intro v hv
      by_cases hvi : v = i0
      · subst hvi
        rw [getD_setD_self _ _ _ (by omega), hslot]
      · rw [getD_setD_ne _ _ _ _ hvi]
        exact hfdone v (by omega)
    · intro v hv1 hv2
      rw [getD_setD_ne _ _ _ _ (by omega)]
      exact hfcur v (by omega) hv2
    · rw [hcur, hslot, ← retOff_succ]
    · rw [Array.size_setD, hrsz]
    · intro v hv hc
      by_cases hvi : v = i0
      · subst hvi
        rw [hcur]
        have hlt : retOff s v + retCnt s v ≤ s.edgeCount := by
          have := retOff_le_edgeCount s (v + 1)
          rw [retOff_succ] at this
          omega
        rw [hslot, getD_setD_self _ _ _ (by omega)]
      · have hvlt : v < i0 := by omega
        have hne : retOff s v ≠ slot := by
          rw [hslot]
          exact Nat.ne_of_lt (retOff_lt_of_cnt_pos s hvlt hc)
        rw [getD_setD_ne _ _ _ _ hne]
        exact hrdone v hvlt hc

/-- Second pass of `buildRetainers`: counts become bucket offsets, the slot
past the last bucket is the edge count, and every nonempty bucket's first
retainer slot parks its count. -/
theorem retainerOffsets_spec (s : Snap) (A : Array Nat)
    (hsz : A.size = s.nodeCount + 1)
    (hv : ∀ v, v ≤ s.nodeCount → A.getD v 0 = retCnt s v) :
    (retainerOffsets s A).1.size = s.nodeCount + 1 ∧
    (∀ v, v < s.nodeCount → (retainerOffsets s A).1.getD v 0 = retOff s v) ∧
    (retainerOffsets s A).1.getD s.nodeCount 0 = s.edgeCount ∧
    (retainerOffsets s A).2.size = s.edgeCount ∧
    (∀ v, v < s.nodeCount → 0 < retCnt s v →
      (retainerOffsets s A).2.getD (retOff s v) 0 = retCnt s v) := by
  have hgo := retainerOffsets_go s s.nodeCount 0 A (Array.mkArray s.edgeCount 0) 0
    (by omega) hsz (by intro v hv0; omega) (fun v _ hv2 => hv v (by omega)) rfl
    (by simp) (by intro v hv0; omega)
  rw [← List.range_eq_range'] at hgo
  obtain ⟨h1, h2, h3, h4⟩ := hgo
  unfold retainerOffsets
  simp only []
  constructor
  · rw [Array.size_setD]
    exact h1
  constructor
  · intro v hvlt
    rw [getD_setD_ne _ _ _ _ (by omega)]
    exact h2 v (by omega)
  constructor
  · rw [getD_setD_self _ _ _ (by omega)]
  exact ⟨h3, fun v hvlt hc => h4 v (by omega) hc⟩



theorem edgesToBelow_succ (s : Snap) (m v : Nat) :
    edgesToBelow s (m + 1) v =
      edgesToBelow s m v ++ if targetOrd s m = v then [m] else [] := by
  unfold edgesToBelow
  rw [List.range_succ, List.filter_append]
  by_cases h : targetOrd s m = v
  · simp [h]
  · simp [h]

theorem getD_append_middle (l1 l2 : List Nat) (x : Nat) :
    (l1 ++ x :: l2).getD l1.length 0 = x := by
  induction l1 with
  | nil => rfl
  | cons a l1 ih => simpa using ih

theorem getD_append_left (l1 l2 : List Nat) (j : Nat) (h : j < l1.length) :
    (l1 ++ l2).getD j 0 = l1.getD j 0 := by
  induction l1 generalizing j with
  | nil => simp at h
  | cons a l1 ih =>
    cases j with
    | zero => rfl
    | succ j =>
      simp only [List.cons_append, List.getD_cons_succ]
      exact ih j (by simpa using h)

/-- Decompose the full target-`v` edge list around record `m`. -/
theorem edgesTo_split (s : Snap) {m : Nat} (hm : m < s.edgeCount) (v : Nat)
    (ht : targetOrd s m = v) :
    ∃ rest, edgesTo s v = edgesToBelow s m v ++ m :: rest := by
  have hr : List.range s.edgeCount =
      List.range m ++ (List.range (s.edgeCount - m)).map (m + ·) := by
    rw [← List.range_add, show m + (s.edgeCount - m) = s.edgeCount from by omega]
  have hr2 : (List.range (s.edgeCount - m)).map (m + ·) =
      m :: (List.range (s.edgeCount - m - 1)).map (fun x => m + (x + 1)) := by
    rw [show s.edgeCount - m = (s.edgeCount - m - 1) + 1 from by omega,
      List.range_succ_eq_map]
    simp [List.map_map, Function.comp_def]
  refine ⟨((List.range (s.edgeCount - m - 1)).map (fun x => m + (x + 1))).filter
    (fun k => targetOrd s k = v), ?_⟩
  unfold edgesTo edgesToBelow
  rw [hr, hr2, List.filter_append, List.filter_cons, if_pos (by simp [ht])]

/-- A record targeting `v` sits in `edgesTo` right after the earlier ones. -/
theorem edgesTo_getD_at (s : Snap) {m : Nat} (hm : m < s.edgeCount) {v : Nat}
    (ht : targetOrd s m = v) :
    (edgesToBelow s m v).length < retCnt s v ∧
    (edgesTo s v).getD (edgesToBelow s m v).length 0 = m := by
  obtain ⟨rest, hsplit⟩ := edgesTo_split s hm v ht
  constructor
  · have : retCnt s v = (edgesToBelow s m v).length + (m :: rest).length := by
      rw [retCnt, hsplit, List.length_append]
    simp only [List.length_cons] at this
    omega
  · rw [hsplit, getD_append_middle]

theorem edgesToBelow_length_le (s : Snap) {m : Nat} (hm : m ≤ s.edgeCount) (v : Nat) :
    (edgesToBelow s m v).length ≤ retCnt s v :=
  ((List.range_sublist.mpr hm).filter _).length_le

theorem bucket_disjoint (s : Snap) {v w : Nat} (hvw : v < w) :
    retOff s v + retCnt s v ≤ retOff s w := by
  have := retOff_mono s (show v + 1 ≤ w from hvw)
  rw [retOff_succ] at this
  omega

theorem bucket_of_lt (s : Snap) : ∀ (n i : Nat), i < retOff s n →
    ∃ w, w < n ∧ retOff s w ≤ i ∧ i < retOff s w + retCnt s w := by
  intro n
  induction n with
  | zero =>
    intro i h
    rw [show retOff s 0 = 0 from rfl] at h
    omega
  | succ n ih =>
    intro i h
    rw [retOff_succ] at h
    by_cases hlt : i < retOff s n
    · obtain ⟨w, h1, h2, h3⟩ := ih i hlt
      exact ⟨w, by omega, h2, h3⟩
    · exact ⟨n, by omega, by omega, by omega⟩

theorem edgesTo_sorted (s : Snap) (v : Nat) : (edgesTo s v).Pairwise (· < ·) :=
  (List.pairwise_lt_range s.edgeCount).filter _

theorem edgesTo_mem (s : Snap) {v k : Nat} (hk : k ∈ edgesTo s v) :
    targetOrd s k = v ∧ k < s.edgeCount := by
  unfold edgesTo at hk
  simp only [List.mem_filter, List.mem_range, decide_eq_true_eq] at hk
  exact ⟨hk.2, hk.1⟩

theorem listGetD_eq_getElem {l : List Nat} {j : Nat} (h : j < l.length) :
    l.getD j 0 = l[j] := by
  simp [List.getD_eq_getElem?_getD, List.getElem?_eq_getElem h]

/-- A target value on an aligned edge is the target ordinal scaled by `NF`. -/
theorem target_field_eq (s : Snap) (hNF : 0 < s.nodeFieldCount) {k v : Nat}
    (hal : s.edge (k * s.edgeFieldsCount + s.edgeToNodeOffset) % s.nodeFieldCount = 0)
    (ht : targetOrd s k = v) :
    s.edge (k * s.edgeFieldsCount + s.edgeToNodeOffset) = v * s.nodeFieldCount := by
  obtain ⟨c, hc⟩ := Nat.dvd_of_mod_eq_zero hal
  unfold targetOrd at ht
  rw [hc, Nat.mul_div_cancel_left c hNF] at ht
  rw [hc, ← ht]
  ring

/-- The single-edge step of the third pass, on an aligned edge. -/
theorem retainerFillEdge_ok (s : Snap) (fri : Array Nat) (src fE : Nat)
    (acc : Array Nat × Array Nat) (j : Nat)
    (hal : s.edge (fE + j * s.edgeFieldsCount + s.edgeToNodeOffset) % s.nodeFieldCount = 0) :
    retainerFillEdge s fri src fE acc j =
      Except.ok
        ((acc.1.setD
            (fri.getD (s.edge (fE + j * s.edgeFieldsCount + s.edgeToNodeOffset) / s.nodeFieldCount) 0)
            (acc.1.getD (fri.getD (s.edge (fE + j * s.edgeFieldsCount + s.edgeToNodeOffset) / s.nodeFieldCount) 0) 0 - 1)).setD
          (fri.getD (s.edge (fE + j * s.edgeFieldsCount + s.edgeToNodeOffset) / s.nodeFieldCount) 0 +
            (acc.1.getD (fri.getD (s.edge (fE + j * s.edgeFieldsCount + s.edgeToNodeOffset) / s.nodeFieldCount) 0) 0 - 1)) src,
         acc.2.setD
          (fri.getD (s.edge (fE + j * s.edgeFieldsCount + s.edgeToNodeOffset) / s.nodeFieldCount) 0 +
            (acc.1.getD (fri.getD (s.edge (fE + j * s.edgeFieldsCount + s.edgeToNodeOffset) / s.nodeFieldCount) 0) 0 - 1))
          (fE + j * s.edgeFieldsCount)) := by
  unfold retainerFillEdge
  rw [if_neg (by simp [hal])]
  rfl

/-- Running the third pass over the records `[a, a+c)` preserves the fill
invariant and cannot throw when those records are aligned. -/
theorem fillRun (s : Snap) (fri : Array Nat) (src : Nat)
    (hfri : ∀ v, v < s.nodeCount → fri.getD v 0 = retOff s v)
    (hal : ∀ k, k < s.edgeCount →
      s.edge (k * s.edgeFieldsCount + s.edgeToNodeOffset) % s.nodeFieldCount = 0)
    (htarget : ∀ k, k < s.edgeCount → targetOrd s k < s.nodeCount) :
    ∀ (c a : Nat) (acc : Array Nat × Array Nat), a + c ≤ s.edgeCount → fillInv s a acc →
    ∃ acc', (List.range c).foldlM (retainerFillEdge s fri src (a * s.edgeFieldsCount)) acc
        = Except.ok acc' ∧ fillInv s (a + c) acc' := by
  intro c
  induction c with
  | zero =>
    intro a acc _ hinv
    exact ⟨acc, rfl, by rwa [Nat.add_zero]⟩
  | succ c ih =>
    intro a acc hle hinv
    obtain ⟨hsz1, hsz2, hpark, hre⟩ := hinv
    have ha : a < s.edgeCount := by omega
    have haz : a * s.edgeFieldsCount + 0 * s.edgeFieldsCount = a * s.edgeFieldsCount := by ring
    have halA := hal a ha
    have htA := htarget a ha
    obtain ⟨hplt, hget⟩ := edgesTo_getD_at s ha (v := targetOrd s a) rfl
    have hcpos : 0 < retCnt s (targetOrd s a) := by omega
    -- abbreviations
    have hoffE : retOff s (targetOrd s a) + retCnt s (targetOrd s a) ≤ s.edgeCount := by
      have h1 := retOff_le_edgeCount s (targetOrd s a + 1)
      rw [retOff_succ] at h1
      omega
    have hparkA : acc.1.getD (retOff s (targetOrd s a)) 0 =
        retCnt s (targetOrd s a) - (edgesToBelow s a (targetOrd s a)).length :=
      hpark (targetOrd s a) htA hplt
    have hred : retainerFillEdge s fri src (a * s.edgeFieldsCount) acc 0 =
        Except.ok
          ((acc.1.setD (retOff s (targetOrd s a))
              (retCnt s (targetOrd s a) - (edgesToBelow s a (targetOrd s a)).length - 1)).setD
            (retOff s (targetOrd s a) +
              (retCnt s (targetOrd s a) - (edgesToBelow s a (targetOrd s a)).length - 1)) src,
           acc.2.setD
            (retOff s (targetOrd s a) +
              (retCnt s (targetOrd s a) - (edgesToBelow s a (targetOrd s a)).length - 1))
            (a * s.edgeFieldsCount)) := by
      rw [retainerFillEdge_ok s fri src (a * s.edgeFieldsCount) acc 0 (by rw [haz]; exact halA)]
      rw [haz]
      rw [show s.edge (a * s.edgeFieldsCount + s.edgeToNodeOffset) / s.nodeFieldCount =
        targetOrd s a from rfl]
      rw [hfri (targetOrd s a) htA, hparkA]
    rw [List.range_succ_eq_map, List.foldlM_cons, hred, bind_ok_eq]
    have hmapfe : ∀ (acc0 : Array Nat × Array Nat),
        (List.foldlM (retainerFillEdge s fri src (a * s.edgeFieldsCount)) acc0
          ((List.range c).map Nat.succ) : Except String (Array Nat × Array Nat)) =
        List.foldlM (retainerFillEdge s fri src ((a + 1) * s.edgeFieldsCount)) acc0
          (List.range c) := by
      intro acc0
      rw [List.foldlM_map]
      have hfe : (fun (x : Array Nat × Array Nat) (y : Nat) =>
          retainerFillEdge s fri src (a * s.edgeFieldsCount) x (Nat.succ y)) =
          (fun x y => retainerFillEdge s fri src ((a + 1) * s.edgeFieldsCount) x y) := by
        funext x y
        unfold retainerFillEdge
        rw [show a * s.edgeFieldsCount + (Nat.succ y) * s.edgeFieldsCount =
          (a + 1) * s.edgeFieldsCount + y * s.edgeFieldsCount from by
            rw [Nat.succ_eq_add_one]; ring]
      rw [hfe]
    rw [hmapfe]
    have hinv1 : fillInv s (a + 1)
        ((acc.1.setD (retOff s (targetOrd s a))
            (retCnt s (targetOrd s a) - (edgesToBelow s a (targetOrd s a)).length - 1)).setD
          (retOff s (targetOrd s a) +
            (retCnt s (targetOrd s a) - (edgesToBelow s a (targetOrd s a)).length - 1)) src,
         acc.2.setD
          (retOff s (targetOrd s a) +
            (retCnt s (targetOrd s a) - (edgesToBelow s a (targetOrd s a)).length - 1))
          (a * s.edgeFieldsCount)) := by
      set vA := targetOrd s a with hvA
      set p := (edgesToBelow s a vA).length with hp
      refine ⟨by simp [Array.size_setD, hsz1], by simp [Array.size_setD, hsz2], ?_, ?_⟩
      · intro w hw hwlt
        by_cases hwv : w = vA
        · subst hwv
          rw [edgesToBelow_succ, if_pos rfl, List.length_append, List.length_cons,
            List.length_nil] at hwlt ⊢
          rw [getD_setD_ne _ _ _ _ (by omega)]
          rw [getD_setD_self _ _ _ (by omega)]
          omega
        · have hwlt' : (edgesToBelow s a w).length < retCnt s w := by
            rw [edgesToBelow_succ, if_neg (fun h => hwv h.symm), List.append_nil] at hwlt
            exact hwlt
          have hwc : 0 < retCnt s w := by omega
          have hdisj : retOff s w + retCnt s w ≤ retOff s vA ∨
              retOff s vA + retCnt s vA ≤ retOff s w := by
            rcases Nat.lt_or_ge w vA with h | h
            · exact Or.inl (bucket_disjoint s h)
            · exact Or.inr (bucket_disjoint s (by omega))
          rw [edgesToBelow_succ, if_neg (fun h => hwv h.symm), List.append_nil]
          rw [getD_setD_ne _ _ _ _ (by omega), getD_setD_ne _ _ _ _ (by omega)]
          exact hpark w hw hwlt'
      · intro w hw j hj
        by_cases hwv : w = vA
        · subst hwv
          rw [edgesToBelow_succ, if_pos rfl, List.length_append, List.length_cons,
            List.length_nil] at hj
          by_cases hjp : j = p
          · subst hjp
            rw [show retOff s vA + retCnt s vA - 1 - p =
              retOff s vA + (retCnt s vA - p - 1) from by omega]
            rw [getD_setD_self _ _ _ (by omega)]
            rw [hget]
          · have hjlt : j < p := by omega
            rw [getD_setD_ne _ _ _ _ (by omega)]
            exact hre vA hw j hjlt
        · have hj' : j < (edgesToBelow s a w).length := by
            rw [edgesToBelow_succ, if_neg (fun h => hwv h.symm), List.append_nil] at hj
            exact hj
          have hble : (edgesToBelow s a w).length ≤ retCnt s w :=
            edgesToBelow_length_le s (by omega) w
          have hwc : 0 < retCnt s w := by omega
          have hdisj : retOff s w + retCnt s w ≤ retOff s vA ∨
              retOff s vA + retCnt s vA ≤ retOff s w := by
            rcases Nat.lt_or_ge w vA with h | h
            · exact Or.inl (bucket_disjoint s h)
            · exact Or.inr (bucket_disjoint s (by omega))
          rw [getD_setD_ne _ _ _ _ (by omega)]
          exact hre w hw j hj'
    obtain ⟨acc', hacc', hinv'⟩ := ih (a + 1) _ (by omega) hinv1
    refine ⟨acc', hacc', ?_⟩
    rw [show a + (c + 1) = (a + 1) + c from by omega]
    exact hinv'

/-- `firstEdgeIndexes` is monotone along any initial segment. -/
theorem fei_le (s : Snap)
    (hmono : ∀ v, v < s.nodeCount →
      s.firstEdgeIndexes.getD v 0 ≤ s.firstEdgeIndexes.getD (v + 1) 0) :
    ∀ (d v : Nat), v + d ≤ s.nodeCount →
      s.firstEdgeIndexes.getD v 0 ≤ s.firstEdgeIndexes.getD (v + d) 0 := by
  intro d
  induction d with
  | zero => intro v _; exact Nat.le_refl _
  | succ d ih =>
    intro v h
    calc s.firstEdgeIndexes.getD v 0 ≤ s.firstEdgeIndexes.getD (v + d) 0 := ih v (by omega)
      _ ≤ s.firstEdgeIndexes.getD (v + d + 1) 0 := hmono (v + d) (by omega)

/-- Running the third pass over the source ordinals `[v0, v0 + t)` preserves
the fill invariant, the processed-edge frontier following `firstEdgeIndexes`. -/
theorem fillNodes (s : Snap) (fri : Array Nat)
    (hEF : 0 < s.edgeFieldsCount)
    (hfri : ∀ v, v < s.nodeCount → fri.getD v 0 = retOff s v)
    (hal : ∀ k, k < s.edgeCount →
      s.edge (k * s.edgeFieldsCount + s.edgeToNodeOffset) % s.nodeFieldCount = 0)
    (htarget : ∀ k, k < s.edgeCount → targetOrd s k < s.nodeCount)
    (hmono : ∀ v, v < s.nodeCount →
      s.firstEdgeIndexes.getD v 0 ≤ s.firstEdgeIndexes.getD (v + 1) 0)
    (halign : ∀ v, v ≤ s.nodeCount → s.edgeFieldsCount ∣ s.firstEdgeIndexes.getD v 0)
    (hfeiN : s.firstEdgeIndexes.getD s.nodeCount 0 = s.edgeCount * s.edgeFieldsCount) :
    ∀ (t v0 : Nat) (acc : Array Nat × Array Nat), v0 + t ≤ s.nodeCount →
      fillInv s (s.firstEdgeIndexes.getD v0 0 / s.edgeFieldsCount) acc →
      ∃ acc', (List.range' v0 t).foldlM (retainerFillNode s fri) acc = Except.ok acc' ∧
        fillInv s (s.firstEdgeIndexes.getD (v0 + t) 0 / s.edgeFieldsCount) acc' := by
  intro t
  induction t with
  | zero =>
    intro v0 acc _ hinv
    exact ⟨acc, rfl, by rwa [Nat.add_zero]⟩
  | succ t ih =>
    intro v0 acc hle hinv
    obtain ⟨a, hA⟩ := halign v0 (by omega)
    obtain ⟨b, hB⟩ := halign (v0 + 1) (by omega)
    have hA' : s.firstEdgeIndexes.getD v0 0 = a * s.edgeFieldsCount := by
      rw [hA]; ring
    have hB' : s.firstEdgeIndexes.getD (v0 + 1) 0 = b * s.edgeFieldsCount := by
      rw [hB]; ring
    have hab : a ≤ b := by
      have h1 := hmono v0 (by omega)
      rw [hA', hB'] at h1
      exact Nat.le_of_mul_le_mul_right h1 hEF
    have hbE : b ≤ s.edgeCount := by
      have h1 := fei_le s hmono (s.nodeCount - (v0 + 1)) (v0 + 1) (by omega)
      rw [show v0 + 1 + (s.nodeCount - (v0 + 1)) = s.nodeCount from by omega, hB', hfeiN] at h1
      exact Nat.le_of_mul_le_mul_right h1 hEF
    have hda : s.firstEdgeIndexes.getD v0 0 / s.edgeFieldsCount = a := by
      rw [hA', Nat.mul_div_cancel a hEF]
    have hdb : s.firstEdgeIndexes.getD (v0 + 1) 0 / s.edgeFieldsCount = b := by
      rw [hB', Nat.mul_div_cancel b hEF]
    have hcnt : (s.firstEdgeIndexes.getD (v0 + 1) 0 - s.firstEdgeIndexes.getD v0 0) /
        s.edgeFieldsCount = b - a := by
      rw [hA', hB', ← Nat.sub_mul, Nat.mul_div_cancel _ hEF]
    rw [show List.range' v0 (t + 1) = v0 :: List.range' (v0 + 1) t from rfl, List.foldlM_cons]
    rw [hda] at hinv
    obtain ⟨acc1, hacc1, hinv1⟩ := fillRun s fri (v0 * s.nodeFieldCount) hfri hal htarget
      (b - a) a acc (by omega) hinv
    have hnode : retainerFillNode s fri acc v0 = Except.ok acc1 := by
      simp only [retainerFillNode]
      rw [hcnt, hA']
      exact hacc1
    rw [hnode, bind_ok_eq]
    have hinv1' : fillInv s (s.firstEdgeIndexes.getD (v0 + 1) 0 / s.edgeFieldsCount) acc1 := by
      rw [hdb, show b = a + (b - a) from by omega]
      exact hinv1
    obtain ⟨acc', hacc', hinv'⟩ := ih (v0 + 1) acc1 (by omega) hinv1'
    refine ⟨acc', hacc', ?_⟩
    rw [show v0 + (t + 1) = (v0 + 1) + t from by omega]
    exact hinv'

/-- The complete third pass of `buildRetainers` on aligned, in-range edges. -/
theorem retainerFill_spec (s : Snap) (fri rn : Array Nat)
    (hEF : 0 < s.edgeFieldsCount)
    (hfri : ∀ v, v < s.nodeCount → fri.getD v 0 = retOff s v)
    (hal : ∀ k, k < s.edgeCount →
      s.edge (k * s.edgeFieldsCount + s.edgeToNodeOffset) % s.nodeFieldCount = 0)
    (htarget : ∀ k, k < s.edgeCount → targetOrd s k < s.nodeCount)
    (hfei0 : s.firstEdgeIndexes.getD 0 0 = 0)
    (hmono : ∀ v, v < s.nodeCount →
      s.firstEdgeIndexes.getD v 0 ≤ s.firstEdgeIndexes.getD (v + 1) 0)
    (halign : ∀ v, v ≤ s.nodeCount → s.edgeFieldsCount ∣ s.firstEdgeIndexes.getD v 0)
    (hfeiN : s.firstEdgeIndexes.getD s.nodeCount 0 = s.edgeCount * s.edgeFieldsCount)
    (hrnsz : rn.size = s.edgeCount)
    (hrnpark : ∀ v, v < s.nodeCount → 0 < retCnt s v →
      rn.getD (retOff s v) 0 = retCnt s v) :
    ∃ acc', retainerFill s fri rn = Except.ok acc' ∧ fillInv s s.edgeCount acc' := by
  have hinv0 : fillInv s (s.firstEdgeIndexes.getD 0 0 / s.edgeFieldsCount) (rn, Array.mkArray s.edgeCount 0) := by
    rw [hfei0, Nat.zero_div]
    refine ⟨hrnsz, by simp, ?_, ?_⟩
    · intro v hv hlt
      have h0 : edgesToBelow s 0 v = [] := rfl
      rw [h0] at hlt ⊢
      simp only [List.length_nil, Nat.sub_zero]
      exact hrnpark v hv (by simpa using hlt)
    · intro v _ j hj
      simp [show edgesToBelow s 0 v = [] from rfl] at hj
  obtain ⟨acc', hacc', hinv'⟩ := fillNodes s fri hEF hfri hal htarget hmono halign hfeiN
    s.nodeCount 0 (rn, Array.mkArray s.edgeCount 0) (by omega) hinv0
  refine ⟨acc', ?_, ?_⟩
  · unfold retainerFill
    rw [List.range_eq_range']
    exact hacc'
  · rw [show (0 : Nat) + s.nodeCount = s.nodeCount from by omega, hfeiN,
      Nat.mul_div_cancel _ hEF] at hinv'
    exact hinv'

theorem sorted_getD_inj {l : List Nat} (hs : l.Pairwise (· < ·)) {j1 j2 : Nat}
    (h1 : j1 < l.length) (h2 : j2 < l.length) (he : l.getD j1 0 = l.getD j2 0) : j1 = j2 := by
  rcases Nat.lt_trichotomy j1 j2 with h | h | h
  · have := (List.pairwise_iff_getElem.mp hs) j1 j2 h1 h2 h
    rw [listGetD_eq_getElem h1, listGetD_eq_getElem h2] at he
    omega
  · exact h
  · have := (List.pairwise_iff_getElem.mp hs) j2 j1 h2 h1 h
    rw [listGetD_eq_getElem h1, listGetD_eq_getElem h2] at he
    omega

theorem edgesToBelow_full (s : Snap) (v : Nat) :
    edgesToBelow s s.edgeCount v = edgesTo s v := rfl

/-- C5: `buildRetainers` throws `Invalid toNodeIndex` exactly at the first
edge whose `to_node` field is not `NF`-aligned; on aligned inputs with
in-range targets it completes, `first_retainer_index` holds the retainer-count
prefix sums closed by the edge count, every slot of the range
`[first_retainer_index[v], first_retainer_index[v+1])` of `retaining_edges`
holds an edge index whose `to_node` field is `v * NF`, and every edge index
occupies exactly one retainer slot. -/
theorem buildRetainers_spec (s : Snap)
    (hNF : 0 < s.nodeFieldCount) (hEF : 0 < s.edgeFieldsCount)
    (hfei0 : s.firstEdgeIndexes.getD 0 0 = 0)
    (hmono : ∀ v, v < s.nodeCount →
      s.firstEdgeIndexes.getD v 0 ≤ s.firstEdgeIndexes.getD (v + 1) 0)
    (halign : ∀ v, v ≤ s.nodeCount → s.edgeFieldsCount ∣ s.firstEdgeIndexes.getD v 0)
    (hfeiN : s.firstEdgeIndexes.getD s.nodeCount 0 = s.edgeCount * s.edgeFieldsCount) :
    (∀ K, K < s.edgeCount →
      s.edge (K * s.edgeFieldsCount + s.edgeToNodeOffset) % s.nodeFieldCount ≠ 0 →
      (∀ k, k < K → s.edge (k * s.edgeFieldsCount + s.edgeToNodeOffset) % s.nodeFieldCount = 0) →
      buildRetainers s = Except.error
        ("Invalid toNodeIndex " ++ toString (s.edge (K * s.edgeFieldsCount + s.edgeToNodeOffset)))) ∧
    ((∀ k, k < s.edgeCount →
        s.edge (k * s.edgeFieldsCount + s.edgeToNodeOffset) % s.nodeFieldCount = 0) →
      (∀ k, k < s.edgeCount → targetOrd s k < s.nodeCount) →
      ∃ s', buildRetainers s = Except.ok s' ∧
        (∀ v, v ≤ s.nodeCount → s'.firstRetainerIndex.getD v 0 = retOff s v) ∧
        s'.firstRetainerIndex.getD s.nodeCount 0 = s.edgeCount ∧
        (∀ v, v < s.nodeCount → ∀ i, s'.firstRetainerIndex.getD v 0 ≤ i →
          i < s'.firstRetainerIndex.getD (v + 1) 0 →
          s.edge (s'.retainingEdges.getD i 0 + s.edgeToNodeOffset) = v * s.nodeFieldCount) ∧
        (∀ k, k < s.edgeCount → ∃! i, i < s.edgeCount ∧
          s'.retainingEdges.getD i 0 = k * s.edgeFieldsCount)) := by
  constructor
  · intro K hK hbad hgood
    unfold buildRetainers
    rw [retainerCounts_err s K hK hbad hgood]
    rfl
  · intro hal htarget
    obtain ⟨A, hA, hAsz, hAv⟩ := retainerCounts_ok s hal
    cases hro : retainerOffsets s A with
    | mk fri parked =>
      obtain ⟨hfsz, hfval, hfN, hrsz, hrpark⟩ := retainerOffsets_spec s A hAsz hAv
      rw [hro] at hfsz hfval hfN hrsz hrpark
      obtain ⟨acc, hfill, hinv⟩ := retainerFill_spec s fri parked hEF hfval hal htarget
        hfei0 hmono halign hfeiN hrsz hrpark
      cases hacc : acc with
      | mk rn re =>
        rw [hacc] at hfill hinv
        obtain ⟨hsz1, hsz2, _, hRE⟩ := hinv
        have hEfull : retOff s s.nodeCount = s.edgeCount := retOff_nodeCount s htarget
        have hfval' : ∀ v, v ≤ s.nodeCount → fri.getD v 0 = retOff s v := by
          intro v hv
          rcases Nat.lt_or_ge v s.nodeCount with h | h
          · exact hfval v h
          · have hveq : v = s.nodeCount := by omega
            rw [hveq, hfN, hEfull]
        have hREfull : ∀ v, v < s.nodeCount → ∀ j, j < retCnt s v →
            re.getD (retOff s v + retCnt s v - 1 - j) 0 =
              (edgesTo s v).getD j 0 * s.edgeFieldsCount :=
          fun v hv j hj => hRE v hv j hj
        refine ⟨{ s with firstRetainerIndex := fri, retainingNodes := rn, retainingEdges := re }, ?_, hfval', by simpa using hfN, ?_, ?_⟩
        · unfold buildRetainers
          rw [hA, bind_ok_eq, hro]
          show retainerFill s fri parked >>= _ = _
          rw [hfill, bind_ok_eq]
          rfl
        · intro v hv i hi1 hi2
          simp only at hi1 hi2 ⊢
          rw [hfval' v (by omega)] at hi1
          rw [hfval' (v + 1) (by omega), retOff_succ] at hi2
          have hj : retOff s v + retCnt s v - 1 - i < retCnt s v := by omega
          have hslot := hREfull v hv (retOff s v + retCnt s v - 1 - i) hj
          rw [show retOff s v + retCnt s v - 1 - (retOff s v + retCnt s v - 1 - i) = i
            from by omega] at hslot
          rw [hslot]
          have hjlen : retOff s v + retCnt s v - 1 - i < (edgesTo s v).length := hj
          have hmem : (edgesTo s v).getD (retOff s v + retCnt s v - 1 - i) 0 ∈ edgesTo s v := by
            rw [listGetD_eq_getElem hjlen]
            exact List.getElem_mem _
          obtain ⟨htv, hlt⟩ := edgesTo_mem s hmem
          exact target_field_eq s hNF (hal _ hlt) htv
        · intro k hk
          have htv := htarget k hk
          obtain ⟨hjlt, hgetk⟩ := edgesTo_getD_at s hk (v := targetOrd s k) rfl
          have hoffE : retOff s (targetOrd s k) + retCnt s (targetOrd s k) ≤ s.edgeCount := by
            have h1 := retOff_le_edgeCount s (targetOrd s k + 1)
            rw [retOff_succ] at h1
            omega
          refine ⟨retOff s (targetOrd s k) + retCnt s (targetOrd s k) - 1 -
            (edgesToBelow s k (targetOrd s k)).length, ⟨by omega, ?_⟩, ?_⟩
          · simp only
            rw [hREfull (targetOrd s k) htv _ hjlt, hgetk]
          · rintro i' ⟨hi'E, hval'⟩
            simp only at hval'
            rw [← hEfull] at hi'E
            obtain ⟨w, hw, hwle, hwlt⟩ := bucket_of_lt s s.nodeCount i' hi'E
            have hj' : retOff s w + retCnt s w - 1 - i' < retCnt s w := by omega
            have hslot := hREfull w hw (retOff s w + retCnt s w - 1 - i') hj'
            rw [show retOff s w + retCnt s w - 1 - (retOff s w + retCnt s w - 1 - i') = i'
              from by omega] at hslot
            rw [hval'] at hslot
            have hgetw : (edgesTo s w).getD (retOff s w + retCnt s w - 1 - i') 0 = k :=
              Nat.eq_of_mul_eq_mul_right hEF hslot.symm
            have hmemw : k ∈ edgesTo s w := by
              rw [← hgetw, listGetD_eq_getElem (show _ < (edgesTo s w).length from hj')]
              exact List.getElem_mem _
            have hwv : w = targetOrd s k := ((edgesTo_mem s hmemw).1).symm
            rw [← hwv] at hgetk hjlt hoffE ⊢
            have hjj : retOff s w + retCnt s w - 1 - i' =
                (edgesToBelow s k w).length :=
              sorted_getD_inj (edgesTo_sorted s w) hj' hjlt (by rw [hgetw, hgetk])
            omega


/-- Concrete aligned run of `buildRetainers` on the indexed three-node chain. -/
theorem buildRetainers_spec_witness :
    (∀ k, k < exampleChainIndexed.edgeCount →
      exampleChainIndexed.edge (k * exampleChainIndexed.edgeFieldsCount +
        exampleChainIndexed.edgeToNodeOffset) % exampleChainIndexed.nodeFieldCount = 0) ∧
    (∃ s', buildRetainers exampleChainIndexed = Except.ok s' ∧
      (∀ v, v ≤ exampleChainIndexed.nodeCount →
        s'.firstRetainerIndex.getD v 0 = retOff exampleChainIndexed v) ∧
      s'.firstRetainerIndex.getD exampleChainIndexed.nodeCount 0 =
        exampleChainIndexed.edgeCount ∧
      (∀ v, v < exampleChainIndexed.nodeCount → ∀ i,
        s'.firstRetainerIndex.getD v 0 ≤ i →
        i < s'.firstRetainerIndex.getD (v + 1) 0 →
        exampleChainIndexed.edge (s'.retainingEdges.getD i 0 +
          exampleChainIndexed.edgeToNodeOffset) = v * exampleChainIndexed.nodeFieldCount) ∧
      (∀ k, k < exampleChainIndexed.edgeCount → ∃! i, i < exampleChainIndexed.edgeCount ∧
        s'.retainingEdges.getD i 0 = k * exampleChainIndexed.edgeFieldsCount)) :=
  ⟨by decide, (buildRetainers_spec exampleChainIndexed (by decide) (by decide) (by decide)
      (by decide) (by decide) (by decide)).2 (by decide) (by decide)⟩

end HeapSnap

namespace HeapSnap





theorem SameGraph.selfSame (s : Snap) : SameGraph s s :=
  ⟨rfl, rfl, rfl, rfl, rfl, rfl, rfl, rfl, rfl, rfl, rfl, rfl, rfl, rfl, fun _ => rfl⟩

theorem and3_lt (x : Nat) : x &&& 3 < 4 :=
  Nat.lt_succ_of_le (Nat.and_le_right)

theorem setlow_and3 (a d : Nat) (hd : d < 4) : ((a &&& 0xFFFFFFFC) ||| d) &&& 3 = d := by
  apply Nat.eq_of_testBit_eq
  intro i
  rcases Nat.lt_or_ge i 2 with hi | hi
  · have h4 : (0xFFFFFFFC : Nat).testBit i = false := by
      interval_cases i
      · decide
      · decide
    have h3t : (3 : Nat).testBit i = true := by
      interval_cases i
      · decide
      · decide
    simp [Nat.testBit_and, Nat.testBit_or, h4, h3t]
  · have h3 : (3 : Nat).testBit i = false :=
      Nat.testBit_eq_false_of_lt (by calc (3 : Nat) < 4 := by omega
        _ = 2 ^ 2 := by norm_num
        _ ≤ 2 ^ i := Nat.pow_le_pow_right (by omega) hi)
    have hdb : d.testBit i = false :=
      Nat.testBit_eq_false_of_lt (by calc d < 4 := hd
        _ = 2 ^ 2 := by norm_num
        _ ≤ 2 ^ i := Nat.pow_le_pow_right (by omega) hi)
    simp [Nat.testBit_and, Nat.testBit_or, h3, hdb]

/-- Writing a low-bits state either leaves a slot's detachedness unchanged or
(at the written node, in bounds) sets it to the new state. -/
theorem detachedness_setDetachedness (s : Snap) (nodeIndex d idx : Nat)
    (hne : s.nodeDetachednessAndClassIndexOffset ≠ -1) (hd : d < 4) :
    detachedness (setDetachedness s nodeIndex d) idx = detachedness s idx ∨
    (idx = nodeIndex ∧ detachedness (setDetachedness s nodeIndex d) idx = d) := by
  unfold setDetachedness setDetachednessAndClassIndex detachedness detachednessAndClassIndex
  rw [if_pos hne]
  simp only [if_pos hne, Snap.node]
  by_cases hix : idx = nodeIndex
  · subst hix
    by_cases hb : idx + s.nodeDetachednessAndClassIndexOffset.toNat < s.nodes.size
    · right
      refine ⟨rfl, ?_⟩
      rw [getD_setD_self _ _ _ hb]
      exact setlow_and3 _ d hd
    · left
      rw [setD_oob _ _ _ (by omega)]
  · left
    rw [getD_setD_ne _ _ _ _ (by omega)]

/-- Writing the same state back never changes any slot's detachedness. -/
theorem detachedness_setDetachedness_same (s : Snap) (nodeIndex idx : Nat)
    (hne : s.nodeDetachednessAndClassIndexOffset ≠ -1) :
    detachedness (setDetachedness s nodeIndex (detachedness s nodeIndex)) idx =
      detachedness s idx := by
  rcases detachedness_setDetachedness s nodeIndex (detachedness s nodeIndex) idx hne
    (and3_lt _) with h | ⟨hix, h⟩
  · exact h
  · rw [h, hix]

/-- `setDetachedness` only rewrites one `nodes` slot: everything else of the
snapshot is syntactically preserved. -/
theorem setDetachedness_nodes (s : Snap) (nodeIndex d : Nat)
    (hne : s.nodeDetachednessAndClassIndexOffset ≠ -1) :
    setDetachedness s nodeIndex d =
      { s with nodes := (s.nodes.setD (nodeIndex + s.nodeDetachednessAndClassIndexOffset.toNat)
          ((detachednessAndClassIndex s nodeIndex &&& 0xFFFFFFFC) ||| d)) } := by
  unfold setDetachedness setDetachednessAndClassIndex
  rw [if_pos hne]

/-- `addDetachedPrefixToNodeName` only rewrites the node's name slot, pushes
onto the string table, and grows the cache. -/
theorem addPrefix_shape (st : PropState) (nodeIndex : Nat) :
    ∃ newIdx strs cache,
      addDetachedPrefixToNodeName st nodeIndex =
        { st with
          snap := { st.snap with
            strings := strs,
            nodes := (st.snap.nodes.setD (nodeIndex + st.snap.nodeNameOffset) newIdx) },
          cache := cache } := by
  simp only [addDetachedPrefixToNodeName]
  cases h : List.lookup (st.snap.node (nodeIndex + st.snap.nodeNameOffset)) st.cache with
  | none =>
    exact ⟨_, _, _, rfl⟩
  | some newStringIndex =>
    exact ⟨_, _, _, rfl⟩


theorem slot_ne (NF o1 o2 u v : Nat) (h1 : o1 < NF) (h2 : o2 < NF) (hne : o1 ≠ o2) :
    u * NF + o1 ≠ v * NF + o2 := by
  intro h
  have h1' : (u * NF + o1) % NF = o1 % NF := by
    rw [Nat.add_comm, Nat.add_mul_mod_self_right]
  have h2' : (v * NF + o2) % NF = o2 % NF := by
    rw [Nat.add_comm, Nat.add_mul_mod_self_right]
  have hm := congrArg (· % NF) h
  simp only at hm
  rw [h1', h2', Nat.mod_eq_of_lt h1, Nat.mod_eq_of_lt h2] at hm
  exact hne hm

theorem slot_ne_same (NF o u v : Nat) (hNF : 0 < NF) (huv : u ≠ v) :
    u * NF + o ≠ v * NF + o :=
  fun h => huv (Nat.eq_of_mul_eq_mul_right hNF (by omega))

/-- The type field of a node, read through `SameGraph`. -/
theorem rawType_sg (s0 : Snap) {s : Snap} (sg : SameGraph s0 s) (u : Nat) :
    rawType s (u * s.nodeFieldCount) = rawType s0 (u * s0.nodeFieldCount) := by
  unfold rawType
  rw [sg.nf, sg.nto]
  exact sg.typ u

theorem sameGraph_setDetachedness (s0 : Snap) (wf : DomWF s0) {s : Snap}
    (sg : SameGraph s0 s) (u d : Nat) :
    SameGraph s0 (setDetachedness s (u * s.nodeFieldCount) d) := by
  have hneS : s.nodeDetachednessAndClassIndexOffset ≠ -1 := by rw [sg.ndc]; exact wf.hne
  rw [setDetachedness_nodes s (u * s.nodeFieldCount) d hneS]
  refine ⟨sg.nf, sg.ef, sg.eto, sg.eno, sg.nto, sg.nno, sg.ndc, sg.nnt, sg.eht, sg.eit,
    sg.ewt, sg.ce, sg.fei, ?_, ?_⟩
  · show (s.nodes.setD _ _).size = s0.nodes.size
    rw [Array.size_setD]
    exact sg.nsz
  · intro v
    show (s.nodes.setD (u * s.nodeFieldCount + s.nodeDetachednessAndClassIndexOffset.toNat)
        _).getD (v * s0.nodeFieldCount + s0.nodeTypeOffset) 0 = _
    rw [getD_setD_ne]
    · exact sg.typ v
    · rw [sg.nf, sg.ndc]
      exact slot_ne s0.nodeFieldCount s0.nodeTypeOffset
        s0.nodeDetachednessAndClassIndexOffset.toNat v u wf.htO wf.hdO
        (fun h => wf.hdt h.symm)

theorem sameGraph_set_name (s0 : Snap) (wf : DomWF s0) {s : Snap} (sg : SameGraph s0 s)
    (strs : Array String) (u x : Nat) :
    SameGraph s0 { s with
      strings := strs,
      nodes := (s.nodes.setD (u * s.nodeFieldCount + s.nodeNameOffset) x) } := by
  refine ⟨sg.nf, sg.ef, sg.eto, sg.eno, sg.nto, sg.nno, sg.ndc, sg.nnt, sg.eht, sg.eit,
    sg.ewt, sg.ce, sg.fei, ?_, ?_⟩
  · show (s.nodes.setD _ _).size = s0.nodes.size
    rw [Array.size_setD]
    exact sg.nsz
  · intro v
    show (s.nodes.setD (u * s.nodeFieldCount + s.nodeNameOffset) _).getD
      (v * s0.nodeFieldCount + s0.nodeTypeOffset) 0 = _
    rw [getD_setD_ne]
    · exact sg.typ v
    · rw [sg.nf, sg.nno]
      exact slot_ne s0.nodeFieldCount s0.nodeTypeOffset s0.nodeNameOffset v u
        wf.htO wf.hnO (fun h => wf.hnt h.symm)

/-- Detachedness read on a snapshot whose serialized field is in the records. -/
theorem detachedness_eq (s : Snap) (idx : Nat)
    (hne : s.nodeDetachednessAndClassIndexOffset ≠ -1) :
    detachedness s idx =
      s.nodes.getD (idx + s.nodeDetachednessAndClassIndexOffset.toNat) 0 &&& 3 := by
  unfold detachedness detachednessAndClassIndex Snap.node
  rw [if_pos hne]

theorem detachedness_mk2 (s : Snap) (strs : Array String) (A : Array Nat) (idx : Nat)
    (hne : s.nodeDetachednessAndClassIndexOffset ≠ -1) :
    detachedness { s with strings := strs, nodes := A } idx =
      A.getD (idx + s.nodeDetachednessAndClassIndexOffset.toNat) 0 &&& 3 := by
  unfold detachedness detachednessAndClassIndex Snap.node
  rw [if_pos hne]

theorem det_set_name (s0 : Snap) (wf : DomWF s0) {s : Snap} (sg : SameGraph s0 s)
    (strs : Array String) (u x v : Nat) :
    detachedness { s with
        strings := strs,
        nodes := (s.nodes.setD (u * s.nodeFieldCount + s.nodeNameOffset) x) }
      (v * s0.nodeFieldCount) = detachedness s (v * s0.nodeFieldCount) := by
  have hneS : s.nodeDetachednessAndClassIndexOffset ≠ -1 := by rw [sg.ndc]; exact wf.hne
  rw [detachedness_mk2 s strs _ _ hneS, detachedness_eq s _ hneS]
  rw [getD_setD_ne]
  rw [sg.nf, sg.ndc, sg.nno]
  exact slot_ne s0.nodeFieldCount s0.nodeDetachednessAndClassIndexOffset.toNat
    s0.nodeNameOffset v u wf.hdO wf.hnO (fun h => wf.hnd h.symm)

theorem foldl_preserves_mem {α β : Type} (P : α → Prop) (f : α → β → α) :
    ∀ (l : List β) (b : α), (∀ a x, x ∈ l → P a → P (f a x)) → P b → P (l.foldl f b) := by
  intro l
  induction l with
  | nil => intro b _ hb; exact hb
  | cons x l ih =>
    intro b hstep hb
    exact ih (f b x) (fun a y hy ha => hstep a y (List.mem_cons_of_mem _ hy) ha)
      (hstep b x (List.mem_cons_self _ _) hb)

/-- `processNode` preserves the soundness invariant provided attachment of the
processed node is justified. -/
theorem processNode_inv (s0 : Snap) (wf : DomWF s0) (st : PropState) (u newState : Nat)
    (hd4 : newState < 4)
    (hinv : PropInv s0 st)
    (hjust : newState = domAttached →
      rawType s0 (u * s0.nodeFieldCount) = s0.nodeNativeType → AttachedReach s0 u) :
    PropInv s0 (processNode st u newState) := by
  obtain ⟨sg, hqueue, hatt⟩ := hinv
  have hneS : st.snap.nodeDetachednessAndClassIndexOffset ≠ -1 := by
    rw [sg.ndc]; exact wf.hne
  unfold processNode
  by_cases h1 : st.visited.getD u false
  · rw [if_pos h1]
    exact ⟨sg, hqueue, hatt⟩
  · rw [if_neg h1]
    try dsimp only
    by_cases h2 : rawType st.snap (u * st.snap.nodeFieldCount) ≠ st.snap.nodeNativeType
    · rw [if_pos h2]
      exact ⟨sg, hqueue, hatt⟩
    · rw [if_neg h2]
      try dsimp only
      push_neg at h2
      have hnat0 : rawType s0 (u * s0.nodeFieldCount) = s0.nodeNativeType := by
        rw [← rawType_sg s0 sg u, h2, sg.nnt]
      have sg1 : SameGraph s0 (setDetachedness st.snap (u * st.snap.nodeFieldCount) newState) :=
        sameGraph_setDetachedness s0 wf sg u newState
      have hatt1 : ∀ v : Nat,
          detachedness (setDetachedness st.snap (u * st.snap.nodeFieldCount) newState)
            (v * s0.nodeFieldCount) = domAttached →
          detachedness s0 (v * s0.nodeFieldCount) = domAttached ∨ AttachedReach s0 v := by
        intro v hv
        rcases detachedness_setDetachedness st.snap (u * st.snap.nodeFieldCount) newState
            (v * s0.nodeFieldCount) hneS hd4 with hcase | ⟨hidx, hcase⟩
        · rw [hcase] at hv
          exact hatt v hv
        · rw [hcase] at hv
          subst hv
          have hvu : v = u := by
            rw [sg.nf] at hidx
            exact Nat.eq_of_mul_eq_mul_right wf.hNF hidx
          subst hvu
          exact Or.inr (hjust rfl hnat0)
      by_cases h3 : newState = domAttached
      · rw [if_pos h3]
        refine ⟨sg1, ?_, hatt1⟩
        intro w hw
        rcases List.mem_cons.mp hw with hw | hw
        · subst hw
          exact hjust h3 hnat0
        · exact hqueue w hw
      · rw [if_neg h3]
        by_cases h4 : newState = domDetached
        · rw [if_pos h4]
          set st1 : PropState := { st with
            snap := setDetachedness st.snap (u * st.snap.nodeFieldCount) newState } with hst1
          obtain ⟨newIdx, strs, cache, hshape⟩ :=
            addPrefix_shape st1 (u * st.snap.nodeFieldCount)
          have hnfeq : u * st.snap.nodeFieldCount = u * st1.snap.nodeFieldCount := by
            rw [sg.nf, sg1.nf]
          rw [hnfeq] at hshape
          refine ⟨?_, ?_, ?_⟩
          · show SameGraph s0 (addDetachedPrefixToNodeName st1 (u * st.snap.nodeFieldCount)).snap
            rw [hnfeq, hshape]
            exact sameGraph_set_name s0 wf sg1 strs u newIdx
          · intro w hw
            have hw2 : w ∈ (addDetachedPrefixToNodeName st1
                (u * st.snap.nodeFieldCount)).attached := hw
            rw [hnfeq, hshape] at hw2
            exact hqueue w hw2
          · intro v hv
            have hv2 : detachedness (addDetachedPrefixToNodeName st1
                (u * st.snap.nodeFieldCount)).snap (v * s0.nodeFieldCount) = domAttached := hv
            rw [hnfeq, hshape] at hv2
            rw [det_set_name s0 wf sg1 strs u newIdx v] at hv2
            exact hatt1 v hv2
        · rw [if_neg h4]
          exact ⟨sg1, hqueue, hatt1⟩

/-- `processNode` called with a node's own current state never changes any
node's detachedness value. -/
theorem processNode_det (s0 : Snap) (wf : DomWF s0) (st : PropState) (u : Nat)
    (sg : SameGraph s0 st.snap) :
    ∀ v : Nat, detachedness (processNode st u
        (detachedness st.snap (u * st.snap.nodeFieldCount))).snap (v * s0.nodeFieldCount) =
      detachedness st.snap (v * s0.nodeFieldCount) := by
  intro v
  have hneS : st.snap.nodeDetachednessAndClassIndexOffset ≠ -1 := by
    rw [sg.ndc]; exact wf.hne
  unfold processNode
  by_cases h1 : st.visited.getD u false
  · rw [if_pos h1]
  · rw [if_neg h1]
    try dsimp only
    by_cases h2 : rawType st.snap (u * st.snap.nodeFieldCount) ≠ st.snap.nodeNativeType
    · rw [if_pos h2]
    · rw [if_neg h2]
      try dsimp only
      have sg1 : SameGraph s0 (setDetachedness st.snap (u * st.snap.nodeFieldCount)
          (detachedness st.snap (u * st.snap.nodeFieldCount))) :=
        sameGraph_setDetachedness s0 wf sg u _
      have hsame : detachedness (setDetachedness st.snap (u * st.snap.nodeFieldCount)
          (detachedness st.snap (u * st.snap.nodeFieldCount))) (v * s0.nodeFieldCount) =
          detachedness st.snap (v * s0.nodeFieldCount) :=
        detachedness_setDetachedness_same st.snap _ _ hneS
      by_cases h3 : detachedness st.snap (u * st.snap.nodeFieldCount) = domAttached
      · rw [if_pos h3]
        exact hsame
      · rw [if_neg h3]
        by_cases h4 : detachedness st.snap (u * st.snap.nodeFieldCount) = domDetached
        · rw [if_pos h4]
          set st1 : PropState := { st with
            snap := setDetachedness st.snap (u * st.snap.nodeFieldCount)
              (detachedness st.snap (u * st.snap.nodeFieldCount)) } with hst1
          obtain ⟨newIdx, strs, cache, hshape⟩ :=
            addPrefix_shape st1 (u * st.snap.nodeFieldCount)
          have hnfeq : u * st.snap.nodeFieldCount = u * st1.snap.nodeFieldCount := by
            rw [sg.nf, sg1.nf]
          rw [hnfeq] at hshape
          show detachedness (addDetachedPrefixToNodeName st1
            (u * st.snap.nodeFieldCount)).snap (v * s0.nodeFieldCount) = _
          rw [hnfeq, hshape]
          rw [det_set_name s0 wf sg1 strs u newIdx v]
          exact hsame
        · rw [if_neg h4]
          exact hsame

/-- Seeding one ordinal preserves the invariant and all detachedness values. -/
theorem seedNode_inv (s0 : Snap) (wf : DomWF s0) (st : PropState) (u : Nat)
    (hu : u < s0.nodeCount)
    (hinv : PropInv s0 st)
    (hB0 : ∀ v : Nat, detachedness st.snap (v * s0.nodeFieldCount) =
      detachedness s0 (v * s0.nodeFieldCount)) :
    PropInv s0 (seedNode st u) ∧
    (∀ v : Nat, detachedness (seedNode st u).snap (v * s0.nodeFieldCount) =
      detachedness s0 (v * s0.nodeFieldCount)) := by
  unfold seedNode
  try dsimp only
  by_cases h0 : detachedness st.snap (u * st.snap.nodeFieldCount) = domUnknown
  · rw [if_pos h0]
    exact ⟨hinv, hB0⟩
  · rw [if_neg h0]
    have hd4 : detachedness st.snap (u * st.snap.nodeFieldCount) < 4 := and3_lt _
    have hjust : detachedness st.snap (u * st.snap.nodeFieldCount) = domAttached →
        rawType s0 (u * s0.nodeFieldCount) = s0.nodeNativeType → AttachedReach s0 u := by
      intro hA hnat
      refine AttachedReach.seed u hu hnat ?_
      rw [← hB0 u, ← hinv.sg.nf]
      exact hA
    refine ⟨processNode_inv s0 wf st u _ hd4 hinv hjust, ?_⟩
    intro v
    rw [processNode_det s0 wf st u hinv.sg v]
    exact hB0 v

/-- One filtered-child step of `propagateState` preserves the invariant. -/
theorem propagateStateStep_inv (s0 : Snap) (wf : DomWF s0) (u newState : Nat)
    (hns : newState = domAttached ∨ newState = domDetached)
    (hjustp : newState = domAttached → AttachedReach s0 u)
    (st : PropState) (j : Nat)
    (hinv : PropInv s0 st)
    (hj : j < (s0.firstEdgeIndexes.getD (u + 1) 0 - s0.firstEdgeIndexes.getD u 0) /
      s0.edgeFieldsCount) :
    PropInv s0 (propagateStateStep (s0.firstEdgeIndexes.getD u 0) newState st j) := by
  have hedge : ∀ i, st.snap.edge i = s0.edge i := by
    intro i
    unfold Snap.edge
    rw [hinv.sg.ce]
  have hd4 : newState < 4 := by
    rcases hns with h | h
    · rw [h]; decide
    · rw [h]; decide
  unfold propagateStateStep
  try dsimp only
  have hcond : (decide (st.snap.edge (s0.firstEdgeIndexes.getD u 0 + j * st.snap.edgeFieldsCount +
        st.snap.edgeTypeOffset) = st.snap.edgeHiddenType) ||
      decide (st.snap.edge (s0.firstEdgeIndexes.getD u 0 + j * st.snap.edgeFieldsCount +
        st.snap.edgeTypeOffset) = st.snap.edgeInvisibleType) ||
      decide (st.snap.edge (s0.firstEdgeIndexes.getD u 0 + j * st.snap.edgeFieldsCount +
        st.snap.edgeTypeOffset) = st.snap.edgeWeakType)) =
      (decide (s0.edge (s0.firstEdgeIndexes.getD u 0 + j * s0.edgeFieldsCount +
        s0.edgeTypeOffset) = s0.edgeHiddenType) ||
      decide (s0.edge (s0.firstEdgeIndexes.getD u 0 + j * s0.edgeFieldsCount +
        s0.edgeTypeOffset) = s0.edgeInvisibleType) ||
      decide (s0.edge (s0.firstEdgeIndexes.getD u 0 + j * s0.edgeFieldsCount +
        s0.edgeTypeOffset) = s0.edgeWeakType)) := by
    rw [hinv.sg.ef, hinv.sg.eto, hinv.sg.eht, hinv.sg.eit, hinv.sg.ewt, hedge]
  rw [hcond]
  by_cases hft : (decide (s0.edge (s0.firstEdgeIndexes.getD u 0 + j * s0.edgeFieldsCount +
        s0.edgeTypeOffset) = s0.edgeHiddenType) ||
      decide (s0.edge (s0.firstEdgeIndexes.getD u 0 + j * s0.edgeFieldsCount +
        s0.edgeTypeOffset) = s0.edgeInvisibleType) ||
      decide (s0.edge (s0.firstEdgeIndexes.getD u 0 + j * s0.edgeFieldsCount +
        s0.edgeTypeOffset) = s0.edgeWeakType)) = true
  · rw [if_pos hft]
    exact hinv
  · rw [if_neg hft]
    have hchild : st.snap.edge (s0.firstEdgeIndexes.getD u 0 + j * st.snap.edgeFieldsCount +
        st.snap.edgeToNodeOffset) / st.snap.nodeFieldCount =
        s0.edge (s0.firstEdgeIndexes.getD u 0 + j * s0.edgeFieldsCount +
          s0.edgeToNodeOffset) / s0.nodeFieldCount := by
      rw [hinv.sg.ef, hinv.sg.eno, hinv.sg.nf, hedge]
    rw [hchild]
    apply processNode_inv s0 wf st _ newState hd4 hinv
    intro hA hnat
    refine AttachedReach.step u _ (hjustp hA) ⟨j, hj, ?_, rfl⟩ hnat
    simp only [Bool.or_eq_true, decide_eq_true_eq] at hft
    tauto

/-- `propagateState` preserves the invariant when the parent's attachment is
justified (or detachment is being propagated). -/
theorem propagateState_inv (s0 : Snap) (wf : DomWF s0) (st : PropState) (u newState : Nat)
    (hns : newState = domAttached ∨ newState = domDetached)
    (hjustp : newState = domAttached → AttachedReach s0 u)
    (hinv : PropInv s0 st) :
    PropInv s0 (propagateState st u newState) := by
  unfold propagateState
  try dsimp only
  rw [hinv.sg.fei, hinv.sg.ef]
  apply foldl_preserves_mem (P := PropInv s0)
  · intro a j hjmem ha
    exact propagateStateStep_inv s0 wf u newState hns hjustp a j ha (List.mem_range.mp hjmem)
  · exact hinv

theorem drainAttached_inv (s0 : Snap) (wf : DomWF s0) : ∀ (fuel : Nat) (st st' : PropState),
    drainAttached fuel st = Except.ok st' → PropInv s0 st → PropInv s0 st' := by
  intro fuel
  induction fuel with
  | zero =>
    intro st st' h _
    exact absurd h (by simp [drainAttached, throw, throwThe, MonadExceptOf.throw])
  | succ fuel ih =>
    intro st st' h hinv
    unfold drainAttached at h
    cases hq : st.attached with
    | nil =>
      rw [hq] at h
      simp [pure, Except.pure] at h
      exact h ▸ hinv
    | cons o rest =>
      rw [hq] at h
      try dsimp only at h
      have hrest : PropInv s0 { st with attached := rest } :=
        ⟨hinv.sg, fun w hw => hinv.queue w (by rw [hq]; exact List.mem_cons_of_mem _ hw),
          hinv.att⟩
      have ho : AttachedReach s0 o := hinv.queue o (by rw [hq]; exact List.mem_cons_self _ _)
      exact ih _ _ h (propagateState_inv s0 wf _ o domAttached (Or.inl rfl) (fun _ => ho) hrest)

theorem drainDetached_inv (s0 : Snap) (wf : DomWF s0) : ∀ (fuel : Nat) (st st' : PropState),
    drainDetached fuel st = Except.ok st' → PropInv s0 st → PropInv s0 st' := by
  intro fuel
  induction fuel with
  | zero =>
    intro st st' h _
    exact absurd h (by simp [drainDetached, throw, throwThe, MonadExceptOf.throw])
  | succ fuel ih =>
    intro st st' h hinv
    unfold drainDetached at h
    cases hq : st.detached with
    | nil =>
      rw [hq] at h
      simp [pure, Except.pure] at h
      exact h ▸ hinv
    | cons o rest =>
      rw [hq] at h
      try dsimp only at h
      have hrest : PropInv s0 { st with detached := rest } :=
        ⟨hinv.sg, hinv.queue, hinv.att⟩
      split at h
      · exact ih _ _ h hrest
      · exact ih _ _ h (propagateState_inv s0 wf _ o domDetached (Or.inr rfl)
          (fun hc => absurd hc (by decide)) hrest)

/-- C7 (corrected): after `propagateDOMState`, a node can be `Attached` even
when it is reachable from a `Detached`-seeded node through non-hidden,
non-invisible, non-weak edges; what holds is attachment soundness: every node
whose final state is `Attached` either was serialized `Attached` or is a
native node reachable from an `Attached`-serialized native node through such
edges via native nodes. -/
theorem propagateDOMState_attached_sound (s0 : Snap) (fuel : Nat) (s' : Snap)
    (wf : DomWF s0)
    (h : propagateDOMState s0 fuel = Except.ok s') :
    ∀ v, v < s0.nodeCount →
      detachedness s' (v * s0.nodeFieldCount) = domAttached →
      detachedness s0 (v * s0.nodeFieldCount) = domAttached ∨ AttachedReach s0 v := by
  unfold propagateDOMState at h
  rw [if_neg wf.hne] at h
  obtain ⟨st1, h1, h⟩ := except_bind_ok h
  obtain ⟨st2, h2, h⟩ := except_bind_ok h
  simp [pure, Except.pure] at h
  have hseed : PropInv s0 ((List.range s0.nodeCount).foldl seedNode
      { snap := s0, visited := Array.mkArray s0.nodeCount false, attached := [],
        detached := [], cache := [] }) ∧
      (∀ v : Nat, detachedness ((List.range s0.nodeCount).foldl seedNode
        { snap := s0, visited := Array.mkArray s0.nodeCount false, attached := [],
          detached := [], cache := [] }).snap (v * s0.nodeFieldCount) =
        detachedness s0 (v * s0.nodeFieldCount)) := by
    apply foldl_preserves_mem
      (P := fun t => PropInv s0 t ∧ (∀ v : Nat, detachedness t.snap (v * s0.nodeFieldCount) =
        detachedness s0 (v * s0.nodeFieldCount)))
    · rintro a u hu ⟨ha1, ha2⟩
      exact seedNode_inv s0 wf a u (List.mem_range.mp hu) ha1 ha2
    · refine ⟨⟨SameGraph.selfSame s0, ?_, ?_⟩, fun v => rfl⟩
      · intro w hw
        exact absurd hw (List.not_mem_nil w)
      · intro v hv
        exact Or.inl hv
  have hinv1 := drainAttached_inv s0 wf fuel _ st1 h1 hseed.1
  have hinv2 := drainDetached_inv s0 wf fuel st1 st2 h2 hinv1
  intro v hv hA
  apply hinv2.att v
  rw [h]
  exact hA


/-- C7 counterexample: on `exampleDomClash`, node X (ordinal 2) is reachable
from the `Detached`-seeded node D (ordinal 1) through a property edge, yet
its final detachedness is `Attached` (propagation from the attached seed A
wins because the attached queue is drained first). -/
theorem propagateDOMState_attached_counterexample :
    (propagateDOMState exampleDomClash 10).map
      (fun s' => detachedness s' (2 * exampleDomClash.nodeFieldCount)) =
        Except.ok domAttached ∧
    detachedness exampleDomClash (1 * exampleDomClash.nodeFieldCount) = domDetached ∧
    rawType exampleDomClash (1 * exampleDomClash.nodeFieldCount) =
      exampleDomClash.nodeNativeType ∧
    allowedEdgeTo exampleDomClash 1 2 :=
  ⟨rfl, rfl, rfl, ⟨0, by decide, by decide, by decide⟩⟩

/-- Attachment soundness instantiated on the clash example. -/
theorem propagateDOMState_attached_sound_witness :
    DomWF exampleDomClash ∧
    ∃ s', propagateDOMState exampleDomClash 10 = Except.ok s' ∧
      (∀ v, v < exampleDomClash.nodeCount →
        detachedness s' (v * exampleDomClash.nodeFieldCount) = domAttached →
        detachedness exampleDomClash (v * exampleDomClash.nodeFieldCount) = domAttached ∨
          AttachedReach exampleDomClash v) := by
  refine ⟨⟨by decide, by decide, by decide, by decide, by decide, by decide, by decide,
    by decide⟩, ?_⟩
  have hok : (propagateDOMState exampleDomClash 10).map (fun _ => (0 : Nat)) =
      Except.ok 0 := rfl
  cases hrun : propagateDOMState exampleDomClash 10 with
  | ok s2 =>
    exact ⟨s2, rfl, propagateDOMState_attached_sound exampleDomClash 10 s2
      ⟨by decide, by decide, by decide, by decide, by decide, by decide, by decide,
        by decide⟩ hrun⟩
  | error e =>
    rw [hrun] at hok
    simp [Except.map] at hok

end HeapSnap

namespace HeapSnap

/-- The `j`-th edge record position of ordinal `u` lies on an in-range edge
record, under the `firstEdgeIndexes` layout hypotheses. -/
theorem edgePos_lt (s : Snap) (hEF : 0 < s.edgeFieldsCount)
    (hmono : ∀ v, v < s.nodeCount →
      s.firstEdgeIndexes.getD v 0 ≤ s.firstEdgeIndexes.getD (v + 1) 0)
    (halign : ∀ v, v ≤ s.nodeCount → s.edgeFieldsCount ∣ s.firstEdgeIndexes.getD v 0)
    (hfeiN : s.firstEdgeIndexes.getD s.nodeCount 0 = s.edgeCount * s.edgeFieldsCount)
    (u j : Nat) (hu : u < s.nodeCount)
    (hj : j < (s.firstEdgeIndexes.getD (u + 1) 0 - s.firstEdgeIndexes.getD u 0) /
      s.edgeFieldsCount) :
    ∃ k, k < s.edgeCount ∧
      s.firstEdgeIndexes.getD u 0 + j * s.edgeFieldsCount = k * s.edgeFieldsCount := by
  obtain ⟨a, hA⟩ := halign u (by omega)
  obtain ⟨b, hB⟩ := halign (u + 1) (by omega)
  have hA' : s.firstEdgeIndexes.getD u 0 = a * s.edgeFieldsCount := by rw [hA]; ring
  have hB' : s.firstEdgeIndexes.getD (u + 1) 0 = b * s.edgeFieldsCount := by rw [hB]; ring
  have hab : a ≤ b := by
    have h1 := hmono u hu
    rw [hA', hB'] at h1
    exact Nat.le_of_mul_le_mul_right h1 hEF
  have hbE : b ≤ s.edgeCount := by
    have h1 := fei_le s hmono (s.nodeCount - (u + 1)) (u + 1) (by omega)
    rw [show u + 1 + (s.nodeCount - (u + 1)) = s.nodeCount from by omega, hB', hfeiN] at h1
    exact Nat.le_of_mul_le_mul_right h1 hEF
  have hcnt : (s.firstEdgeIndexes.getD (u + 1) 0 - s.firstEdgeIndexes.getD u 0) /
      s.edgeFieldsCount = b - a := by
    rw [hA', hB', ← Nat.sub_mul, Nat.mul_div_cancel _ hEF]
  rw [hcnt] at hj
  refine ⟨a + j, by omega, ?_⟩
  rw [hA']
  ring

theorem getD_setD_self_gen {A : Type} (a : Array A) (i : Nat) (x d : A) (h : i < a.size) :
    (a.setD i x).getD i d = x := by
  unfold Array.setD Array.getD
  rw [dif_pos h]
  have h2 : i < (a.set ⟨i, h⟩ x).size := by simpa using h
  rw [dif_pos h2]
  simp [Array.get_set_eq]

theorem getD_setD_ne_gen {A : Type} (a : Array A) (i j : Nat) (x d : A) (hne : j ≠ i) :
    (a.setD i x).getD j d = a.getD j d := by
  unfold Array.setD Array.getD
  by_cases h : i < a.size
  · rw [dif_pos h]
    by_cases hj : j < a.size
    · have h2 : j < (a.set ⟨i, h⟩ x).size := by simpa using hj
      rw [dif_pos h2, dif_pos hj]
      simp [Array.get_set, hne, Ne.symm hne]
    · have h2 : ¬ j < (a.set ⟨i, h⟩ x).size := by simpa using hj
      rw [dif_neg h2, dif_neg hj]
  · rw [dif_neg h]

theorem bfsStep_eq (s : Snap) (f : Nat → Nat → Bool) (feiU pIdx : Nat) (dist : Int)
    (d : Array Int) (enq : List Nat) (len : Nat) (j : Nat) :
    bfsStep s (some (fun (x : Unit) n e => (f n e, x))) feiU pIdx dist (d, enq, len, ()) j =
      if s.edge (feiU + j * s.edgeFieldsCount + s.edgeTypeOffset) = s.edgeWeakType then
        (d, enq, len, ())
      else if d.getD (s.edge (feiU + j * s.edgeFieldsCount + s.edgeToNodeOffset) /
          s.nodeFieldCount) 0 ≠ noDistance then (d, enq, len, ())
      else if f pIdx (feiU + j * s.edgeFieldsCount) then
        (d.setD (s.edge (feiU + j * s.edgeFieldsCount + s.edgeToNodeOffset) /
            s.nodeFieldCount) dist,
         enq ++ [s.edge (feiU + j * s.edgeFieldsCount + s.edgeToNodeOffset)], len + 1, ())
      else (d, enq, len, ()) := rfl

/-- Scanning the edges of a dequeued reachable ordinal preserves the BFS
invariants, marks every allowed child, and enqueues every fresh mark. -/
theorem bfsScan (s : Snap) (fuel : Nat) (f : Nat → Nat → Bool)
    (hNF : 0 < s.nodeFieldCount) (hEF : 0 < s.edgeFieldsCount)
    (hmono : ∀ v, v < s.nodeCount →
      s.firstEdgeIndexes.getD v 0 ≤ s.firstEdgeIndexes.getD (v + 1) 0)
    (halign : ∀ v, v ≤ s.nodeCount → s.edgeFieldsCount ∣ s.firstEdgeIndexes.getD v 0)
    (hfeiN : s.firstEdgeIndexes.getD s.nodeCount 0 = s.edgeCount * s.edgeFieldsCount)
    (htargets : ∀ k, k < s.edgeCount →
      s.edge (k * s.edgeFieldsCount + s.edgeToNodeOffset) % s.nodeFieldCount = 0)
    (u pIdx : Nat) (hu : u < s.nodeCount) (hpIdx : pIdx = u * s.nodeFieldCount)
    (hreach : DistReach s fuel f u) (dist : Int) (hdist : 0 ≤ dist) :
    ∀ (l : List Nat) (d0 : Array Int) (enq0 : List Nat) (len0 : Nat),
    (∀ j ∈ l, j < (s.firstEdgeIndexes.getD (u + 1) 0 - s.firstEdgeIndexes.getD u 0) /
      s.edgeFieldsCount) →
    d0.size = s.nodeCount →
    (∀ v, v < s.nodeCount → d0.getD v 0 ≠ noDistance → DistReach s fuel f v) →
    (∀ v, v < s.nodeCount → d0.getD v 0 = noDistance ∨ 0 ≤ d0.getD v 0) →
    (∀ idx ∈ enq0, idx = (idx / s.nodeFieldCount) * s.nodeFieldCount ∧
      (idx / s.nodeFieldCount < s.nodeCount → d0.getD (idx / s.nodeFieldCount) 0 ≠ noDistance)) →
    ∃ d1 enq1 len1,
      l.foldl (bfsStep s (some (fun (x : Unit) n e => (f n e, x)))
        (s.firstEdgeIndexes.getD u 0) pIdx dist) (d0, enq0, len0, ()) = (d1, enq1, len1, ()) ∧
      d1.size = s.nodeCount ∧
      (∀ v, v < s.nodeCount → d1.getD v 0 ≠ noDistance → DistReach s fuel f v) ∧
      (∀ v, v < s.nodeCount → d1.getD v 0 = noDistance ∨ 0 ≤ d1.getD v 0) ∧
      (∀ v, d0.getD v 0 ≠ noDistance → d1.getD v 0 ≠ noDistance) ∧
      (∀ idx ∈ enq1, idx = (idx / s.nodeFieldCount) * s.nodeFieldCount ∧
        (idx / s.nodeFieldCount < s.nodeCount →
          d1.getD (idx / s.nodeFieldCount) 0 ≠ noDistance)) ∧
      (∀ idx ∈ enq0, idx ∈ enq1) ∧
      (∀ j ∈ l, distAllowed s f u j → distTarget s u j < s.nodeCount →
        d1.getD (distTarget s u j) 0 ≠ noDistance) ∧
      (∀ v, v < s.nodeCount → d1.getD v 0 ≠ noDistance → d0.getD v 0 = noDistance →
        ∃ idx ∈ enq1, idx / s.nodeFieldCount = v) := by
  intro l
  induction l with
  | nil =>
    intro d0 enq0 len0 _ hsz hsound hnn henq
    refine ⟨d0, enq0, len0, rfl, hsz, hsound, hnn, fun v hv => hv, henq,
      fun idx hidx => hidx, ?_, ?_⟩
    · intro j hj
      exact absurd hj (List.not_mem_nil j)
    · intro v _ h1 h2
      exact absurd h1 (by simp [h2])
  | cons j l ih =>
    intro d0 enq0 len0 hjs hsz hsound hnn henq
    have hjn : j < (s.firstEdgeIndexes.getD (u + 1) 0 - s.firstEdgeIndexes.getD u 0) /
        s.edgeFieldsCount := hjs j (List.mem_cons_self _ _)
    rw [List.foldl_cons, bfsStep_eq]
    by_cases c1 : s.edge (s.firstEdgeIndexes.getD u 0 + j * s.edgeFieldsCount +
        s.edgeTypeOffset) = s.edgeWeakType
    · rw [if_pos c1]
      obtain ⟨d1, enq1, len1, heq, g1, g2, g3, g4, g5, g6, g7, g8⟩ :=
        ih d0 enq0 len0 (fun j' hj' => hjs j' (List.mem_cons_of_mem _ hj')) hsz hsound hnn henq
      refine ⟨d1, enq1, len1, heq, g1, g2, g3, g4, g5, g6, ?_, g8⟩
      intro j' hj' hall htlt
      rcases List.mem_cons.mp hj' with hj'' | hj''
      · subst hj''
        exact absurd c1 hall.2.1
      · exact g7 j' hj'' hall htlt
    · rw [if_neg c1]
      by_cases c2 : d0.getD (s.edge (s.firstEdgeIndexes.getD u 0 + j * s.edgeFieldsCount +
          s.edgeToNodeOffset) / s.nodeFieldCount) 0 ≠ noDistance
      · rw [if_pos c2]
        obtain ⟨d1, enq1, len1, heq, g1, g2, g3, g4, g5, g6, g7, g8⟩ :=
          ih d0 enq0 len0 (fun j' hj' => hjs j' (List.mem_cons_of_mem _ hj')) hsz hsound hnn henq
        refine ⟨d1, enq1, len1, heq, g1, g2, g3, g4, g5, g6, ?_, g8⟩
        intro j' hj' hall htlt
        rcases List.mem_cons.mp hj' with hj'' | hj''
        · subst hj''
          exact g4 _ c2
        · exact g7 j' hj'' hall htlt
      · rw [if_neg c2]
        push_neg at c2
        by_cases c3 : f pIdx (s.firstEdgeIndexes.getD u 0 + j * s.edgeFieldsCount) = true
        · rw [if_pos c3]
          obtain ⟨k, hkE, hkpos⟩ := edgePos_lt s hEF hmono halign hfeiN u j hu hjn
          have hal : s.edge (s.firstEdgeIndexes.getD u 0 + j * s.edgeFieldsCount +
              s.edgeToNodeOffset) % s.nodeFieldCount = 0 := by
            rw [hkpos]
            exact htargets k hkE
          have hcal : s.edge (s.firstEdgeIndexes.getD u 0 + j * s.edgeFieldsCount +
              s.edgeToNodeOffset) = (s.edge (s.firstEdgeIndexes.getD u 0 +
                j * s.edgeFieldsCount + s.edgeToNodeOffset) / s.nodeFieldCount) *
              s.nodeFieldCount :=
            (Nat.div_mul_cancel (Nat.dvd_of_mod_eq_zero hal)).symm
          have hwreach : distTarget s u j < s.nodeCount → DistReach s fuel f (distTarget s u j) :=
            fun _ => DistReach.step u j hreach hu ⟨hjn, c1, by rw [← hpIdx]; exact c3⟩
          have hndd : (noDistance : Int) = -5 := rfl
          have hs1 : ∀ v, v < s.nodeCount →
              (d0.setD (distTarget s u j) dist).getD v 0 ≠ noDistance →
              DistReach s fuel f v := by
            intro v hv hm
            by_cases hvw : v = distTarget s u j
            · subst hvw
              exact hwreach hv
            · rw [getD_setD_ne_gen _ _ _ _ _ hvw] at hm
              exact hsound v hv hm
          have hs2 : ∀ v, v < s.nodeCount →
              (d0.setD (distTarget s u j) dist).getD v 0 = noDistance ∨
              0 ≤ (d0.setD (distTarget s u j) dist).getD v 0 := by
            intro v hv
            by_cases hvw : v = distTarget s u j
            · subst hvw
              rw [getD_setD_self_gen _ _ _ _ (by rw [hsz]; exact hv)]
              right
              exact hdist
            · rw [getD_setD_ne_gen _ _ _ _ _ hvw]
              exact hnn v hv
          have hs3 : ∀ idx ∈ enq0 ++ [s.edge (s.firstEdgeIndexes.getD u 0 +
              j * s.edgeFieldsCount + s.edgeToNodeOffset)],
              idx = (idx / s.nodeFieldCount) * s.nodeFieldCount ∧
              (idx / s.nodeFieldCount < s.nodeCount →
                (d0.setD (distTarget s u j) dist).getD (idx / s.nodeFieldCount) 0 ≠
                  noDistance) := by
            intro idx hidx
            rcases List.mem_append.mp hidx with hidx | hidx
            · obtain ⟨ha, hb⟩ := henq idx hidx
              refine ⟨ha, ?_⟩
              intro hlt
              by_cases hvw : idx / s.nodeFieldCount = distTarget s u j
              · rw [hvw, getD_setD_self_gen _ _ _ _ (by rw [hsz]; rw [hvw] at hlt; exact hlt)]
                omega
              · rw [getD_setD_ne_gen _ _ _ _ _ hvw]
                exact hb hlt
            · rw [List.mem_singleton.mp hidx]
              refine ⟨hcal, ?_⟩
              intro hlt
              rw [show s.edge (s.firstEdgeIndexes.getD u 0 + j * s.edgeFieldsCount +
                s.edgeToNodeOffset) / s.nodeFieldCount = distTarget s u j from rfl]
              rw [getD_setD_self_gen _ _ _ _ (by rw [hsz]; exact hlt)]
              omega
          obtain ⟨d1, enq1, len1, heq, g1, g2, g3, g4, g5, g6, g7, g8⟩ :=
            ih (d0.setD (distTarget s u j) dist)
              (enq0 ++ [s.edge (s.firstEdgeIndexes.getD u 0 + j * s.edgeFieldsCount +
                s.edgeToNodeOffset)]) (len0 + 1)
              (fun j' hj' => hjs j' (List.mem_cons_of_mem _ hj'))
              (by rw [Array.size_setD]; exact hsz) hs1 hs2 hs3
          refine ⟨d1, enq1, len1, heq, g1, g2, g3, ?_, g5, ?_, ?_, ?_⟩
          · intro v hv
            apply g4
            by_cases hvw : v = distTarget s u j
            · subst hvw
              exact absurd (show d0.getD (distTarget s u j) 0 = noDistance from c2) hv
            · rw [getD_setD_ne_gen _ _ _ _ _ hvw]
              exact hv
          · intro idx hidx
            exact g6 idx (List.mem_append_left _ hidx)
          · intro j' hj' hall htlt
            rcases List.mem_cons.mp hj' with hj'' | hj''
            · subst hj''
              apply g4
              rw [getD_setD_self_gen _ _ _ _ (by rw [hsz]; exact htlt)]
              omega
            · exact g7 j' hj'' hall htlt
          · intro v hv h1 h2
            by_cases hvw : v = distTarget s u j
            · subst hvw
              refine ⟨s.edge (s.firstEdgeIndexes.getD u 0 + j * s.edgeFieldsCount +
                s.edgeToNodeOffset), ?_, ?_⟩
              · exact g6 _ (List.mem_append_right _ (List.mem_singleton.mpr rfl))
              · rfl
            · exact g8 v hv h1 ((getD_setD_ne_gen _ _ _ _ _ hvw).trans h2)
        · rw [if_neg c3]
          obtain ⟨d1, enq1, len1, heq, g1, g2, g3, g4, g5, g6, g7, g8⟩ :=
            ih d0 enq0 len0 (fun j' hj' => hjs j' (List.mem_cons_of_mem _ hj')) hsz hsound hnn henq
          refine ⟨d1, enq1, len1, heq, g1, g2, g3, g4, g5, g6, ?_, g8⟩
          intro j' hj' hall htlt
          rcases List.mem_cons.mp hj' with hj'' | hj''
          · subst hj''
            rw [hpIdx] at c3
            exact absurd hall.2.2 c3
          · exact g7 j' hj'' hall htlt

theorem getD_oob_gen {A : Type} (a : Array A) (i : Nat) (d : A) (h : a.size ≤ i) :
    a.getD i d = d := by
  unfold Array.getD
  rw [dif_neg (by omega)]

/-- Fuel induction for the distance BFS drain: starting from a sound, marked
and queue-covered state, a successful drain preserves soundness and leaves
every marked ordinal closed under allowed edges. -/
theorem bfsLoop_inv (s : Snap) (fuelR : Nat) (f : Nat → Nat → Bool)
    (hNF : 0 < s.nodeFieldCount) (hEF : 0 < s.edgeFieldsCount)
    (hmono : ∀ v, v < s.nodeCount →
      s.firstEdgeIndexes.getD v 0 ≤ s.firstEdgeIndexes.getD (v + 1) 0)
    (halign : ∀ v, v ≤ s.nodeCount → s.edgeFieldsCount ∣ s.firstEdgeIndexes.getD v 0)
    (hfeiN : s.firstEdgeIndexes.getD s.nodeCount 0 = s.edgeCount * s.edgeFieldsCount)
    (htargets : ∀ k, k < s.edgeCount →
      s.edge (k * s.edgeFieldsCount + s.edgeToNodeOffset) % s.nodeFieldCount = 0)
    (hfeiSz : s.firstEdgeIndexes.size = s.nodeCount + 1) :
    ∀ (fuel : Nat) (queue : List Nat) (len : Nat) (d d' : Array Int) (fs' : Unit),
    bfsLoop s (some (fun (x : Unit) n e => (f n e, x))) fuel queue len d () =
      Except.ok (d', fs') →
    d.size = s.nodeCount →
    (∀ v, v < s.nodeCount → d.getD v 0 ≠ noDistance → DistReach s fuelR f v) →
    (∀ v, v < s.nodeCount → d.getD v 0 = noDistance ∨ 0 ≤ d.getD v 0) →
    (∀ idx ∈ queue, idx = (idx / s.nodeFieldCount) * s.nodeFieldCount ∧
      (idx / s.nodeFieldCount < s.nodeCount →
        d.getD (idx / s.nodeFieldCount) 0 ≠ noDistance)) →
    (∀ v, v < s.nodeCount → d.getD v 0 ≠ noDistance →
      (∃ idx ∈ queue, idx / s.nodeFieldCount = v) ∨ distClosed s f d v) →
    d'.size = s.nodeCount ∧
    (∀ v, v < s.nodeCount → d'.getD v 0 ≠ noDistance → DistReach s fuelR f v) ∧
    (∀ v, v < s.nodeCount → d'.getD v 0 = noDistance ∨ 0 ≤ d'.getD v 0) ∧
    (∀ v, d.getD v 0 ≠ noDistance → d'.getD v 0 ≠ noDistance) ∧
    (∀ v, v < s.nodeCount → d'.getD v 0 ≠ noDistance → distClosed s f d' v) := by
  intro fuel
  induction fuel with
  | zero =>
    intro queue len d d' fs' h
    exact absurd h (by simp [bfsLoop, throw, throwThe, MonadExceptOf.throw])
  | succ fuel ih =>
    intro queue len d d' fs' h hsz hsound hnn hq hcl
    cases queue with
    | nil =>
      simp only [bfsLoop] at h
      split at h
      · exact absurd h (by simp [throw, throwThe, MonadExceptOf.throw])
      · simp only [pure, Except.pure, Except.ok.injEq, Prod.mk.injEq] at h
        obtain ⟨hd, _⟩ := h
        subst hd
        refine ⟨hsz, hsound, hnn, fun v hv => hv, ?_⟩
        intro v hv hm
        rcases hcl v hv hm with ⟨idx, hidx, _⟩ | hc
        · exact absurd hidx (List.not_mem_nil idx)
        · exact hc
    | cons idx rest =>
      simp only [bfsLoop] at h
      by_cases hur : idx / s.nodeFieldCount < s.nodeCount
      · obtain ⟨hali, hmk⟩ := hq idx (List.mem_cons_self _ _)
        have hmk' := hmk hur
        have hreach : DistReach s fuelR f (idx / s.nodeFieldCount) :=
          hsound _ hur hmk'
        have hdist : 0 ≤ d.getD (idx / s.nodeFieldCount) 0 + 1 := by
          rcases hnn _ hur with hc | hc
          · exact absurd hc hmk'
          · omega
        obtain ⟨d1, enq1, len1, heq, g1, g2, g3, g4, g5, g6, g7, g8⟩ :=
          bfsScan s fuelR f hNF hEF hmono halign hfeiN htargets
            (idx / s.nodeFieldCount) idx hur hali hreach
            (d.getD (idx / s.nodeFieldCount) 0 + 1) hdist
            (List.range ((s.firstEdgeIndexes.getD (idx / s.nodeFieldCount + 1) 0 -
              s.firstEdgeIndexes.getD (idx / s.nodeFieldCount) 0) / s.edgeFieldsCount))
            d [] len (fun j hj => List.mem_range.mp hj) hsz hsound hnn
            (fun i hi => absurd hi (List.not_mem_nil i))
        rw [heq] at h
        have hrec := ih (rest ++ enq1) len1 d1 d' fs' h g1 g2 g3 ?_ ?_
        · obtain ⟨k1, k2, k3, k4, k5⟩ := hrec
          exact ⟨k1, k2, k3, fun v hv => k4 v (g4 v hv), k5⟩
        · intro idx' hidx'
          rcases List.mem_append.mp hidx' with hi | hi
          · obtain ⟨ha, hb⟩ := hq idx' (List.mem_cons_of_mem _ hi)
            exact ⟨ha, fun hlt => g4 _ (hb hlt)⟩
          · exact g5 idx' hi
        · intro v hv hm1
          by_cases hvd : d.getD v 0 ≠ noDistance
          · rcases hcl v hv hvd with ⟨idx', hidx', hiv⟩ | hc
            · rcases List.mem_cons.mp hidx' with hi | hi
              · subst hi
                right
                intro j hall htlt
                rw [← hiv] at hall htlt ⊢
                exact g7 j (List.mem_range.mpr hall.1) hall htlt
              · exact Or.inl ⟨idx', List.mem_append_left _ hi, hiv⟩
            · right
              intro j hall htlt
              exact g4 _ (hc j hall htlt)
          · push_neg at hvd
            obtain ⟨idx', hidx', hiv⟩ := g8 v hv hm1 hvd
            exact Or.inl ⟨idx', List.mem_append_right _ hidx', hiv⟩
      · have hn0 : (s.firstEdgeIndexes.getD (idx / s.nodeFieldCount + 1) 0 -
            s.firstEdgeIndexes.getD (idx / s.nodeFieldCount) 0) / s.edgeFieldsCount = 0 := by
          rw [getD_oob_gen _ _ _ (by omega)]
          simp
        rw [hn0] at h
        simp only [List.range_zero, List.foldl_nil] at h
        have hrec := ih (rest ++ []) len d d' fs' h hsz hsound hnn ?_ ?_
        · exact hrec
        · intro idx' hidx'
          exact hq idx' (List.mem_cons_of_mem _ (by simpa using hidx'))
        · intro v hv hm
          rcases hcl v hv hm with ⟨idx', hidx', hiv⟩ | hc
          · rcases List.mem_cons.mp hidx' with hi | hi
            · subst hi
              exact absurd hur (by rw [hiv]; exact fun _ => (by omega : ¬ v < s.nodeCount) hv)
            · exact Or.inl ⟨idx', by simpa using hi, hiv⟩
          · exact Or.inr hc

theorem setD_oob_gen {A : Type} (a : Array A) (i : Nat) (x : A) (h : a.size ≤ i) :
    a.setD i x = a := by
  unfold Array.setD
  rw [dif_neg (by omega)]

/-- The user-root seeding fold of `calculateDistances` marks exactly the
user-root children of the processed root edges, each mark carrying a queue
witness. -/
theorem distSeed_inv (s : Snap) (fuel : Nat) (f : Nat → Nat → Bool)
    (hNF : 0 < s.nodeFieldCount) (hEF : 0 < s.edgeFieldsCount)
    (hmono : ∀ v, v < s.nodeCount →
      s.firstEdgeIndexes.getD v 0 ≤ s.firstEdgeIndexes.getD (v + 1) 0)
    (halign : ∀ v, v ≤ s.nodeCount → s.edgeFieldsCount ∣ s.firstEdgeIndexes.getD v 0)
    (hfeiN : s.firstEdgeIndexes.getD s.nodeCount 0 = s.edgeCount * s.edgeFieldsCount)
    (htargets : ∀ k, k < s.edgeCount →
      s.edge (k * s.edgeFieldsCount + s.edgeToNodeOffset) % s.nodeFieldCount = 0)
    (hroot : s.rootNodeOrdinal < s.nodeCount) :
    ∀ (l : List Nat) (d0 : Array Int) (q0 : List Nat) (d1 : Array Int) (q1 : List Nat),
    (∀ j ∈ l, j < (s.firstEdgeIndexes.getD (s.rootNodeOrdinal + 1) 0 -
      s.firstEdgeIndexes.getD s.rootNodeOrdinal 0) / s.edgeFieldsCount) →
    l.foldlM (distSeedStep s fuel (s.firstEdgeIndexes.getD s.rootNodeOrdinal 0)) (d0, q0) =
      Except.ok (d1, q1) →
    d0.size = s.nodeCount →
    (∀ v, v < s.nodeCount → d0.getD v 0 ≠ noDistance → DistReach s fuel f v) →
    (∀ v, v < s.nodeCount → d0.getD v 0 = noDistance ∨ 0 ≤ d0.getD v 0) →
    (∀ idx ∈ q0, idx = (idx / s.nodeFieldCount) * s.nodeFieldCount ∧
      (idx / s.nodeFieldCount < s.nodeCount →
        d0.getD (idx / s.nodeFieldCount) 0 ≠ noDistance)) →
    (∀ v, v < s.nodeCount → d0.getD v 0 ≠ noDistance → ∃ idx ∈ q0, idx / s.nodeFieldCount = v) →
    d1.size = s.nodeCount ∧
    (∀ v, v < s.nodeCount → d1.getD v 0 ≠ noDistance → DistReach s fuel f v) ∧
    (∀ v, v < s.nodeCount → d1.getD v 0 = noDistance ∨ 0 ≤ d1.getD v 0) ∧
    (∀ v, d0.getD v 0 ≠ noDistance → d1.getD v 0 ≠ noDistance) ∧
    (∀ idx ∈ q1, idx = (idx / s.nodeFieldCount) * s.nodeFieldCount ∧
      (idx / s.nodeFieldCount < s.nodeCount →
        d1.getD (idx / s.nodeFieldCount) 0 ≠ noDistance)) ∧
    (∀ idx ∈ q0, idx ∈ q1) ∧
    (∀ v, v < s.nodeCount → d1.getD v 0 ≠ noDistance →
      ∃ idx ∈ q1, idx / s.nodeFieldCount = v) ∧
    (∀ j ∈ l, snapshotIsUserRoot s fuel (s.edge (s.firstEdgeIndexes.getD
        s.rootNodeOrdinal 0 + j * s.edgeFieldsCount + s.edgeToNodeOffset)) =
        Except.ok true →
      distTarget s s.rootNodeOrdinal j < s.nodeCount →
      d1.getD (distTarget s s.rootNodeOrdinal j) 0 ≠ noDistance) := by
  intro l
  induction l with
  | nil =>
    intro d0 q0 d1 q1 _ h hsz hsound hnn hq hw
    simp only [List.foldlM_nil, pure, Except.pure, Except.ok.injEq, Prod.mk.injEq] at h
    obtain ⟨hd, hq'⟩ := h
    subst hd
    subst hq'
    exact ⟨hsz, hsound, hnn, fun v hv => hv, hq, fun i hi => hi, hw,
      fun j hj => absurd hj (List.not_mem_nil j)⟩
  | cons j l ih =>
    intro d0 q0 d1 q1 hjs h hsz hsound hnn hq hw
    have hjn : j < (s.firstEdgeIndexes.getD (s.rootNodeOrdinal + 1) 0 -
        s.firstEdgeIndexes.getD s.rootNodeOrdinal 0) / s.edgeFieldsCount :=
      hjs j (List.mem_cons_self _ _)
    rw [List.foldlM_cons] at h
    obtain ⟨acc1, hstep, hrest⟩ := except_bind_ok h
    unfold distSeedStep at hstep
    obtain ⟨b, hUR, hif⟩ := except_bind_ok hstep
    obtain ⟨k, hkE, hkpos⟩ := edgePos_lt s hEF hmono halign hfeiN
      s.rootNodeOrdinal j hroot hjn
    have hal : s.edge (s.firstEdgeIndexes.getD s.rootNodeOrdinal 0 +
        j * s.edgeFieldsCount + s.edgeToNodeOffset) % s.nodeFieldCount = 0 := by
      rw [hkpos]
      exact htargets k hkE
    have hcal : s.edge (s.firstEdgeIndexes.getD s.rootNodeOrdinal 0 +
        j * s.edgeFieldsCount + s.edgeToNodeOffset) =
        (s.edge (s.firstEdgeIndexes.getD s.rootNodeOrdinal 0 +
          j * s.edgeFieldsCount + s.edgeToNodeOffset) / s.nodeFieldCount) *
        s.nodeFieldCount :=
      (Nat.div_mul_cancel (Nat.dvd_of_mod_eq_zero hal)).symm
    cases b with
    | false =>
      have hacc : acc1 = (d0, q0) := by
        simpa [pure, Except.pure] using hif.symm
      subst hacc
      obtain ⟨k1, k2, k3, k4, k5, k6, k7, k8⟩ :=
        ih d0 q0 d1 q1 (fun j' hj' => hjs j' (List.mem_cons_of_mem _ hj')) hrest
          hsz hsound hnn hq hw
      refine ⟨k1, k2, k3, k4, k5, k6, k7, ?_⟩
      intro j' hj' hTrue htlt
      rcases List.mem_cons.mp hj' with hj'' | hj''
      · subst hj''
        rw [hUR] at hTrue
        exact absurd (Except.ok.inj hTrue) (by decide)
      · exact k8 j' hj'' hTrue htlt
    | true =>
      have hacc : acc1 = (d0.setD (s.edge (s.firstEdgeIndexes.getD s.rootNodeOrdinal 0 +
          j * s.edgeFieldsCount + s.edgeToNodeOffset) / s.nodeFieldCount) 1,
          q0 ++ [s.edge (s.firstEdgeIndexes.getD s.rootNodeOrdinal 0 +
            j * s.edgeFieldsCount + s.edgeToNodeOffset)]) := by
        simpa [pure, Except.pure] using hif.symm
      subst hacc
      have hwreach : DistReach s fuel f (distTarget s s.rootNodeOrdinal j) :=
        DistReach.seed j hjn hUR
      have hmark : ∀ v, d0.getD v 0 ≠ noDistance →
          (d0.setD (distTarget s s.rootNodeOrdinal j) (1 : Int)).getD v 0 ≠ noDistance := by
        intro v hv
        by_cases hvw : v = distTarget s s.rootNodeOrdinal j
        · subst hvw
          by_cases hsz2 : distTarget s s.rootNodeOrdinal j < d0.size
          · rw [getD_setD_self_gen _ _ _ _ hsz2]
            decide
          · rw [setD_oob_gen _ _ _ (by omega)]
            exact hv
        · rw [getD_setD_ne_gen _ _ _ _ _ hvw]
          exact hv
      have hs1 : ∀ v, v < s.nodeCount →
          (d0.setD (distTarget s s.rootNodeOrdinal j) (1 : Int)).getD v 0 ≠ noDistance →
          DistReach s fuel f v := by
        intro v hv hm
        by_cases hvw : v = distTarget s s.rootNodeOrdinal j
        · subst hvw
          exact hwreach
        · rw [getD_setD_ne_gen _ _ _ _ _ hvw] at hm
          exact hsound v hv hm
      have hs2 : ∀ v, v < s.nodeCount →
          (d0.setD (distTarget s s.rootNodeOrdinal j) (1 : Int)).getD v 0 = noDistance ∨
          0 ≤ (d0.setD (distTarget s s.rootNodeOrdinal j) (1 : Int)).getD v 0 := by
        intro v hv
        by_cases hvw : v = distTarget s s.rootNodeOrdinal j
        · subst hvw
          rw [getD_setD_self_gen _ _ _ _ (by rw [hsz]; exact hv)]
          right
          omega
        · rw [getD_setD_ne_gen _ _ _ _ _ hvw]
          exact hnn v hv
      have hs3 : ∀ idx ∈ q0 ++ [s.edge (s.firstEdgeIndexes.getD s.rootNodeOrdinal 0 +
          j * s.edgeFieldsCount + s.edgeToNodeOffset)],
          idx = (idx / s.nodeFieldCount) * s.nodeFieldCount ∧
          (idx / s.nodeFieldCount < s.nodeCount →
            (d0.setD (distTarget s s.rootNodeOrdinal j) (1 : Int)).getD
              (idx / s.nodeFieldCount) 0 ≠ noDistance) := by
        intro idx hidx
        rcases List.mem_append.mp hidx with hidx | hidx
        · obtain ⟨ha, hb⟩ := hq idx hidx
          refine ⟨ha, ?_⟩
          intro hlt
          exact hmark _ (hb hlt)
        · rw [List.mem_singleton.mp hidx]
          refine ⟨hcal, ?_⟩
          intro hlt
          rw [show s.edge (s.firstEdgeIndexes.getD s.rootNodeOrdinal 0 +
            j * s.edgeFieldsCount + s.edgeToNodeOffset) / s.nodeFieldCount =
            distTarget s s.rootNodeOrdinal j from rfl]
          rw [getD_setD_self_gen _ _ _ _ (by rw [hsz]; exact hlt)]
          decide
      have hs4 : ∀ v, v < s.nodeCount →
          (d0.setD (distTarget s s.rootNodeOrdinal j) (1 : Int)).getD v 0 ≠ noDistance →
          ∃ idx ∈ q0 ++ [s.edge (s.firstEdgeIndexes.getD s.rootNodeOrdinal 0 +
            j * s.edgeFieldsCount + s.edgeToNodeOffset)], idx / s.nodeFieldCount = v := by
        intro v hv hm
        by_cases hvw : v = distTarget s s.rootNodeOrdinal j
        · subst hvw
          exact ⟨s.edge (s.firstEdgeIndexes.getD s.rootNodeOrdinal 0 +
            j * s.edgeFieldsCount + s.edgeToNodeOffset),
            List.mem_append_right _ (List.mem_singleton.mpr rfl), rfl⟩
        · rw [getD_setD_ne_gen _ _ _ _ _ hvw] at hm
          obtain ⟨idx, hidx, hiv⟩ := hw v hv hm
          exact ⟨idx, List.mem_append_left _ hidx, hiv⟩
      obtain ⟨k1, k2, k3, k4, k5, k6, k7, k8⟩ :=
        ih _ _ d1 q1 (fun j' hj' => hjs j' (List.mem_cons_of_mem _ hj')) hrest
          (by rw [Array.size_setD]; exact hsz) hs1 hs2 hs3 hs4
      refine ⟨k1, k2, k3, ?_, k5, ?_, k7, ?_⟩
      · intro v hv
        exact k4 v (hmark v hv)
      · intro idx hidx
        exact k6 idx (List.mem_append_left _ hidx)
      · intro j' hj' hTrue htlt
        rcases List.mem_cons.mp hj' with hj'' | hj''
        · subst hj''
          apply k4
          show (d0.setD (distTarget s s.rootNodeOrdinal j') (1 : Int)).getD
            (distTarget s s.rootNodeOrdinal j') 0 ≠ noDistance
          rw [getD_setD_self_gen _ _ _ _ (by rw [hsz]; exact htlt)]
          decide
        · exact k8 j' hj'' hTrue htlt

/-- C6 (amended): for a successful `calculateDistances` run with a pure edge
filter, a node ordinal's distance differs from `noDistance` exactly when the
ordinal is reachable in the filtered non-weak sense captured by `DistReach`
(root, user-root children of root edges, and filter-approved non-weak edge
steps). -/
theorem calculateDistances_spec (s : Snap) (f : Nat → Nat → Bool) (fuel : Nat) (s' : Snap)
    (hNF : 0 < s.nodeFieldCount) (hEF : 0 < s.edgeFieldsCount)
    (hroot : s.rootNodeOrdinal < s.nodeCount)
    (hrootAlign : s.rootNodeIndexInternal = s.rootNodeOrdinal * s.nodeFieldCount)
    (hmono : ∀ v, v < s.nodeCount →
      s.firstEdgeIndexes.getD v 0 ≤ s.firstEdgeIndexes.getD (v + 1) 0)
    (halign : ∀ v, v ≤ s.nodeCount → s.edgeFieldsCount ∣ s.firstEdgeIndexes.getD v 0)
    (hfeiN : s.firstEdgeIndexes.getD s.nodeCount 0 = s.edgeCount * s.edgeFieldsCount)
    (htargets : ∀ k, k < s.edgeCount →
      s.edge (k * s.edgeFieldsCount + s.edgeToNodeOffset) % s.nodeFieldCount = 0)
    (hfeiSz : s.firstEdgeIndexes.size = s.nodeCount + 1)
    (h : calculateDistances s (some (fun (x : Unit) n e => (f n e, x))) () fuel =
      Except.ok s') :
    ∀ v, v < s.nodeCount →
      (s'.nodeDistances.getD v 0 ≠ noDistance ↔ DistReach s fuel f v) := by
  unfold calculateDistances at h
  obtain ⟨seeded, hseed, h⟩ := except_bind_ok h
  obtain ⟨ds, qs⟩ := seeded
  dsimp only at h
  obtain ⟨p1, hbfs1, h⟩ := except_bind_ok h
  obtain ⟨d1, fs1⟩ := p1
  cases fs1
  dsimp only at h
  obtain ⟨p2, hbfs2, h⟩ := except_bind_ok h
  obtain ⟨d2, fs2⟩ := p2
  dsimp only at h
  have hsd : s'.nodeDistances = d2 := by
    simp only [pure, Except.pure, Except.ok.injEq] at h
    rw [← h]
  have hinit : ∀ v, v < s.nodeCount →
      (Array.mkArray s.nodeCount noDistance).getD v 0 = noDistance :=
    fun v hv => getD_mkArray_of_lt _ _ hv
  obtain ⟨S1, S2, S3, S4, S5, S6, S7, S8⟩ :=
    distSeed_inv s fuel f hNF hEF hmono halign hfeiN htargets hroot
      (List.range ((s.firstEdgeIndexes.getD (s.rootNodeOrdinal + 1) 0 -
        s.firstEdgeIndexes.getD s.rootNodeOrdinal 0) / s.edgeFieldsCount))
      (Array.mkArray s.nodeCount noDistance) [] ds qs
      (fun j hj => List.mem_range.mp hj) hseed
      (by rw [Array.size_mkArray])
      (fun v hv hm => absurd (hinit v hv) hm)
      (fun v hv => Or.inl (hinit v hv))
      (fun idx hidx => absurd hidx (List.not_mem_nil idx))
      (fun v hv hm => absurd (hinit v hv) hm)
  obtain ⟨B1, B2, B3, B4, B5⟩ :=
    bfsLoop_inv s fuel f hNF hEF hmono halign hfeiN htargets hfeiSz
      fuel qs qs.length ds d1 () hbfs1 S1 S2 S3 S5
      (fun v hv hm => Or.inl (S7 v hv hm))
  have hrsz : s.rootNodeOrdinal < d1.size := by
    rw [B1]
    exact hroot
  have hc1 : (if qs.length > 0 then baseSystemDistance else (0 : Int)) ≠ noDistance := by
    split <;> decide
  have hc2 : (0 : Int) ≤ (if qs.length > 0 then baseSystemDistance else 0) := by
    split <;> decide
  have hdrmono : ∀ w, d1.getD w 0 ≠ noDistance →
      (d1.setD s.rootNodeOrdinal (if qs.length > 0 then baseSystemDistance else 0)).getD
        w 0 ≠ noDistance := by
    intro w hw
    by_cases hvw : w = s.rootNodeOrdinal
    · subst hvw
      rw [getD_setD_self_gen _ _ _ _ hrsz]
      exact hc1
    · rw [getD_setD_ne_gen _ _ _ _ _ hvw]
      exact hw
  have hrootmark : (d1.setD s.rootNodeOrdinal
      (if qs.length > 0 then baseSystemDistance else 0)).getD
      s.rootNodeOrdinal 0 ≠ noDistance := by
    rw [getD_setD_self_gen _ _ _ _ hrsz]
    exact hc1
  have hSound2 : ∀ v, v < s.nodeCount →
      (d1.setD s.rootNodeOrdinal (if qs.length > 0 then baseSystemDistance else 0)).getD
        v 0 ≠ noDistance → DistReach s fuel f v := by
    intro v hv hm
    by_cases hvw : v = s.rootNodeOrdinal
    · subst hvw
      exact DistReach.root
    · rw [getD_setD_ne_gen _ _ _ _ _ hvw] at hm
      exact B2 v hv hm
  have hNn2 : ∀ v, v < s.nodeCount →
      (d1.setD s.rootNodeOrdinal (if qs.length > 0 then baseSystemDistance else 0)).getD
        v 0 = noDistance ∨
      0 ≤ (d1.setD s.rootNodeOrdinal
        (if qs.length > 0 then baseSystemDistance else 0)).getD v 0 := by
    intro v hv
    by_cases hvw : v = s.rootNodeOrdinal
    · subst hvw
      rw [getD_setD_self_gen _ _ _ _ hrsz]
      right
      exact hc2
    · rw [getD_setD_ne_gen _ _ _ _ _ hvw]
      exact B3 v hv
  have hQ2 : ∀ idx ∈ [s.rootNodeIndexInternal],
      idx = (idx / s.nodeFieldCount) * s.nodeFieldCount ∧
      (idx / s.nodeFieldCount < s.nodeCount →
        (d1.setD s.rootNodeOrdinal
          (if qs.length > 0 then baseSystemDistance else 0)).getD
          (idx / s.nodeFieldCount) 0 ≠ noDistance) := by
    intro idx hidx
    rw [List.mem_singleton.mp hidx]
    refine ⟨hrootAlign, ?_⟩
    intro _
    exact hrootmark
  have hCl2 : ∀ v, v < s.nodeCount →
      (d1.setD s.rootNodeOrdinal (if qs.length > 0 then baseSystemDistance else 0)).getD
        v 0 ≠ noDistance →
      (∃ idx ∈ [s.rootNodeIndexInternal], idx / s.nodeFieldCount = v) ∨
      distClosed s f (d1.setD s.rootNodeOrdinal
        (if qs.length > 0 then baseSystemDistance else 0)) v := by
    intro v hv hm
    by_cases hvw : v = s.rootNodeOrdinal
    · subst hvw
      exact Or.inl ⟨s.rootNodeIndexInternal, List.mem_singleton.mpr rfl, rfl⟩
    · rw [getD_setD_ne_gen _ _ _ _ _ hvw] at hm
      right
      intro j hall htlt
      exact hdrmono _ (B5 v hv hm j hall htlt)
  obtain ⟨F1, F2, F3, F4, F5⟩ :=
    bfsLoop_inv s fuel f hNF hEF hmono halign hfeiN htargets hfeiSz
      fuel [s.rootNodeIndexInternal] 1
      (d1.setD s.rootNodeOrdinal (if qs.length > 0 then baseSystemDistance else 0))
      d2 fs2 hbfs2
      (by rw [Array.size_setD]; exact B1) hSound2 hNn2 hQ2 hCl2
  have hcompl : ∀ w, DistReach s fuel f w → w < s.nodeCount →
      d2.getD w 0 ≠ noDistance := by
    intro w hw
    induction hw with
    | root =>
      intro hwlt
      exact F4 _ hrootmark
    | seed j hj hUR =>
      intro hwlt
      exact F4 _ (hdrmono _ (B4 _ (S8 j (List.mem_range.mpr hj) hUR hwlt)))
    | step u j hru hu hall ihm =>
      intro hwlt
      exact F5 u hu (ihm hu) j hall hwlt
  intro v hv
  rw [hsd]
  exact ⟨fun hm => F2 v hv hm, fun hr => hcompl v hr hv⟩

/-- C6 counterexample: in `exampleChainIndexed` the tail node (ordinal 2) is
reachable from the root along non-weak edges, yet a run whose edge filter
rejects every edge leaves its distance at `noDistance` — the filter is not
ignored. -/
theorem calculateDistances_filter_counterexample :
    ∃ s' : Snap,
      calculateDistances exampleChainIndexed
        (some (fun (x : Unit) _ _ => (false, x))) () 20 = Except.ok s' ∧
      DistReach exampleChainIndexed 20 (fun _ _ => true) 2 ∧
      s'.nodeDistances.getD 2 0 = noDistance := by
  refine ⟨_, rfl, ?_, ?_⟩
  · have h1 : DistReach exampleChainIndexed 20 (fun _ _ => true)
        (distTarget exampleChainIndexed 0 0) :=
      DistReach.step 0 0 DistReach.root (by decide) (by unfold distAllowed; decide)
    have h2 : DistReach exampleChainIndexed 20 (fun _ _ => true)
        (distTarget exampleChainIndexed (distTarget exampleChainIndexed 0 0) 0) :=
      DistReach.step _ 0 h1 (by decide) (by unfold distAllowed; decide)
    exact h2
  · decide

/-- Witness: `calculateDistances_spec` applied to `exampleChainIndexed` with
the always-true filter at ordinal 2. -/
theorem calculateDistances_spec_witness :
    ∃ s' : Snap,
      calculateDistances exampleChainIndexed
        (some (fun (x : Unit) n e => ((fun _ _ => true) n e, x))) () 20 =
        Except.ok s' ∧
      (s'.nodeDistances.getD 2 0 ≠ noDistance ↔
        DistReach exampleChainIndexed 20 (fun _ _ => true) 2) := by
  refine ⟨_, rfl, ?_⟩
  exact calculateDistances_spec exampleChainIndexed (fun _ _ => true) 20 _
    (by decide) (by decide) (by decide) (by decide) (by decide) (by decide)
    (by decide) (by decide) (by decide) rfl 2 (by decide)

end HeapSnap
